import Mathlib

/-!
# Esp32IcmpPing: a shallow embedding and its verified properties

The development embeds the ICMP echo ("ping") library for the ESP32
(`Esp32IcmpPing.h`, `IcmpPacket.h`, `Esp32IcmpPing.cpp`) as Lean functions.

Conventions of the embedding

* Machine integers are natural numbers or integers; a conversion to a `w`-bit
  unsigned type is an explicit `% 2^w`.
* The target is little-endian (ESP32): a 16-bit store writes the low byte first.
* A pointer into memory is a function from byte offsets to byte values.
* `float` is IEEE-754 binary32 with round-to-nearest-even (type `F32` below).
* The transport (lwIP sockets), the resolver and the clocks are external; their
  answers are the fields of a `World`, and every call made to them is recorded
  in a trace of `Call`s.
* Diagnostic printing (`OutputLn`, `ErrorLn`) does not influence control flow
  and is left out; `ErrorLn` is the value `false`.
-/

namespace Esp32

/-! ## Definitions -/

/-! ### Probe configuration (`class PingOptions`, Esp32IcmpPing.h) -/

/-- The constant `PingOptions::DEFAULT_COUNT`. -/
def DEFAULT_COUNT : Nat := 4

/-- The constant `PingOptions::MAX_COUNT`. -/
def MAX_COUNT : Nat := 10

/-- The constant `PingOptions::DEFAULT_RECV_TIMEOUT_MS`. -/
def DEFAULT_RECV_TIMEOUT_MS : Nat := 1000

/-- The constant `PingOptions::DEFAULT_TOTAL_TIMEOUT_MS`. -/
def DEFAULT_TOTAL_TIMEOUT_MS : Nat := 0

/-- The constant `PingOptions::FIXED_MESSAGE_BYTE_COUNT`. -/
def FIXED_MESSAGE_BYTE_COUNT : Nat := 32

/-- The private data members of `PingOptions`:
`_host`, `_ip4` (uint32), `_count` (uint8), `_recvTimeoutMs` (uint16),
`_totalTimeoutMs` (uint16). -/
structure PingOptions where
  host : String
  ip4 : Nat
  count : Nat
  recvTimeoutMs : Nat
  totalTimeoutMs : Nat
  deriving DecidableEq, Repr

/-- The fields of a `PingOptions` object lie in the ranges of their C++ types. -/
def PingOptions.InRange (o : PingOptions) : Prop :=
  o.ip4 < 2 ^ 32 ∧ o.count < 2 ^ 8 ∧ o.recvTimeoutMs < 2 ^ 16 ∧ o.totalTimeoutMs < 2 ^ 16

instance (o : PingOptions) : Decidable o.InRange := by
  unfold PingOptions.InRange
  exact inferInstance

/-- The private five-argument constructor of `PingOptions`; the arguments are
converted to their parameter types first. -/
def PingOptions.create (ip4 : Nat) (host : String) (cnt recvTimeoutMs totalTimeoutMs : Nat) :
    PingOptions :=
  { ip4 := ip4 % 2 ^ 32
    host := host
    count := if cnt % 2 ^ 8 > MAX_COUNT then MAX_COUNT else cnt % 2 ^ 8
    recvTimeoutMs :=
      if recvTimeoutMs % 2 ^ 16 > 0 then recvTimeoutMs % 2 ^ 16 else DEFAULT_RECV_TIMEOUT_MS
    totalTimeoutMs := totalTimeoutMs % 2 ^ 16 }

/-- The public constructor `PingOptions(ip4, cnt, recvTimeoutMs, totalTimeoutMs)`. -/
def PingOptions.ofIp4 (ip4 : Nat) (cnt : Nat := DEFAULT_COUNT)
    (recvTimeoutMs : Nat := DEFAULT_RECV_TIMEOUT_MS)
    (totalTimeoutMs : Nat := DEFAULT_TOTAL_TIMEOUT_MS) : PingOptions :=
  PingOptions.create ip4 "" cnt recvTimeoutMs totalTimeoutMs

/-- The public constructor `PingOptions(host, cnt, recvTimeoutMs, totalTimeoutMs)`. -/
def PingOptions.ofHost (host : String) (cnt : Nat := DEFAULT_COUNT)
    (recvTimeoutMs : Nat := DEFAULT_RECV_TIMEOUT_MS)
    (totalTimeoutMs : Nat := DEFAULT_TOTAL_TIMEOUT_MS) : PingOptions :=
  PingOptions.create 0 host cnt recvTimeoutMs totalTimeoutMs

/-- The accessor `PingOptions::Count`. -/
def PingOptions.Count (o : PingOptions) : Nat := o.count

/-- The accessor `PingOptions::ReceiveTimeoutMs`. -/
def PingOptions.ReceiveTimeoutMs (o : PingOptions) : Nat := o.recvTimeoutMs

/-- The accessor `PingOptions::ReceiveTimeoutSeconds` (uint16 result). -/
def PingOptions.ReceiveTimeoutSeconds (o : PingOptions) : Nat :=
  o.ReceiveTimeoutMs / 1000 % 2 ^ 16

/-- The accessor `PingOptions::ReceiveTimeoutMicros`. -/
def PingOptions.ReceiveTimeoutMicros (o : PingOptions) : Nat :=
  o.ReceiveTimeoutMs % 1000 * 1000

/-- The private `PingOptions::CalcTotalTimeoutMs`: the operands are promoted to
`int`, multiplied, and the product is converted to the `uint32_t` result. -/
def PingOptions.CalcTotalTimeoutMs (o : PingOptions) : Nat :=
  o.Count * o.ReceiveTimeoutMs % 2 ^ 32

/-- The accessor `PingOptions::TotalTimeoutMs` (uint32 result). -/
def PingOptions.TotalTimeoutMs (o : PingOptions) : Nat :=
  if o.totalTimeoutMs = 0 then o.CalcTotalTimeoutMs else o.totalTimeoutMs

/-- The predicate `PingOptions::IsValid`. -/
def PingOptions.IsValid (o : PingOptions) : Bool :=
  (o.ip4 != 0 || decide (o.host.length > 0)) &&
  decide (o.Count > 0) && decide (o.Count ≤ MAX_COUNT) &&
  decide (o.ReceiveTimeoutMs > 0) &&
  (o.totalTimeoutMs == 0 || decide (o.totalTimeoutMs ≥ o.CalcTotalTimeoutMs))

/-! ### ICMP packets (IcmpPacket.h) -/

/-- Modelled from the spec: `sizeof(icmp_echo_hdr)`, a type of lwIP that is not part
of the repository; the ICMP header is 8 bytes (type, code, 16-bit checksum,
16-bit identifier, 16-bit sequence number), as the source comment
"8 + 32 == 40" also says. -/
def sizeof_icmp_echo_hdr : Nat := 8

/-- Modelled from the spec: `ICMP_ECHO` of lwIP, type 8 (Echo Request). -/
def ICMP_ECHO : Nat := 8

/-- Modelled from the spec: `ICMP_ER` of lwIP, type 0 (Echo Reply). -/
def ICMP_ER : Nat := 0

/-- The constant `IcmpPacket::echo_data_byte_count`. -/
def echo_data_byte_count : Nat := FIXED_MESSAGE_BYTE_COUNT

/-- The constant `IcmpEchoRequest::echo_byte_count`. -/
def echo_byte_count : Nat := sizeof_icmp_echo_hdr + echo_data_byte_count

/-- The constant `IcmpEchoRequest::PING_ID`. -/
def PING_ID : Nat := 0xABAB

/-- Modelled from the spec: `htons` of lwIP on the little-endian target, the
conversion of a 16-bit value to network byte order: it swaps the two bytes. -/
def htons (n : Nat) : Nat := n % 256 * 256 + n / 256 % 256

/-- A one-byte store `buf[off] = (unsigned char) v`. -/
def store8 (buf : List Nat) (off v : Nat) : List Nat := buf.set off (v % 256)

/-- A 16-bit store of `v` at byte offset `off` on the little-endian target. -/
def store16 (buf : List Nat) (off v : Nat) : List Nat :=
  store8 (store8 buf off v) (off + 1) (v / 256)

/-- The 16-bit words of a byte string in network byte order; an odd last byte is
padded with a zero byte. -/
def words16 : List Nat → List Nat
  | a :: b :: rest => (a * 256 + b) :: words16 rest
  | [a] => [a * 256]
  | [] => []

/-- One's-complement addition of two 16-bit words: the carry out of bit 15 is
added back in. -/
def onesAdd (a b : Nat) : Nat := (a + b) % 65536 + (a + b) / 65536

/-- The one's-complement sum of a list of 16-bit words. -/
def onesSum (ws : List Nat) : Nat := ws.foldl onesAdd 0

/-- The standard Internet checksum (RFC 1071) of a byte string, as a 16-bit
number: the complement of the one's-complement sum of its 16-bit words. -/
def internetChecksum (bytes : List Nat) : Nat := 65535 - onesSum (words16 bytes)

/-- Modelled from the spec: `inet_chksum(dataptr, len)` of lwIP, which is not part
of the repository. It computes the standard Internet checksum of the `len` bytes
(the one's complement of the one's-complement sum of the 16-bit words) and
returns it in network byte order, so that the 16-bit store into the header puts
the checksum on the wire high byte first. The argument is the list of the
`len` bytes. -/
def inet_chksum (bytes : List Nat) : Nat := htons (internetChecksum bytes)

/-- The constructor `IcmpEchoRequest::IcmpEchoRequest(ping_seq_num)`; the value
is the content of `_echo_data`, that is `Data()` with `Size() = echo_byte_count`.
The header fields of `icmp_echo_hdr` are at offsets 0 (type), 1 (code),
2 (chksum), 4 (id), 6 (seqno). -/
def IcmpEchoRequest (ping_seq_num : Nat) : List Nat :=
  -- Zero()
  let d0 := List.replicate echo_byte_count 0
  -- ICMPH_TYPE_SET(Header(), ICMP_ECHO)
  let d1 := store8 d0 0 ICMP_ECHO
  -- Header()->id = PING_ID
  let d2 := store16 d1 4 PING_ID
  -- Header()->seqno = htons(ping_seq_num)
  let d3 := store16 d2 6 (htons (ping_seq_num % 2 ^ 16))
  -- for (i = 0; i < echo_data_byte_count; i++) _echo_data[sizeof(icmp_echo_hdr) + i] = i
  let d4 := (List.range echo_data_byte_count).foldl
    (fun d i => store8 d (sizeof_icmp_echo_hdr + i) i) d3
  -- Header()->chksum = inet_chksum(Data(), Size())
  store16 d4 2 (inet_chksum d4)

/-- The base class `IcmpPacket`: the pointer `_data`, as the function giving the
byte found at each offset from it, and the 16-bit `_size`. -/
structure IcmpPacket where
  data : Nat → Nat
  size : Nat

/-- The packet view of a byte string: `IcmpPacket(data, size)` over its bytes. -/
def IcmpPacket.ofBytes (bytes : List Nat) : IcmpPacket :=
  { data := fun i => bytes.getD i 0, size := bytes.length % 2 ^ 16 }

/-- A one-byte load at offset `off` from `_data`. -/
def IcmpPacket.load8 (p : IcmpPacket) (off : Nat) : Nat := p.data off % 256

/-- A 16-bit load at offset `off` from `_data` on the little-endian target. -/
def IcmpPacket.load16 (p : IcmpPacket) (off : Nat) : Nat :=
  p.load8 off + 256 * p.load8 (off + 1)

/-- The field `Header()->type`. -/
def IcmpPacket.type (p : IcmpPacket) : Nat := p.load8 0

/-- The field `Header()->code`. -/
def IcmpPacket.code (p : IcmpPacket) : Nat := p.load8 1

/-- The field `Header()->chksum`. -/
def IcmpPacket.chksum (p : IcmpPacket) : Nat := p.load16 2

/-- The field `Header()->id`. -/
def IcmpPacket.id (p : IcmpPacket) : Nat := p.load16 4

/-- The field `Header()->seqno`. -/
def IcmpPacket.seqno (p : IcmpPacket) : Nat := p.load16 6

/-- The predicate `IcmpEchoResponse::IsValid(ping_seq_num)`. -/
def IcmpEchoResponse.IsValid (p : IcmpPacket) (ping_seq_num : Nat) : Bool :=
  decide (p.size ≥ sizeof_icmp_echo_hdr) &&
  p.type == ICMP_ER &&
  p.code == 0 &&
  p.id == PING_ID &&
  p.seqno == htons (ping_seq_num % 2 ^ 16)

/-! ### Single-precision floating point

`float` on the target is IEEE-754 binary32, rounded to nearest with ties to
even. Every finite binary32 number is an integer multiple of `2^-149`, the
smallest subnormal, so a finite `float` is represented by that integer: the
value of `x : F32` is `x * 2^-149`. The two zeros are one value (the program
only compares and adds them). Infinities and NaN are not represented: the
rounding below is exact binary32 rounding for magnitudes below `2^128`, and the
program divides only by quantities it has checked to be non-zero. -/

/-- A finite binary32 number, as its integer count of units of `2^-149`. -/
abbrev F32 := Int

/-- The binade of a magnitude of `q` units: the largest `e` below 256 with
`2^(23+e) ≤ q` (0 if there is none), found bit by bit from the top; the test
`2^t ≤ q` is made as `0 < q >>> t`. -/
def F32.binade (q : Nat) : Nat :=
  [128, 64, 32, 16, 8, 4, 2, 1].foldl (fun e k => if 0 < q >>> (23 + e + k) then e + k else e) 0

/-- The spacing (in units) of binary32 numbers in the binade of a magnitude of
`q` units: 1 below `2^24` units (subnormals and the first normal binade),
doubling with each further binade. Finite numbers are below `2^277` units. -/
def F32.ulp (q : Nat) : Nat := 2 ^ F32.binade q

/-- The binary32 number nearest to the non-negative rational `a / b` units,
ties to the even significand. -/
def F32.roundNat (a b : Nat) : Nat :=
  let u := F32.ulp (a / b)
  let n := a / (b * u)
  let r := a % (b * u)
  if 2 * r < b * u then n * u
  else if 2 * r > b * u then (n + 1) * u
  else if n % 2 = 0 then n * u
  else (n + 1) * u

/-- The binary32 number nearest to the rational `a / b` units, `b > 0`. -/
def F32.round (a : Int) (b : Nat) : F32 :=
  if a < 0 then -((F32.roundNat a.natAbs b : Nat) : Int) else ((F32.roundNat a.natAbs b : Nat) : Int)

/-- The conversion of an integer to `float`. -/
def F32.ofInt (n : Int) : F32 := F32.round (n * ((2 ^ 149 : Nat) : Int)) 1

/-- The `float` sum `x + y`. -/
def F32.add (x y : F32) : F32 := F32.round (x + y) 1

/-- The `float` difference `x - y`. -/
def F32.sub (x y : F32) : F32 := F32.round (x - y) 1

/-- The `float` product `x * y`. -/
def F32.mul (x y : F32) : F32 := F32.round (x * y) (2 ^ 149)

/-- The `float` quotient `x / y`, for `y` not zero. -/
def F32.div (x y : F32) : F32 :=
  F32.round (x * ((2 ^ 149 : Nat) : Int) * Int.sign y) y.natAbs

/-- The fused multiply-add `x * y + z`, rounded once: the product is exact, in
units of `2^-298`. -/
def F32.fma (x y z : F32) : F32 :=
  F32.round (x * y + z * ((2 ^ 149 : Nat) : Int)) (2 ^ 149)

/-- The value that `z += x * y` gives to the `float` variable `z`. C++ lets the
compiler contract the expression into one fused multiply-add, as GCC does by
default (`-ffp-contract=fast`) for the FPU of the ESP32; `contract` says whether
it has: the contracted form rounds once, the other rounds the product and then
the sum. -/
def F32.mulAdd (contract : Bool) (x y z : F32) : F32 :=
  if contract then F32.fma x y z else F32.add z (F32.mul x y)

/-- The integer square root by bisection: the bits below bit `b` of the root of
`n` are added to `r` from the top down. -/
def F32.isqrtAux (n : Nat) : Nat → Nat → Nat
  | 0, r => r
  | b + 1, r => F32.isqrtAux n b (if (r + 2 ^ b) * (r + 2 ^ b) ≤ n then r + 2 ^ b else r)

/-- The integer square root of a number below `2^48`. -/
def F32.isqrt (n : Nat) : Nat := F32.isqrtAux n 24 0

/-- The binade of the square root of `n` square units: the largest `e` below 256
with `2^(23+e) ≤ sqrt n`, that is `2^(46+2e) ≤ n` (0 if there is none). -/
def F32.sqrtBinade (n : Nat) : Nat :=
  [128, 64, 32, 16, 8, 4, 2, 1].foldl
    (fun e k => if 0 < n >>> (46 + 2 * (e + k)) then e + k else e) 0

/-- The `float` square root of a non-negative `x`, correctly rounded: the root of
`x * 2^-149` is `sqrt (x * 2^149)` units; with `u` the spacing in its binade,
`m` is the root divided by `u` and rounded down, and the root is compared with
`(m + 1/2) * u` by comparing the squares. -/
def F32.sqrt (x : F32) : F32 :=
  let n := x.toNat * 2 ^ 149
  let u := 2 ^ F32.sqrtBinade n
  let m := F32.isqrt (n / (u * u))
  if 4 * n < (2 * m + 1) * (2 * m + 1) * (u * u) then ((m * u : Nat) : Int)
  else if 4 * n > (2 * m + 1) * (2 * m + 1) * (u * u) then (((m + 1) * u : Nat) : Int)
  else if m % 2 = 0 then ((m * u : Nat) : Int)
  else (((m + 1) * u : Nat) : Int)

/-! ### Probe results (`class PingResults`, Esp32IcmpPing.h) -/

/-- The private data members of `PingResults`: `_transmitted_count` (uint8),
`_received_count` (uint8), `_total_timeMs` (uint16) and four `float`s. -/
structure PingResults where
  transmitted_count : Nat
  received_count : Nat
  total_timeMs : Nat
  min_timeMs : F32
  max_timeMs : F32
  avg_timeMs : F32
  sd_timeMs : F32
  deriving DecidableEq, Repr

/-- The default constructor `PingResults()`. -/
def PingResults.new : PingResults :=
  { transmitted_count := 0, received_count := 0, total_timeMs := 0,
    min_timeMs := 0, max_timeMs := 0, avg_timeMs := 0, sd_timeMs := 0 }

/-- The accessor `PingResults::Transmitted`. -/
def PingResults.Transmitted (r : PingResults) : Nat := r.transmitted_count

/-- The accessor `PingResults::Received`. -/
def PingResults.Received (r : PingResults) : Nat := r.received_count

/-- The accessor `PingResults::TimeoutCount` (uint16 result). -/
def PingResults.TimeoutCount (r : PingResults) : Nat :=
  if r.Transmitted > r.Received then (r.Transmitted - r.Received) % 2 ^ 16 else 0

/-- The accessor `PingResults::TotalTimeMs`. -/
def PingResults.TotalTimeMs (r : PingResults) : Nat := r.total_timeMs

/-- The accessor `PingResults::MinTimeMs`. -/
def PingResults.MinTimeMs (r : PingResults) : F32 := r.min_timeMs

/-- The accessor `PingResults::MaxTimeMs`. -/
def PingResults.MaxTimeMs (r : PingResults) : F32 := r.max_timeMs

/-- The accessor `PingResults::AveTimeMs`. -/
def PingResults.AveTimeMs (r : PingResults) : F32 := r.avg_timeMs

/-- The accessor `PingResults::StdDevTimeMs`. -/
def PingResults.StdDevTimeMs (r : PingResults) : F32 := r.sd_timeMs

/-- The predicate `PingResults::IsValid`. -/
def PingResults.IsValid (r : PingResults) : Bool :=
  decide (r.Transmitted ≥ r.Received) &&
  decide (r.TotalTimeMs > 0) &&
  decide (r.MaxTimeMs ≥ r.MinTimeMs) &&
  decide (r.AveTimeMs > 0)

/-- The accessor `PingResults::PercentTransmitted`. -/
def PingResults.PercentTransmitted (r : PingResults) : F32 :=
  if r.Transmitted = 0 ∨ r.IsValid = false then 0
  else F32.mul (F32.div (F32.ofInt r.TimeoutCount) (F32.ofInt r.Transmitted)) (F32.ofInt 100)

/-- The method `PingResults::SetResults`; the arguments are converted to the
parameter types (uint8, uint8, uint16, float ...). -/
def PingResults.SetResults (_r : PingResults) (transmitted received totalMs : Nat)
    (minMs maxMs meanMs sdMs : F32) : PingResults :=
  { transmitted_count := transmitted % 2 ^ 8
    received_count := received % 2 ^ 8
    total_timeMs := totalMs % 2 ^ 16
    min_timeMs := minMs
    max_timeMs := maxMs
    avg_timeMs := meanMs
    sd_timeMs := sdMs }

/-! ### The external world: transport, resolver and clocks -/

/-- Modelled from the spec: `EAGAIN` of the lwIP error numbers, the receive
timeout condition. -/
def EAGAIN : Int := 11

/-- Modelled from the spec: `EWOULDBLOCK` of the lwIP error numbers, which lwIP
defines as `EAGAIN`. -/
def EWOULDBLOCK : Int := EAGAIN

/-- Modelled from the spec: `sizeof(ip_hdr)` of lwIP, the 20-byte IPv4 header
without options (source comment: "Recv 2 headers 8 + 20 == 28 bytes"). -/
def sizeof_ip_hdr : Nat := 20

/-- Modelled from the spec: `IPH_HL(hdr)` of lwIP, the header-length field of an
IP header: the low four bits of its first byte, counting 32-bit words. -/
def IPH_HL (hdr : Nat → Nat) : Nat := hdr 0 % 256 % 16

/-- One call into the resolver or the transport. -/
inductive Call where
  | hostByName
  | socket
  | setsockopt (tv_sec tv_usec : Nat)
  | sendto (ip4 : Nat) (data : List Nat)
  | recvfrom
  | closesocket
  deriving DecidableEq, Repr

/-- What one `recvfrom` call and the two `gettimeofday` calls around it give:
the return value `len`, `errno`, the memory found from the start of the local
buffer `echo_packet` when the call returns (the first `len` bytes are the
datagram; the bytes after them are whatever the stack held), and the difference
`micros_end - micros_begin` as the platform computes it. -/
structure RecvResult where
  len : Int
  errno : Int
  echo_packet : Nat → Nat
  elapsedUs : Int

/-- The answers of the external collaborators during one `ping` call, and the
one choice of the build that the source leaves open. The calls made inside the
probe loop are indexed by the sequence number of the iteration that makes
them. -/
structure World where
  /-- The address that `WiFi.hostByName` resolves the host to, or `none` on failure. -/
  hostByName : String → Option Nat
  /-- The return value of `socket`. -/
  socket : Int
  /-- The return value of `setsockopt`. -/
  setsockopt : Int
  /-- The value of `millis()` read before the loop. -/
  millisStart : Nat
  /-- The return value of `sendto` in iteration `seq_num`. -/
  sendto : Nat → Int
  /-- The outcome of `recvfrom` in iteration `seq_num`. -/
  recvfrom : Nat → RecvResult
  /-- The value of the millisecond clock `millis()` at the end of iteration `seq_num`; the
  loop reads it there when the iteration runs to its end. -/
  millis : Nat → Nat
  /-- Whether the build has contracted `var_total_ms += diff * diff` into a fused
  multiply-add (see `F32.mulAdd`); the source does not determine it. -/
  fpContract : Bool

/-! ### The probe engine (`class Esp32IcmpPing`, Esp32IcmpPing.cpp) -/

/-- The data members of `Esp32IcmpPing` that influence control flow:
`_pingOptions` and `_inPing`. -/
structure Esp32IcmpPing where
  pingOptions : PingOptions
  inPing : Bool
  deriving DecidableEq, Repr

/-- The constructor `Esp32IcmpPing(pingOptions)`. -/
def Esp32IcmpPing.new (pingOptions : PingOptions) : Esp32IcmpPing :=
  { pingOptions := pingOptions, inPing := false }

/-- The accessor `Esp32IcmpPing::Options`. -/
def Esp32IcmpPing.Options (e : Esp32IcmpPing) : PingOptions := e.pingOptions

/-- The method `PingOptions::GetAddress`: the returned flag, the address written
to `ip4`, and the resolver calls made. -/
def PingOptions.GetAddress (o : PingOptions) (w : World) : Bool × Nat × List Call :=
  if o.host.length > 0 then
    match w.hostByName o.host with
    | none => (false, 0, [Call.hostByName])
    | some remote_addr => (remote_addr % 2 ^ 32 != 0, remote_addr % 2 ^ 32, [Call.hostByName])
  else if o.ip4 != 0 then (true, o.ip4, [])
  else (false, 0, [])

/-- The method `Esp32IcmpPing::CreateAndSetUpSocket`: the returned flag and the
transport calls made. -/
def Esp32IcmpPing.CreateAndSetUpSocket (e : Esp32IcmpPing) (w : World) : Bool × List Call :=
  if w.socket < 0 then (false, [Call.socket])
  else
    let tv_sec := e.Options.ReceiveTimeoutSeconds
    let tv_usec := e.Options.ReceiveTimeoutMicros
    if w.setsockopt < 0 then
      (false, [Call.socket, Call.setsockopt tv_sec tv_usec, Call.closesocket])
    else (true, [Call.socket, Call.setsockopt tv_sec tv_usec])

/-- The method `Esp32IcmpPing::Send`: builds the request for `seq_num` and hands
it to `sendto`; true when `sendto` returns a positive count. -/
def Esp32IcmpPing.Send (w : World) (ip4 seq_num : Nat) : Bool × List Call :=
  (decide (w.sendto seq_num > 0), [Call.sendto ip4 (IcmpEchoRequest seq_num)])

/-- The view `IcmpEchoResponse(echo_packet + ipHeaderBytes, len - ipHeaderBytes)`
that `Receive` builds: `ipHeaderBytes` is `IPH_HL(echo_packet) * sizeof(uint32_t)`,
and the size is `len - ipHeaderBytes` converted to `uint16_t`. -/
def Esp32IcmpPing.echoResponse (r : RecvResult) : IcmpPacket :=
  let ipHeaderBytes := IPH_HL r.echo_packet * 4
  { data := fun i => r.echo_packet (ipHeaderBytes + i)
    size := ((r.len - (ipHeaderBytes : Int)) % ((2 ^ 16 : Nat) : Int)).toNat }

/-- The method `Esp32IcmpPing::Receive` on the outcome `r` of its `recvfrom`
call: the returned flag, the value left in `elapsedMs`, and the value left in
`canContinue`. -/
def Esp32IcmpPing.Receive (r : RecvResult) (seq_num : Nat) : Bool × F32 × Bool :=
  let echo_recv_byte_hdr : Int := ((sizeof_ip_hdr + sizeof_icmp_echo_hdr : Nat) : Int)
  if r.len < 0 then
    if r.errno = EAGAIN ∨ r.errno = EWOULDBLOCK then (false, 0, true)
    else (false, 0, false)
  else if r.len = 0 then (false, 0, false)
  else if r.len < echo_recv_byte_hdr then (false, 0, false)
  else if IcmpEchoResponse.IsValid (Esp32IcmpPing.echoResponse r) seq_num = false then
    (false, 0, false)
  else
    let elapsedMs := F32.div (F32.ofInt r.elapsedUs) (F32.ofInt 1000)
    if elapsedMs ≤ 0 then (false, elapsedMs, true)
    else (true, elapsedMs, true)

/-- The value `millis() - ping_started_time` computed at the end of iteration
`seq_num`, in 32-bit unsigned arithmetic. -/
def World.elapsedMs (w : World) (seq_num : Nat) : Nat :=
  (w.millis seq_num % 2 ^ 32 + (2 ^ 32 - w.millisStart % 2 ^ 32)) % 2 ^ 32

/-- The local variables of `CallPing` that live across the probe loop, and the
transport calls made so far. -/
structure LoopState where
  transmitted : Nat
  received : Nat
  time_elapsed_ms : Nat
  min_time_ms : F32
  max_time_ms : F32
  times_ms : List F32
  mean_total_ms : F32
  trace : List Call
  deriving DecidableEq, Repr

/-- The body of the probe loop for `seq_num`: the state it leaves, and whether
the loop goes on to `++seq_num` (false when the body leaves by `break`). -/
def Esp32IcmpPing.pingStep (e : Esp32IcmpPing) (w : World) (ip4 seq_num : Nat)
    (st : LoopState) : LoopState × Bool :=
  let sent := Esp32IcmpPing.Send w ip4 seq_num
  let st := { st with trace := st.trace ++ sent.2 }
  if sent.1 = false then (st, false)
  else
    -- transmitted++
    let st := { st with transmitted := (st.transmitted + 1) % 2 ^ 8 }
    -- Receive(sock_fd, seq_num, times_ms[received], canContinue)
    let recv := Esp32IcmpPing.Receive (w.recvfrom seq_num) seq_num
    let st := { st with
      trace := st.trace ++ [Call.recvfrom]
      times_ms := st.times_ms.set st.received recv.2.1 }
    let st :=
      if recv.1 then
        -- times_ms[received], the value that Receive has just left there
        let t := recv.2.1
        { st with
          min_time_ms := if t < st.min_time_ms then t else st.min_time_ms
          max_time_ms := if t > st.max_time_ms then t else st.max_time_ms
          mean_total_ms := F32.add st.mean_total_ms t
          received := (st.received + 1) % 2 ^ 8 }
      else st
    if recv.2.2 = false then (st, false)
    else
      -- time_elapsed_ms = millis() - ping_started_time
      let st := { st with time_elapsed_ms := w.elapsedMs seq_num }
      if st.time_elapsed_ms > e.Options.TotalTimeoutMs then (st, false)
      else (st, true)

/-- The probe loop `for (uint16_t seq_num = ...; seq_num <= Options().Count(); ++seq_num)`
from the given `seq_num` on; `fuel` bounds the number of iterations. -/
def Esp32IcmpPing.pingLoop (e : Esp32IcmpPing) (w : World) (ip4 : Nat) :
    Nat → Nat → LoopState → LoopState
  | 0, _, st => st
  | fuel + 1, seq_num, st =>
    if seq_num ≤ e.Options.Count then
      let next := e.pingStep w ip4 seq_num st
      if next.2 then Esp32IcmpPing.pingLoop e w ip4 fuel ((seq_num + 1) % 2 ^ 16) next.1
      else next.1
    else st

/-- The variance pass `for (i = 0; i < received; ++i)` of `CallPing`; `contract`
says whether `var_total_ms += diff * diff` is a fused multiply-add. -/
def Esp32IcmpPing.varTotal (contract : Bool) (times_ms : List F32) (received : Nat)
    (mean_ms : F32) : F32 :=
  (List.range received).foldl
    (fun var_total_ms i =>
      let diff := F32.sub (times_ms.getD i 0) mean_ms
      -- var_total_ms += diff * diff
      F32.mulAdd contract diff diff var_total_ms)
    0

/-- The local variables of `CallPing` as initialised before the probe loop
("Track data", "Calculations"); `trace` holds the calls made during set-up. The
array `times_ms` has `MAX_COUNT` elements; each is written before it is read. -/
def Esp32IcmpPing.loopStart (trace : List Call) : LoopState :=
  { transmitted := 0
    received := 0
    time_elapsed_ms := 0
    min_time_ms := F32.ofInt 1000000000
    max_time_ms := 0
    times_ms := List.replicate MAX_COUNT 0
    mean_total_ms := 0
    trace := trace }

/-- The end of `CallPing` after the probe loop has left the state `st`:
`closesocket`, the mean, the variance pass, the standard deviation,
`SetResults`, and the returned flag `received > 0`; `contract` says whether the
build has contracted the multiply-add of the variance pass. -/
def Esp32IcmpPing.finish (st : LoopState) (result : PingResults) (contract : Bool) :
    Bool × PingResults × List Call :=
  let mean_ms : F32 :=
    if st.received > 0 then F32.div st.mean_total_ms (F32.ofInt st.received) else 0
  let var_total_ms := Esp32IcmpPing.varTotal contract st.times_ms st.received mean_ms
  let sd_ms : F32 :=
    if var_total_ms > 0 then F32.sqrt (F32.div var_total_ms (F32.ofInt st.received)) else 0
  (decide (st.received > 0),
    result.SetResults st.transmitted st.received (st.time_elapsed_ms % 2 ^ 16)
      st.min_time_ms st.max_time_ms mean_ms sd_ms,
    st.trace ++ [Call.closesocket])

/-- The method `Esp32IcmpPing::CallPing`: the returned flag, the caller's
`result` object afterwards, and the resolver and transport calls made. The
loop is given `Count()` iterations of fuel, one for each value `seq_num` takes
from 1 to `Count()`. -/
def Esp32IcmpPing.CallPing (e : Esp32IcmpPing) (w : World) (result : PingResults) :
    Bool × PingResults × List Call :=
  let addr := e.Options.GetAddress w
  if addr.1 = false then (false, result, addr.2.2)
  else if e.Options.IsValid = false then (false, result, addr.2.2)
  else
    let sock := e.CreateAndSetUpSocket w
    if sock.1 = false then (false, result, addr.2.2 ++ sock.2)
    else
      Esp32IcmpPing.finish
        (e.pingLoop w addr.2.1 e.Options.Count 1 (Esp32IcmpPing.loopStart (addr.2.2 ++ sock.2)))
        result w.fpContract

/-- The method `Esp32IcmpPing::ping(result)`: the returned flag, the caller's
`result` afterwards, the engine afterwards, and the calls made. -/
def Esp32IcmpPing.ping (e : Esp32IcmpPing) (w : World) :
    Bool × PingResults × Esp32IcmpPing × List Call :=
  -- result = PingResults()
  let result := PingResults.new
  if e.inPing then (false, result, e, [])
  else
    let e1 := { e with inPing := true }
    let ret := e1.CallPing w result
    (ret.1, ret.2.1, { e1 with inPing := false }, ret.2.2)

/-! ### Auxiliary notions for stating session properties -/

/-- Iteration `seq_num` of the probe loop runs to its end and the loop goes on:
the send succeeds, `Receive` leaves `canContinue` set, and the time elapsed
since the start of the session does not exceed `TotalTimeoutMs()`. -/
def Esp32IcmpPing.Continues (e : Esp32IcmpPing) (w : World) (seq_num : Nat) : Prop :=
  w.sendto seq_num > 0 ∧
    (Esp32IcmpPing.Receive (w.recvfrom seq_num) seq_num).2.2 = true ∧
    w.elapsedMs seq_num ≤ e.Options.TotalTimeoutMs

/-- Iteration `seq_num` of the probe loop gets its reply: the send succeeds,
`Receive` returns true (a valid reply with a positive elapsed time), and the
time elapsed since the start of the session does not exceed `TotalTimeoutMs()`. -/
def Esp32IcmpPing.Replies (e : Esp32IcmpPing) (w : World) (seq_num : Nat) : Prop :=
  w.sendto seq_num > 0 ∧
    (Esp32IcmpPing.Receive (w.recvfrom seq_num) seq_num).1 = true ∧
    w.elapsedMs seq_num ≤ e.Options.TotalTimeoutMs

/-- The loop state after `n` consecutive iterations starting with `seq_num`. -/
def Esp32IcmpPing.stateAfter (e : Esp32IcmpPing) (w : World) (ip4 : Nat) :
    Nat → Nat → LoopState → LoopState
  | 0, _, st => st
  | n + 1, seq_num, st =>
    Esp32IcmpPing.stateAfter e w ip4 n (seq_num + 1) (e.pingStep w ip4 seq_num st).1

/-- The transport calls of the iterations `seq_num`, ..., `seq_num + n - 1` when
each of them sends and receives: one `sendto` of the request for the sequence
number and one `recvfrom` per iteration. -/
def Esp32IcmpPing.probeCalls (ip4 seq_num n : Nat) : List Call :=
  (List.range' seq_num n).flatMap (fun j => [Call.sendto ip4 (IcmpEchoRequest j), Call.recvfrom])

/-- The session reaches the probe loop: the engine is idle, the address
resolves, the options are valid and the socket is set up. -/
def Esp32IcmpPing.ReachesLoop (e : Esp32IcmpPing) (w : World) : Prop :=
  e.inPing = false ∧ (e.Options.GetAddress w).1 = true ∧ e.Options.IsValid = true ∧
    (e.CreateAndSetUpSocket w).1 = true

/-- The calls made before the probe loop by a session that reaches it. -/
def Esp32IcmpPing.setupCalls (e : Esp32IcmpPing) (w : World) : List Call :=
  (e.Options.GetAddress w).2.2 ++ (e.CreateAndSetUpSocket w).2

/-! ### Concrete worlds used as witnesses and counterexamples -/

/-- An engine probing 8.8.4.4 (the address of the connection checker, as the
32-bit value in network order on the little-endian target) `count` times with a
receive timeout of 1000 ms and the derived overall timeout. -/
def sampleEngine (count : Nat) : Esp32IcmpPing :=
  Esp32IcmpPing.new (PingOptions.ofIp4 0x04040808 count 1000)

/-- A `recvfrom` that times out: it returns -1 with `errno = EAGAIN`. -/
def recvTimeout : RecvResult :=
  { len := -1, errno := EAGAIN, echo_packet := fun _ => 0, elapsedUs := 0 }

/-- A 20-byte IPv4 header without options (first byte 0x45: version 4, header
length 5 words) of an ICMP datagram of 60 bytes from 8.8.4.4. -/
def sampleIpHeader : List Nat :=
  [0x45, 0, 0, 60, 0, 0, 0, 0, 64, 1, 0, 0, 8, 8, 4, 4, 192, 168, 1, 2]

/-- A `recvfrom` that delivers, `us` microseconds after it was called, the
60-byte datagram echoing the request for `seq`: the IP header followed by the
request with its type byte set to 0 (Echo Reply); the checksum bytes, which
`Receive` does not examine, are left as they are in the request. -/
def recvReply (seq : Nat) (us : Int) : RecvResult :=
  { len := 60
    errno := 0
    echo_packet := fun i => (sampleIpHeader ++ (IcmpEchoRequest seq).set 0 0).getD i 0
    elapsedUs := us }

/-- A `recvfrom` that delivers a 28-byte datagram whose first byte 0x48 declares
an IP header of 8 words (32 bytes, more than the 28 bytes received); the
bytes 32..39 of the local buffer, beyond the received length, hold the stale
header of an Echo Reply for sequence number 1. -/
def recvImplausibleHeader : RecvResult :=
  { len := 28
    errno := 0
    echo_packet := fun i =>
      if i = 0 then 0x48 else if i = 36 ∨ i = 37 then 0xAB else if i = 39 then 1 else 0
    elapsedUs := 1338 }

/-- A world in which the socket is set up, every `sendto` up to sequence number
`sends` succeeds (sending the 40 bytes) and every later one fails, `recvfrom`
behaves as given, and the millisecond clock advances by one per iteration; the
build contracts the multiply-add, as the toolchain does by default. -/
def sampleWorld (sends : Nat) (recvfrom : Nat → RecvResult) : World :=
  { hostByName := fun _ => none
    socket := 3
    setsockopt := 0
    millisStart := 5000
    sendto := fun seq => if seq ≤ sends then 40 else -1
    recvfrom := recvfrom
    millis := fun seq => 5000 + seq
    fpContract := true }

instance (e : Esp32IcmpPing) (w : World) (seq_num : Nat) : Decidable (e.Continues w seq_num) := by
  unfold Esp32IcmpPing.Continues
  exact inferInstance

instance (e : Esp32IcmpPing) (w : World) (seq_num : Nat) : Decidable (e.Replies w seq_num) := by
  unfold Esp32IcmpPing.Replies
  exact inferInstance

instance (e : Esp32IcmpPing) (w : World) : Decidable (e.ReachesLoop w) := by
  unfold Esp32IcmpPing.ReachesLoop
  exact inferInstance

/-- The result that a session of four sent and unanswered probes, lasting 4 ms,
returns. -/
def noReplyResult : PingResults :=
  { transmitted_count := 4, received_count := 0, total_timeMs := 4,
    min_timeMs := F32.ofInt 1000000000, max_timeMs := 0, avg_timeMs := 0, sd_timeMs := 0 }

/-- A result with one probe lost out of four, lasting 40 ms, the replies taking
between 1 ms and 2 ms. -/
def oneLostResult : PingResults :=
  { transmitted_count := 4, received_count := 3, total_timeMs := 40,
    min_timeMs := F32.ofInt 1, max_timeMs := F32.ofInt 2, avg_timeMs := F32.ofInt 1,
    sd_timeMs := 0 }

/-! ### Notions for the session as a whole -/

/-- Whether a call is one of the two calls of a probe, `sendto` or `recvfrom`. -/
def Call.isProbe : Call → Bool
  | Call.sendto _ _ => true
  | Call.recvfrom => true
  | _ => false

/-- The state in which the probe loop of a session that reaches it ends. -/
def Esp32IcmpPing.loopEnd (e : Esp32IcmpPing) (w : World) : LoopState :=
  e.pingLoop w (e.Options.GetAddress w).2.1 e.Options.Count 1
    (Esp32IcmpPing.loopStart (e.setupCalls w))

/-- The reply times that a session has recorded when its loop ends:
`times_ms[0]`, ..., `times_ms[received - 1]`. -/
def Esp32IcmpPing.recordedTimes (e : Esp32IcmpPing) (w : World) : List F32 :=
  (e.loopEnd w).times_ms.take (e.loopEnd w).received

/-- The sum of a list of times, accumulated from 0 in `float` arithmetic in the
order of the list. -/
def F32.sum (xs : List F32) : F32 := xs.foldl F32.add 0

/-- Written from the words of the spec, in `float` arithmetic: the mean as
`sum/received`, 0 if `received == 0`. -/
def F32.mean (xs : List F32) : F32 :=
  if xs.length > 0 then F32.div (F32.sum xs) (F32.ofInt xs.length) else 0

/-- The sum of the squared differences `(x - m)^2`, accumulated from 0 in `float`
arithmetic in the order of the list, each square being added by a fused
multiply-add or after its own rounding as `contract` says. -/
def F32.sqDevSum (contract : Bool) (xs : List F32) (m : F32) : F32 :=
  xs.foldl (fun acc x => F32.mulAdd contract (F32.sub x m) (F32.sub x m) acc) 0

/-- Written from the words of the spec, in `float` arithmetic: the standard
deviation as the square root of `Σ(x-mean)²/received`, 0 if the accumulated
variance is not positive; population variance, the divisor is `received`. -/
def F32.stdDev (contract : Bool) (xs : List F32) : F32 :=
  if F32.sqDevSum contract xs (F32.mean xs) > 0 then
    F32.sqrt (F32.div (F32.sqDevSum contract xs (F32.mean xs)) (F32.ofInt xs.length))
  else 0

/-- A `recvfrom` that fails hard: it returns -1 with an `errno` (104, connection
reset) other than `EAGAIN`. -/
def recvHardError : RecvResult :=
  { len := -1, errno := 104, echo_packet := fun _ => 0, elapsedUs := 0 }

/-- A world whose resolver answers every host name with 8.8.4.4; everything
else is as in `sampleWorld`. -/
def resolvingWorld (sends : Nat) (recvfrom : Nat → RecvResult) : World :=
  { sampleWorld sends recvfrom with hostByName := fun _ => some 0x04040808 }

/-- An engine probing 8.8.4.4 ten times with a receive timeout of 10000 ms and
the derived overall timeout of 100000 ms. -/
def slowEngine : Esp32IcmpPing :=
  Esp32IcmpPing.new (PingOptions.ofIp4 0x04040808 10 10000)

/-- A world in which every send succeeds, every receive times out, and the
millisecond clock advances by 10000 per iteration. -/
def slowWorld : World :=
  { sampleWorld 10 (fun _ => recvTimeout) with millis := fun seq => 5000 + 10000 * seq }

/-- A world in which every send succeeds, every receive times out, and the
millisecond clock advances by 2500 per iteration. -/
def tightWorld : World :=
  { sampleWorld 10 (fun _ => recvTimeout) with millis := fun seq => 5000 + 2500 * seq }

/-- A world in which every send succeeds, the receive for probe 2 fails hard,
and the receives for the other probes time out. -/
def brokenWorld : World :=
  sampleWorld 4 (fun j => if j = 2 then recvHardError else recvTimeout)

/-- The state of the loop after `n` iterations from the initial state, the
requests going to the address `target`. -/
def Esp32IcmpPing.loopState (e : Esp32IcmpPing) (w : World) (target n : Nat) : LoopState :=
  e.stateAfter w target n 1 (Esp32IcmpPing.loopStart (e.setupCalls w))

/-- A `recvfrom` sequence answering probe 1 after 300 us and every other probe
after 1029 us. -/
def recvUneven (seq : Nat) : RecvResult :=
  recvReply seq (if seq = 1 then 300 else 1029)

/-- A world in which two probes are answered, after 300 us and after 1029 us, in
a build that contracts the multiply-add of the variance pass or not. -/
def unevenWorld (contract : Bool) : World :=
  { sampleWorld 2 recvUneven with fpContract := contract }

/-! ## Theorems -/

/-- C1: for every `PingOptions` state whose fields are in the ranges of their
types, `IsValid()` is true exactly when (ip4 is non-zero or host is non-empty),
`0 < count ≤ 10`, `receiveTimeout > 0`, and (`totalTimeout = 0` or
`totalTimeout ≥ count * receiveTimeout`), the product being the exact integer
product. -/
theorem PingOptions.isValid_spec (o : PingOptions) (h : o.InRange) :
    o.IsValid = true ↔
      (o.ip4 ≠ 0 ∨ o.host ≠ "") ∧ (0 < o.count ∧ o.count ≤ 10) ∧ o.recvTimeoutMs > 0 ∧
        (o.totalTimeoutMs = 0 ∨ o.totalTimeoutMs ≥ o.count * o.recvTimeoutMs) := by
  obtain ⟨_, hc, hr, _⟩ := h
  have hprod : o.count * o.recvTimeoutMs < 2 ^ 32 := by
    have : o.count * o.recvTimeoutMs ≤ 255 * 65535 :=
      Nat.mul_le_mul (by omega) (by omega)
    omega
  have hhost : o.host.length > 0 ↔ o.host ≠ "" := by
    show 0 < o.host.length ↔ o.host ≠ ""
    rw [Nat.pos_iff_ne_zero, ne_eq, ne_eq, String.ext_iff]
    show ¬ o.host.data.length = 0 ↔ ¬ o.host.data = []
    rw [List.length_eq_zero]
  simp only [PingOptions.IsValid, PingOptions.Count, PingOptions.ReceiveTimeoutMs,
    PingOptions.CalcTotalTimeoutMs, MAX_COUNT, Nat.mod_eq_of_lt hprod, Bool.and_eq_true,
    Bool.or_eq_true, decide_eq_true_eq, bne_iff_ne, beq_iff_eq, hhost]
  tauto

/-- Witness for C1: the options of the connection checker (8.8.4.4, four probes,
2000 ms receive timeout) are in range and satisfy the equivalence. -/
theorem PingOptions.isValid_spec_witness :
    (PingOptions.ofIp4 0x04040808 4 2000).InRange ∧
      ((PingOptions.ofIp4 0x04040808 4 2000).IsValid = true ↔
        ((PingOptions.ofIp4 0x04040808 4 2000).ip4 ≠ 0 ∨
            (PingOptions.ofIp4 0x04040808 4 2000).host ≠ "") ∧
          (0 < (PingOptions.ofIp4 0x04040808 4 2000).count ∧
            (PingOptions.ofIp4 0x04040808 4 2000).count ≤ 10) ∧
          (PingOptions.ofIp4 0x04040808 4 2000).recvTimeoutMs > 0 ∧
          ((PingOptions.ofIp4 0x04040808 4 2000).totalTimeoutMs = 0 ∨
            (PingOptions.ofIp4 0x04040808 4 2000).totalTimeoutMs ≥
              (PingOptions.ofIp4 0x04040808 4 2000).count *
                (PingOptions.ofIp4 0x04040808 4 2000).recvTimeoutMs)) :=
  ⟨by decide, PingOptions.isValid_spec _ (by decide)⟩

/-! ### Packet codec -/

theorem bytes_pack (lo hi : Nat) (hhi : hi < 256) :
    (lo * 256 + hi) % 256 = hi ∧ (lo * 256 + hi) / 256 = lo := by
  omega

theorem htons_lt (n : Nat) : htons n < 65536 := by
  unfold htons; omega

theorem htons_bytes (n : Nat) : htons n % 256 = n / 256 % 256 ∧ htons n / 256 = n % 256 := by
  unfold htons
  exact bytes_pack (n % 256) (n / 256 % 256) (Nat.mod_lt _ (by decide))

theorem htons_htons (n : Nat) (h : n < 65536) : htons (htons n) = n := by
  obtain ⟨h1, h2⟩ := htons_bytes n
  have h3 : htons (htons n) = htons n % 256 * 256 + htons n / 256 % 256 := rfl
  rw [h3, h1, h2]
  omega

theorem onesAdd_le {a b : Nat} (ha : a ≤ 65535) (hb : b ≤ 65535) : onesAdd a b ≤ 65535 := by
  unfold onesAdd; omega

theorem onesAdd_mod (a b : Nat) : onesAdd a b % 65535 = (a + b) % 65535 := by
  unfold onesAdd; omega

theorem onesAdd_pos {a : Nat} (b : Nat) (ha : 0 < a) : 0 < onesAdd a b := by
  unfold onesAdd; omega

/-- Folding one's-complement addition over 16-bit words stays within 16 bits, is
the plain sum modulo 65535, and never returns to zero from a non-zero start. -/
theorem foldl_onesAdd (ws : List Nat) :
    ∀ acc, acc ≤ 65535 → (∀ w ∈ ws, w ≤ 65535) →
      ws.foldl onesAdd acc ≤ 65535 ∧
        ws.foldl onesAdd acc % 65535 = (acc + ws.sum) % 65535 ∧
        (0 < acc → 0 < ws.foldl onesAdd acc) := by
  induction ws with
  | nil => intro acc hacc _; simp [hacc]
  | cons w rest ih =>
    intro acc hacc hws
    have hw : w ≤ 65535 := hws w (List.mem_cons_self _ _)
    have hrest : ∀ v ∈ rest, v ≤ 65535 := fun v hv => hws v (List.mem_cons_of_mem _ hv)
    obtain ⟨h1, h2, h3⟩ := ih (onesAdd acc w) (onesAdd_le hacc hw) hrest
    refine ⟨h1, ?_, fun hpos => h3 (onesAdd_pos w hpos)⟩
    simp only [List.foldl_cons, List.sum_cons]
    rw [h2]
    have := onesAdd_mod acc w
    omega

/-- The buffer of a request just before its checksum is stored. -/
theorem IcmpEchoRequest_body (v : Nat) :
    (List.range echo_data_byte_count).foldl (fun d i => store8 d (sizeof_icmp_echo_hdr + i) i)
        (store16 (store16 (store8 (List.replicate echo_byte_count 0) 0 ICMP_ECHO) 4 PING_ID) 6 v) =
      [8, 0, 0, 0, 171, 171, v % 256, v / 256 % 256] ++ List.range 32 := by
  have hhdr : store16 (store16 (store8 (List.replicate echo_byte_count 0) 0 ICMP_ECHO) 4 PING_ID)
      6 v = [8, 0, 0, 0, 171, 171, v % 256, v / 256 % 256] ++ [0, 0, 0, 0, 0, 0, 0, 0, 0, 0, 0,
        0, 0, 0, 0, 0, 0, 0, 0, 0, 0, 0, 0, 0, 0, 0, 0, 0, 0, 0, 0, 0] := rfl
  have hrange : List.range 32 = [0, 1, 2, 3, 4, 5, 6, 7, 8, 9, 10, 11, 12, 13,
      14, 15, 16, 17, 18, 19, 20, 21, 22, 23, 24, 25, 26, 27, 28, 29, 30, 31] := by decide
  have hcount : echo_data_byte_count = 32 := rfl
  rw [hhdr, hcount, hrange]
  simp [List.foldl, store8, sizeof_icmp_echo_hdr]

/-- The bytes of a built request: the body with the checksum stored at offset 2,
high byte first. -/
theorem IcmpEchoRequest_bytes (seq : Nat) (h : seq < 65536) :
    IcmpEchoRequest seq =
      [8, 0,
        internetChecksum ([8, 0, 0, 0, 171, 171, seq / 256, seq % 256] ++ List.range 32) / 256,
        internetChecksum ([8, 0, 0, 0, 171, 171, seq / 256, seq % 256] ++ List.range 32) % 256,
        171, 171, seq / 256, seq % 256] ++ List.range 32 := by
  have hbody := IcmpEchoRequest_body (htons (seq % 2 ^ 16))
  have hseq : seq % 2 ^ 16 = seq := Nat.mod_eq_of_lt h
  obtain ⟨hb1, hb2⟩ := htons_bytes seq
  have hb3 : seq / 256 % 256 = seq / 256 := by omega
  rw [hseq, hb1, hb2, hb3, Nat.mod_mod] at hbody
  unfold IcmpEchoRequest
  simp only [hseq]
  rw [hbody]
  have hck : internetChecksum ([8, 0, 0, 0, 171, 171, seq / 256, seq % 256] ++ List.range 32)
      ≤ 65535 := by
    unfold internetChecksum; omega
  unfold inet_chksum
  generalize internetChecksum ([8, 0, 0, 0, 171, 171, seq / 256, seq % 256] ++ List.range 32)
    = ck at hck ⊢
  obtain ⟨hc1, hc2⟩ := htons_bytes ck
  have hc3 : ck / 256 % 256 = ck / 256 := by omega
  simp only [store16, store8, List.cons_append, List.set, hc1, hc2, hc3, Nat.mod_mod]
  rfl

/-- The 16-bit words of a request-shaped buffer. -/
theorem words16_echo (c d a b : Nat) :
    words16 ([8, 0, c, d, 171, 171, a, b] ++ List.range 32) =
      [2048, c * 256 + d, 43947, a * 256 + b, 1, 515, 1029, 1543, 2057, 2571, 3085, 3599, 4113,
        4627, 5141, 5655, 6169, 6683, 7197, 7711] := by
  have hlist : List.range 32 = [0, 1, 2, 3, 4, 5, 6, 7, 8, 9, 10, 11, 12, 13,
      14, 15, 16, 17, 18, 19, 20, 21, 22, 23, 24, 25, 26, 27, 28, 29, 30, 31] := by decide
  have hrange : words16 (List.range 32) = [1, 515, 1029, 1543, 2057, 2571, 3085, 3599, 4113,
      4627, 5141, 5655, 6169, 6683, 7197, 7711] := by
    rw [hlist]
    simp only [words16, Nat.reduceMul, Nat.reduceAdd]
  simp only [List.cons_append, List.nil_append, words16, hrange, Nat.reduceMul, Nat.reduceAdd]

/-- The one's-complement sum of a request-shaped buffer whose checksum word is
`x` and whose sequence word is `y`. -/
theorem onesSum_echo (x y : Nat) (hx : x ≤ 65535) (hy : y ≤ 65535) :
    onesSum [2048, x, 43947, y, 1, 515, 1029, 1543, 2057, 2571, 3085, 3599, 4113, 4627, 5141,
        5655, 6169, 6683, 7197, 7711] ≤ 65535 ∧
      onesSum [2048, x, 43947, y, 1, 515, 1029, 1543, 2057, 2571, 3085, 3599, 4113, 4627, 5141,
        5655, 6169, 6683, 7197, 7711] % 65535 = (107691 + x + y) % 65535 ∧
      0 < onesSum [2048, x, 43947, y, 1, 515, 1029, 1543, 2057, 2571, 3085, 3599, 4113, 4627,
        5141, 5655, 6169, 6683, 7197, 7711] := by
  have hw : ∀ w ∈ [x, 43947, y, 1, 515, 1029, 1543, 2057, 2571, 3085, 3599, 4113, 4627, 5141,
      5655, 6169, 6683, 7197, 7711], w ≤ 65535 := by
    intro w hmem
    simp only [List.mem_cons, List.mem_singleton, List.not_mem_nil, or_false] at hmem
    omega
  obtain ⟨h1, h2, h3⟩ := foldl_onesAdd _ 2048 (by omega) hw
  have hstart : onesSum [2048, x, 43947, y, 1, 515, 1029, 1543, 2057, 2571, 3085, 3599, 4113,
      4627, 5141, 5655, 6169, 6683, 7197, 7711] =
      List.foldl onesAdd 2048 [x, 43947, y, 1, 515, 1029, 1543, 2057, 2571, 3085, 3599, 4113,
        4627, 5141, 5655, 6169, 6683, 7197, 7711] := by
    have h0 : onesAdd 0 2048 = 2048 := by decide
    rw [onesSum, List.foldl_cons, h0]
  rw [hstart]
  refine ⟨h1, ?_, h3 (by omega)⟩
  rw [h2]
  simp only [List.sum_cons, List.sum_nil]
  omega

/-- C3: for every 16-bit sequence number the built Echo Request consists of
twenty 16-bit words and verifies under the standard Internet checksum: the
one's-complement sum of the words, checksum field included, complemented, is
zero. -/
theorem IcmpEchoRequest_checksum_verifies (seq : Nat) (h : seq < 65536) :
    (words16 (IcmpEchoRequest seq)).length = 20 ∧ internetChecksum (IcmpEchoRequest seq) = 0 := by
  rw [IcmpEchoRequest_bytes seq h]
  simp only [internetChecksum, words16_echo]
  have hy : seq / 256 * 256 + seq % 256 = seq := by omega
  rw [hy]
  obtain ⟨a1, a2, a3⟩ := onesSum_echo (0 * 256 + 0) seq (by omega) (by omega)
  generalize onesSum [2048, 0 * 256 + 0, 43947, seq, 1, 515, 1029, 1543, 2057, 2571, 3085, 3599,
    4113, 4627, 5141, 5655, 6169, 6683, 7197, 7711] = s0 at a1 a2 a3 ⊢
  have hx : (65535 - s0) / 256 * 256 + (65535 - s0) % 256 = 65535 - s0 := by omega
  rw [hx]
  obtain ⟨b1, b2, b3⟩ := onesSum_echo (65535 - s0) seq (by omega) (by omega)
  generalize onesSum [2048, 65535 - s0, 43947, seq, 1, 515, 1029, 1543, 2057, 2571, 3085, 3599,
    4113, 4627, 5141, 5655, 6169, 6683, 7197, 7711] = s1 at b1 b2 b3 ⊢
  refine ⟨by simp, ?_⟩
  omega

/-- Witness for C3: sequence number 1. -/
theorem IcmpEchoRequest_checksum_verifies_witness :
    (words16 (IcmpEchoRequest 1)).length = 20 ∧ internetChecksum (IcmpEchoRequest 1) = 0 :=
  IcmpEchoRequest_checksum_verifies 1 (by decide)

/-- C4: for every 16-bit sequence number the built Echo Request is exactly 40
bytes: byte 0 is 8 (Echo Request), byte 1 is 0 (code), bytes 4-5 are the fixed
identifier 0xABAB, bytes 6-7 are the sequence number high byte first, payload
byte 8+i is i mod 256 for i in 0..31, and bytes 2-3 are the Internet checksum,
high byte first, of the same packet with the checksum field zero. -/
theorem IcmpEchoRequest_layout (seq : Nat) (h : seq < 65536) :
    (IcmpEchoRequest seq).length = 40 ∧
      (IcmpEchoRequest seq)[0]? = some 8 ∧
      (IcmpEchoRequest seq)[1]? = some 0 ∧
      (IcmpEchoRequest seq)[4]? = some 0xAB ∧
      (IcmpEchoRequest seq)[5]? = some 0xAB ∧
      (IcmpEchoRequest seq)[6]? = some (seq / 256) ∧
      (IcmpEchoRequest seq)[7]? = some (seq % 256) ∧
      (∀ i, i < 32 → (IcmpEchoRequest seq)[8 + i]? = some (i % 256)) ∧
      (IcmpEchoRequest seq)[2]? =
        some (internetChecksum (((IcmpEchoRequest seq).set 2 0).set 3 0) / 256) ∧
      (IcmpEchoRequest seq)[3]? =
        some (internetChecksum (((IcmpEchoRequest seq).set 2 0).set 3 0) % 256) := by
  rw [IcmpEchoRequest_bytes seq h]
  refine ⟨rfl, rfl, rfl, rfl, rfl, rfl, rfl, ?_, rfl, rfl⟩
  intro i hi
  have hget : ([8, 0,
        internetChecksum ([8, 0, 0, 0, 171, 171, seq / 256, seq % 256] ++ List.range 32) / 256,
        internetChecksum ([8, 0, 0, 0, 171, 171, seq / 256, seq % 256] ++ List.range 32) % 256,
        171, 171, seq / 256, seq % 256] ++ List.range 32)[8 + i]? =
      (List.range 32)[i]? := by
    rw [List.getElem?_append_right (by simp)]
    simp
  rw [hget, List.getElem?_range hi, Nat.mod_eq_of_lt (by omega)]

/-- Witness for C4: sequence number 1. -/
theorem IcmpEchoRequest_layout_witness :
    (IcmpEchoRequest 1).length = 40 ∧
      (IcmpEchoRequest 1)[0]? = some 8 ∧
      (IcmpEchoRequest 1)[1]? = some 0 ∧
      (IcmpEchoRequest 1)[4]? = some 0xAB ∧
      (IcmpEchoRequest 1)[5]? = some 0xAB ∧
      (IcmpEchoRequest 1)[6]? = some (1 / 256) ∧
      (IcmpEchoRequest 1)[7]? = some (1 % 256) ∧
      (∀ i, i < 32 → (IcmpEchoRequest 1)[8 + i]? = some (i % 256)) ∧
      (IcmpEchoRequest 1)[2]? =
        some (internetChecksum (((IcmpEchoRequest 1).set 2 0).set 3 0) / 256) ∧
      (IcmpEchoRequest 1)[3]? =
        some (internetChecksum (((IcmpEchoRequest 1).set 2 0).set 3 0) % 256) :=
  IcmpEchoRequest_layout 1 (by decide)

theorem seq_field (b6 b7 M : Nat) (h6 : b6 < 256) (h7 : b7 < 256) (hM : M < 65536) :
    b6 + 256 * b7 = htons M ↔ b6 * 256 + b7 = M := by
  have hlo : M % 256 < 256 := Nat.mod_lt _ (by decide)
  have hhi : M / 256 < 256 := by omega
  have hdecomp : M = M / 256 * 256 + M % 256 := by omega
  have hsw : htons M = M % 256 * 256 + M / 256 := by
    unfold htons; rw [Nat.mod_eq_of_lt hhi]
  rw [hsw]
  generalize M / 256 = hi at *
  generalize M % 256 = lo at *
  subst hdecomp
  constructor <;> intro h <;> omega

theorem IcmpPacket.load8_lt (p : IcmpPacket) (off : Nat) : p.load8 off < 256 :=
  Nat.mod_lt _ (by decide)

/-- The reply predicate as a conjunction of its five tests. -/
theorem IcmpEchoResponse.fields_of_isValid (p : IcmpPacket) (N : Nat) :
    IcmpEchoResponse.IsValid p N = true ↔
      8 ≤ p.size ∧ p.type = 0 ∧ p.code = 0 ∧ p.id = 0xABAB ∧ p.seqno = htons (N % 2 ^ 16) := by
  simp only [IcmpEchoResponse.IsValid, sizeof_icmp_echo_hdr, ICMP_ER, PING_ID, Bool.and_eq_true,
    decide_eq_true_eq, beq_iff_eq, ge_iff_le, and_assoc]

/-- C2: for every packet view (pointer and 16-bit size) and every expected 16-bit
sequence number N, `IsValid(N)` is true exactly when the size is at least 8,
the type byte is 0, the code byte is 0, the identifier bytes read 0xABAB and the
sequence bytes read N in network (high byte first) order; hence an accepted
buffer is rejected for every other 16-bit M, and any packet that differs from an
accepted one in its type, code, identifier or sequence field is rejected. -/
theorem IcmpEchoResponse.isValid_exact (p : IcmpPacket) (N : Nat) (hN : N < 65536) :
    (IcmpEchoResponse.IsValid p N = true ↔
        8 ≤ p.size ∧ p.load8 0 = 0 ∧ p.load8 1 = 0 ∧
          p.load8 4 * 256 + p.load8 5 = 0xABAB ∧ p.load8 6 * 256 + p.load8 7 = N) ∧
      (IcmpEchoResponse.IsValid p N = true →
        (∀ M, M < 65536 → M ≠ N → IcmpEchoResponse.IsValid p M = false) ∧
          (∀ q : IcmpPacket,
            (q.type ≠ p.type ∨ q.code ≠ p.code ∨ q.id ≠ p.id ∨ q.seqno ≠ p.seqno) →
              IcmpEchoResponse.IsValid q N = false)) := by
  have h4 := p.load8_lt 4
  have h5 := p.load8_lt 5
  have h6 := p.load8_lt 6
  have h7 := p.load8_lt 7
  have hmod : ∀ M, M < 65536 → M % 2 ^ 16 = M := fun M hM => Nat.mod_eq_of_lt hM
  have hid : p.id = p.load8 4 + 256 * p.load8 5 := rfl
  have hsq : p.seqno = p.load8 6 + 256 * p.load8 7 := rfl
  have hseq : ∀ M, M < 65536 → (p.seqno = htons M ↔ p.load8 6 * 256 + p.load8 7 = M) := by
    intro M hM
    rw [hsq]
    exact seq_field _ _ M h6 h7 hM
  refine ⟨?_, ?_⟩
  · rw [IcmpEchoResponse.fields_of_isValid, hmod N hN, hseq N hN, hid]
    unfold IcmpPacket.type IcmpPacket.code
    constructor
    · rintro ⟨a, b, c, d, e⟩
      exact ⟨a, b, c, by omega, e⟩
    · rintro ⟨a, b, c, d, e⟩
      exact ⟨a, b, c, by omega, e⟩
  · intro hp
    rw [IcmpEchoResponse.fields_of_isValid, hmod N hN] at hp
    obtain ⟨_, ht, hc, hi, hs⟩ := hp
    constructor
    · intro M hM hne
      rw [Bool.eq_false_iff, ne_eq, IcmpEchoResponse.fields_of_isValid, hmod M hM]
      rintro ⟨_, _, _, _, hsM⟩
      rw [hseq N hN] at hs
      rw [hseq M hM] at hsM
      omega
    · intro q hq
      rw [Bool.eq_false_iff, ne_eq, IcmpEchoResponse.fields_of_isValid, hmod N hN]
      rintro ⟨_, qt, qc, qi, qs⟩
      rw [ht, hc, hi, hs] at hq
      rcases hq with h | h | h | h
      · exact h qt
      · exact h qc
      · exact h qi
      · exact h qs

/-- Witness for C2: an 8-byte Echo Reply header for sequence number 1 is accepted
for 1 and therefore rejected for 2. -/
theorem IcmpEchoResponse.isValid_exact_witness :
    1 < 65536 ∧
      IcmpEchoResponse.IsValid (IcmpPacket.ofBytes [0, 0, 0x5B, 0x52, 0xAB, 0xAB, 0, 1]) 1 = true ∧
      IcmpEchoResponse.IsValid (IcmpPacket.ofBytes [0, 0, 0x5B, 0x52, 0xAB, 0xAB, 0, 1]) 2 = false :=
  ⟨by decide, by decide,
    ((IcmpEchoResponse.isValid_exact (IcmpPacket.ofBytes [0, 0, 0x5B, 0x52, 0xAB, 0xAB, 0, 1]) 1
      (by decide)).2 (by decide)).1 2 (by decide) (by decide)⟩

/-! ### Floating point: known binary32 values -/

/-- The model agrees with IEEE-754 binary32 on well-known values: 2^24 + 1 rounds
to 2^24 and 2^24 + 3 to 2^24 + 4 (ties to even); 1/10 is 0x3DCCCCCD, that is
13421773 * 2^-27; 1/3 is 0x3EAAAAAB, that is 11184811 * 2^-25; 1/3 * 100 is
0x42055556, that is 8738134 * 2^-18; 1 - 1/3 is 0x3F2AAAAA, that is
11184810 * 2^-24; 1.E+9f is exactly 10^9. -/
theorem F32.known_values :
    F32.ofInt 16777217 = F32.ofInt 16777216 ∧
      F32.ofInt 16777219 = F32.ofInt 16777220 ∧
      F32.div (F32.ofInt 1) (F32.ofInt 10) = ((13421773 * 2 ^ (149 - 27) : Nat) : Int) ∧
      F32.div (F32.ofInt 1) (F32.ofInt 3) = ((11184811 * 2 ^ (149 - 25) : Nat) : Int) ∧
      F32.mul (F32.div (F32.ofInt 1) (F32.ofInt 3)) (F32.ofInt 100) =
        ((8738134 * 2 ^ (149 - 18) : Nat) : Int) ∧
      F32.sub (F32.ofInt 1) (F32.div (F32.ofInt 1) (F32.ofInt 3)) =
        ((11184810 * 2 ^ (149 - 24) : Nat) : Int) ∧
      F32.ofInt 1000000000 = ((1000000000 * 2 ^ 149 : Nat) : Int) := by
  decide

set_option maxRecDepth 2000 in
/-- The square root of the model agrees with binary32 on sqrt(2) = 0x3FB504F3, that is
11863283 * 2^-23, and is exact on squares. -/
theorem F32.known_sqrt :
    F32.sqrt (F32.ofInt 2) = ((11863283 * 2 ^ (149 - 23) : Nat) : Int) ∧
      F32.sqrt (F32.ofInt 4) = F32.ofInt 2 := by
  decide

/-! ### Probe results -/

/-- C6 fails as stated: the result of a session of four probes without a reply
(transmitted 4, received 0, mean 0) has four timeouts and reports 0 percent,
although `TimeoutCount()/transmitted * 100` is 100 for it. -/
theorem PingResults.percent_counterexample :
    noReplyResult.Transmitted = 4 ∧ noReplyResult.Received = 0 ∧
      noReplyResult.TimeoutCount = 4 ∧ noReplyResult.PercentTransmitted = 0 ∧
      F32.mul (F32.div (F32.ofInt noReplyResult.TimeoutCount)
        (F32.ofInt noReplyResult.Transmitted)) (F32.ofInt 100) = F32.ofInt 100 ∧
      F32.ofInt 100 ≠ 0 := by
  decide

/-- C6 as amended: for every `PingResults` value, `TimeoutCount()` equals
max(transmitted - received, 0); `PercentTransmitted()` equals
`TimeoutCount()/transmitted * 100` in `float` arithmetic whenever transmitted is
not 0 and `IsValid()` holds, and 0 whenever transmitted is 0 or `IsValid()`
fails; in particular a result with transmitted = 4 and received = 0 reports 100
percent loss when `IsValid()` holds, and every result whose mean time is not
positive reports 0 percent. -/
theorem PingResults.timeoutCount_percent (r : PingResults)
    (ht : r.transmitted_count < 2 ^ 8) (hr : r.received_count < 2 ^ 8) :
    (r.TimeoutCount : Int) = max ((r.Transmitted : Int) - (r.Received : Int)) 0 ∧
      (r.Transmitted ≠ 0 → r.IsValid = true →
        r.PercentTransmitted =
          F32.mul (F32.div (F32.ofInt r.TimeoutCount) (F32.ofInt r.Transmitted)) (F32.ofInt 100)) ∧
      (r.Transmitted = 0 ∨ r.IsValid = false → r.PercentTransmitted = 0) ∧
      (r.Transmitted = 4 → r.Received = 0 → r.IsValid = true →
        r.PercentTransmitted = F32.ofInt 100) ∧
      (r.AveTimeMs ≤ 0 → r.PercentTransmitted = 0) := by
  have hpct : r.Transmitted ≠ 0 → r.IsValid = true →
      r.PercentTransmitted =
        F32.mul (F32.div (F32.ofInt r.TimeoutCount) (F32.ofInt r.Transmitted))
          (F32.ofInt 100) := by
    intro h1 h2
    simp [PingResults.PercentTransmitted, h1, h2]
  have hzero : r.Transmitted = 0 ∨ r.IsValid = false → r.PercentTransmitted = 0 := by
    intro h
    simp [PingResults.PercentTransmitted, h]
  refine ⟨?_, hpct, hzero, ?_, ?_⟩
  · simp only [PingResults.TimeoutCount, PingResults.Transmitted, PingResults.Received]
    split_ifs with h
    · rw [Nat.mod_eq_of_lt (by omega)]
      omega
    · omega
  · intro h4 h0 hv
    have htc : r.TimeoutCount = 4 := by
      simp only [PingResults.TimeoutCount, h4, h0]
      decide
    rw [hpct (by omega) hv, htc, h4]
    decide
  · intro have0
    apply hzero
    right
    have h : ¬ r.AveTimeMs > 0 := not_lt.mpr have0
    simp [PingResults.IsValid, h]

/-- Witness for C6 as amended: one probe lost out of four. -/
theorem PingResults.timeoutCount_percent_witness :
    (oneLostResult.TimeoutCount : Int) =
        max ((oneLostResult.Transmitted : Int) - (oneLostResult.Received : Int)) 0 ∧
      (oneLostResult.Transmitted ≠ 0 → oneLostResult.IsValid = true →
        oneLostResult.PercentTransmitted =
          F32.mul (F32.div (F32.ofInt oneLostResult.TimeoutCount)
            (F32.ofInt oneLostResult.Transmitted)) (F32.ofInt 100)) ∧
      (oneLostResult.Transmitted = 0 ∨ oneLostResult.IsValid = false →
        oneLostResult.PercentTransmitted = 0) ∧
      (oneLostResult.Transmitted = 4 → oneLostResult.Received = 0 →
        oneLostResult.IsValid = true → oneLostResult.PercentTransmitted = F32.ofInt 100) ∧
      (oneLostResult.AveTimeMs ≤ 0 → oneLostResult.PercentTransmitted = 0) :=
  PingResults.timeoutCount_percent oneLostResult (by decide) (by decide)

/-! ### The probe engine -/

theorem Esp32IcmpPing.Receive_timeout (r : RecvResult) (seq : Nat) (hlen : r.len < 0)
    (herr : r.errno = EAGAIN ∨ r.errno = EWOULDBLOCK) :
    Esp32IcmpPing.Receive r seq = (false, 0, true) := by
  simp [Esp32IcmpPing.Receive, hlen, herr]

theorem Esp32IcmpPing.Receive_invalid (r : RecvResult) (seq : Nat) (hlen : 0 < r.len)
    (hbad : r.len < 28 ∨ IcmpEchoResponse.IsValid (Esp32IcmpPing.echoResponse r) seq = false) :
    Esp32IcmpPing.Receive r seq = (false, 0, false) := by
  have h1 : ¬ r.len < 0 := by omega
  have h2 : ¬ r.len = 0 := by omega
  unfold Esp32IcmpPing.Receive
  simp only [h1, h2, if_false, sizeof_ip_hdr, sizeof_icmp_echo_hdr]
  rcases hbad with h | h
  · have h3 : r.len < ((20 + 8 : Nat) : Int) := by simpa using h
    rw [if_pos h3]
  · simp [h]

theorem Esp32IcmpPing.Receive_true (r : RecvResult) (seq : Nat)
    (h : (Esp32IcmpPing.Receive r seq).1 = true) :
    (Esp32IcmpPing.Receive r seq).2.2 = true ∧ 0 < (Esp32IcmpPing.Receive r seq).2.1 := by
  unfold Esp32IcmpPing.Receive at h ⊢
  simp only at h ⊢
  split_ifs at h ⊢
  all_goals simp_all

theorem Esp32IcmpPing.pingStep_send_fail (e : Esp32IcmpPing) (w : World) (ip4 k : Nat)
    (st : LoopState) (h : ¬ w.sendto k > 0) :
    e.pingStep w ip4 k st =
      ({ st with trace := st.trace ++ [Call.sendto ip4 (IcmpEchoRequest k)] }, false) := by
  simp [Esp32IcmpPing.pingStep, Esp32IcmpPing.Send, h]

theorem Esp32IcmpPing.pingStep_sent (e : Esp32IcmpPing) (w : World) (ip4 k : Nat)
    (st : LoopState) (h : w.sendto k > 0) :
    (e.pingStep w ip4 k st).1.trace =
        st.trace ++ [Call.sendto ip4 (IcmpEchoRequest k), Call.recvfrom] ∧
      (e.pingStep w ip4 k st).1.transmitted = (st.transmitted + 1) % 2 ^ 8 ∧
      (e.pingStep w ip4 k st).1.received =
        (if (Esp32IcmpPing.Receive (w.recvfrom k) k).1 = true then (st.received + 1) % 2 ^ 8
          else st.received) ∧
      (e.pingStep w ip4 k st).2 =
        ((Esp32IcmpPing.Receive (w.recvfrom k) k).2.2 &&
          decide (w.elapsedMs k ≤ e.Options.TotalTimeoutMs)) := by
  simp only [Esp32IcmpPing.pingStep, Esp32IcmpPing.Send, h, decide_True]
  split_ifs <;> simp_all

/-- After an iteration that got its reply the running minimum is at most the
running maximum, whatever they were before. -/
theorem Esp32IcmpPing.pingStep_min_le_max (e : Esp32IcmpPing) (w : World) (ip4 k : Nat)
    (st : LoopState) (h : w.sendto k > 0)
    (hr : (Esp32IcmpPing.Receive (w.recvfrom k) k).1 = true) :
    (e.pingStep w ip4 k st).1.min_time_ms ≤ (e.pingStep w ip4 k st).1.max_time_ms := by
  obtain ⟨hc, _⟩ := Esp32IcmpPing.Receive_true _ _ hr
  simp only [Esp32IcmpPing.pingStep, Esp32IcmpPing.Send, h, decide_True, hr, hc]
  split_ifs <;> simp_all <;> linarith

theorem Esp32IcmpPing.pingStep_continues (e : Esp32IcmpPing) (w : World) (ip4 k : Nat)
    (st : LoopState) (h : e.Continues w k) : (e.pingStep w ip4 k st).2 = true := by
  obtain ⟨h1, h2, h3⟩ := h
  rw [(Esp32IcmpPing.pingStep_sent e w ip4 k st h1).2.2.2, h2]
  simp [h3]

theorem Esp32IcmpPing.Replies.continues {e : Esp32IcmpPing} {w : World} {k : Nat}
    (h : e.Replies w k) : e.Continues w k :=
  ⟨h.1, (Esp32IcmpPing.Receive_true _ _ h.2.1).1, h.2.2⟩

/-- When the `n` iterations from `seq` on all go on, the loop arrives at
iteration `seq + n` in the state `stateAfter`. -/
theorem Esp32IcmpPing.pingLoop_arrives (e : Esp32IcmpPing) (w : World) (ip4 : Nat)
    (hcount : e.Options.Count < 65535) (n : Nat) :
    ∀ (fuel seq : Nat) (st : LoopState),
      (∀ j, seq ≤ j → j < seq + n → e.Continues w j) → seq + n ≤ e.Options.Count + 1 →
        e.pingLoop w ip4 (n + fuel) seq st =
          e.pingLoop w ip4 fuel (seq + n) (e.stateAfter w ip4 n seq st) := by
  induction n with
  | zero => intro fuel seq st _ _; simp [Esp32IcmpPing.stateAfter]
  | succ n ih =>
    intro fuel seq st hcont hle
    have hseq : seq ≤ e.Options.Count := by omega
    have hstep := Esp32IcmpPing.pingStep_continues e w ip4 seq st (hcont seq (le_refl _) (by omega))
    have hmod : (seq + 1) % 2 ^ 16 = seq + 1 := Nat.mod_eq_of_lt (by omega)
    have hfuel : n + 1 + fuel = (n + fuel) + 1 := by omega
    rw [hfuel, Esp32IcmpPing.pingLoop]
    simp only [hseq, if_true, hstep, hmod]
    rw [ih fuel (seq + 1) _ (fun j h1 h2 => hcont j (by omega) (by omega)) (by omega)]
    have hadd : seq + 1 + n = seq + (n + 1) := by omega
    rw [hadd, Esp32IcmpPing.stateAfter]

/-- The loop state in which the loop stands when `seq_num` has passed `Count()`. -/
theorem Esp32IcmpPing.pingLoop_done (e : Esp32IcmpPing) (w : World) (ip4 fuel seq : Nat)
    (st : LoopState) (h : e.Options.Count < seq) : e.pingLoop w ip4 fuel seq st = st := by
  cases fuel with
  | zero => rfl
  | succ f =>
    have : ¬ seq ≤ e.Options.Count := by omega
    simp [Esp32IcmpPing.pingLoop, this]

/-- The fuel `Count() + 1 - seq_num` is enough for the loop from `seq_num` on:
more fuel does not change what the loop returns. -/
theorem Esp32IcmpPing.pingLoop_fuel (e : Esp32IcmpPing) (w : World) (ip4 : Nat)
    (hcount : e.Options.Count < 65535) (n : Nat) :
    ∀ (seq : Nat) (st : LoopState) (extra : Nat), n + seq = e.Options.Count + 1 →
      e.pingLoop w ip4 (n + extra) seq st = e.pingLoop w ip4 n seq st := by
  induction n with
  | zero =>
    intro seq st extra h
    rw [Esp32IcmpPing.pingLoop_done e w ip4 _ seq st (by omega),
      Esp32IcmpPing.pingLoop_done e w ip4 _ seq st (by omega)]
  | succ n ih =>
    intro seq st extra h
    have hfuel : n + 1 + extra = (n + extra) + 1 := by omega
    have hmod : (seq + 1) % 2 ^ 16 = seq + 1 := Nat.mod_eq_of_lt (by omega)
    rw [hfuel, Esp32IcmpPing.pingLoop, Esp32IcmpPing.pingLoop]
    simp only [hmod]
    rw [ih (seq + 1) _ extra (by omega)]

/-- The calls and counters after `n` iterations whose sends all succeed. -/
theorem Esp32IcmpPing.stateAfter_sent (e : Esp32IcmpPing) (w : World) (ip4 : Nat) (n : Nat) :
    ∀ (seq : Nat) (st : LoopState),
      (∀ j, seq ≤ j → j < seq + n → w.sendto j > 0) →
        st.transmitted + n < 256 → st.received + n < 256 →
          (e.stateAfter w ip4 n seq st).trace =
              st.trace ++ Esp32IcmpPing.probeCalls ip4 seq n ∧
            (e.stateAfter w ip4 n seq st).transmitted = st.transmitted + n ∧
            st.received ≤ (e.stateAfter w ip4 n seq st).received ∧
            (e.stateAfter w ip4 n seq st).received ≤ st.received + n := by
  induction n with
  | zero =>
    intro seq st _ _ _
    simp [Esp32IcmpPing.stateAfter, Esp32IcmpPing.probeCalls]
  | succ n ih =>
    intro seq st hsend ht hr
    obtain ⟨h1, h2, h3, _⟩ :=
      Esp32IcmpPing.pingStep_sent e w ip4 seq st (hsend seq (le_refl _) (by omega))
    have h2' : (e.pingStep w ip4 seq st).1.transmitted = st.transmitted + 1 := by
      rw [h2]; exact Nat.mod_eq_of_lt (by omega)
    have h3' : st.received ≤ (e.pingStep w ip4 seq st).1.received ∧
        (e.pingStep w ip4 seq st).1.received ≤ st.received + 1 := by
      rw [h3]
      split_ifs
      · rw [Nat.mod_eq_of_lt (by omega)]; omega
      · omega
    obtain ⟨i1, i2, i3, i4⟩ := ih (seq + 1) (e.pingStep w ip4 seq st).1
      (fun j a b => hsend j (by omega) (by omega)) (by omega) (by omega)
    rw [Esp32IcmpPing.stateAfter]
    refine ⟨?_, by omega, by omega, by omega⟩
    rw [i1, h1]
    simp [Esp32IcmpPing.probeCalls, List.range'_succ, List.flatMap_cons]

/-- The counters and the running extremes after `n` iterations that all got
their reply. -/
theorem Esp32IcmpPing.stateAfter_replies (e : Esp32IcmpPing) (w : World) (ip4 : Nat) (n : Nat) :
    ∀ (seq : Nat) (st : LoopState),
      (∀ j, seq ≤ j → j < seq + n → e.Replies w j) → st.received + n < 256 →
        (e.stateAfter w ip4 n seq st).received = st.received + n ∧
          (0 < n ∨ st.min_time_ms ≤ st.max_time_ms →
            (e.stateAfter w ip4 n seq st).min_time_ms ≤
              (e.stateAfter w ip4 n seq st).max_time_ms) := by
  induction n with
  | zero =>
    intro seq st _ _
    simp [Esp32IcmpPing.stateAfter]
  | succ n ih =>
    intro seq st hrep hr
    obtain ⟨hs, hrecv, _⟩ := hrep seq (le_refl _) (by omega)
    obtain ⟨_, _, h3, _⟩ := Esp32IcmpPing.pingStep_sent e w ip4 seq st hs
    rw [if_pos hrecv, Nat.mod_eq_of_lt (by omega)] at h3
    obtain ⟨i1, i2⟩ := ih (seq + 1) (e.pingStep w ip4 seq st).1
      (fun j a b => hrep j (by omega) (by omega)) (by omega)
    rw [Esp32IcmpPing.stateAfter]
    refine ⟨by omega, fun _ => i2 (Or.inr ?_)⟩
    exact Esp32IcmpPing.pingStep_min_le_max e w ip4 seq st hs hrecv

theorem Esp32IcmpPing.pingLoop_flag (o : PingOptions) (b1 b2 : Bool) (w : World) (ip4 : Nat)
    (fuel : Nat) :
    ∀ (seq : Nat) (st : LoopState),
      Esp32IcmpPing.pingLoop ⟨o, b1⟩ w ip4 fuel seq st =
        Esp32IcmpPing.pingLoop ⟨o, b2⟩ w ip4 fuel seq st := by
  induction fuel with
  | zero => intro seq st; rfl
  | succ f ih =>
    intro seq st
    have hstep : Esp32IcmpPing.pingStep ⟨o, b1⟩ w ip4 seq st =
        Esp32IcmpPing.pingStep ⟨o, b2⟩ w ip4 seq st := rfl
    simp only [Esp32IcmpPing.pingLoop, hstep, ih]
    rfl

/-- The flag `_inPing` has no influence on `CallPing`. -/
theorem Esp32IcmpPing.CallPing_flag (o : PingOptions) (b1 b2 : Bool) (w : World)
    (result : PingResults) :
    Esp32IcmpPing.CallPing ⟨o, b1⟩ w result = Esp32IcmpPing.CallPing ⟨o, b2⟩ w result := by
  have hloop := Esp32IcmpPing.pingLoop_flag o b1 b2 w
  simp only [Esp32IcmpPing.CallPing, Esp32IcmpPing.Options, Esp32IcmpPing.CreateAndSetUpSocket,
    hloop]

/-- A session that reaches the probe loop runs the loop from the initial state
and finishes from the state the loop leaves. -/
theorem Esp32IcmpPing.ping_eq (e : Esp32IcmpPing) (w : World) (h : e.ReachesLoop w) :
    e.ping w =
      ((Esp32IcmpPing.finish
          (e.pingLoop w (e.Options.GetAddress w).2.1 e.Options.Count 1
            (Esp32IcmpPing.loopStart (e.setupCalls w))) PingResults.new w.fpContract).1,
        (Esp32IcmpPing.finish
          (e.pingLoop w (e.Options.GetAddress w).2.1 e.Options.Count 1
            (Esp32IcmpPing.loopStart (e.setupCalls w))) PingResults.new w.fpContract).2.1,
        { e with inPing := false },
        (Esp32IcmpPing.finish
          (e.pingLoop w (e.Options.GetAddress w).2.1 e.Options.Count 1
            (Esp32IcmpPing.loopStart (e.setupCalls w))) PingResults.new w.fpContract).2.2) := by
  obtain ⟨h1, h2, h3, h4⟩ := h
  obtain ⟨o, b⟩ := e
  simp only at h1
  subst h1
  have hcall : Esp32IcmpPing.CallPing ⟨o, false⟩ w PingResults.new =
      Esp32IcmpPing.finish
        (Esp32IcmpPing.pingLoop ⟨o, false⟩ w
          ((Esp32IcmpPing.Options ⟨o, false⟩).GetAddress w).2.1
          (Esp32IcmpPing.Options ⟨o, false⟩).Count 1
          (Esp32IcmpPing.loopStart (Esp32IcmpPing.setupCalls ⟨o, false⟩ w))) PingResults.new
        w.fpContract := by
    simp [Esp32IcmpPing.CallPing, Esp32IcmpPing.setupCalls, h2, h3, h4]
  simp only [Esp32IcmpPing.ping, Bool.false_eq_true, if_false,
    Esp32IcmpPing.CallPing_flag o true false, hcall]
theorem PingOptions.count_le_of_isValid (o : PingOptions) (h : o.IsValid = true) :
    0 < o.Count ∧ o.Count ≤ 10 := by
  simp only [PingOptions.IsValid, MAX_COUNT, Bool.and_eq_true, decide_eq_true_eq] at h
  omega

/-- The result of a session whose probe loop leaves the state `st`. -/
theorem Esp32IcmpPing.finish_counts (st : LoopState) (result : PingResults) (c : Bool)
    (ht : st.transmitted < 256) (hr : st.received < 256) :
    (Esp32IcmpPing.finish st result c).1 = decide (st.received > 0) ∧
      (Esp32IcmpPing.finish st result c).2.1.Transmitted = st.transmitted ∧
      (Esp32IcmpPing.finish st result c).2.1.Received = st.received ∧
      (Esp32IcmpPing.finish st result c).2.1.MinTimeMs = st.min_time_ms ∧
      (Esp32IcmpPing.finish st result c).2.1.MaxTimeMs = st.max_time_ms ∧
      (Esp32IcmpPing.finish st result c).2.2 = st.trace ++ [Call.closesocket] := by
  simp [Esp32IcmpPing.finish, PingResults.SetResults, PingResults.Transmitted,
    PingResults.Received, PingResults.MinTimeMs, PingResults.MaxTimeMs,
    Nat.mod_eq_of_lt ht, Nat.mod_eq_of_lt hr]

/-- C10: for every valid configuration with count n and every k with
1 ≤ k ≤ n, if the loop has not ended before probe k and the k-th send fails,
the session ends with transmitted = k-1 and received ≤ transmitted, and after
the failed send the only call made is the close of the socket: the calls of the
session are the set-up, one send and one receive for each probe before k, the
failed send of probe k, and the close. -/
theorem Esp32IcmpPing.ping_send_failure (e : Esp32IcmpPing) (w : World) (k : Nat)
    (hreach : e.ReachesLoop w) (hk1 : 1 ≤ k) (hkn : k ≤ e.Options.Count)
    (hprev : ∀ j, 1 ≤ j → j < k → e.Continues w j) (hfail : ¬ w.sendto k > 0) :
    (e.ping w).2.1.Transmitted = k - 1 ∧
      (e.ping w).2.1.Received ≤ (e.ping w).2.1.Transmitted ∧
      (e.ping w).2.2.2 =
        e.setupCalls w ++ Esp32IcmpPing.probeCalls (e.Options.GetAddress w).2.1 1 (k - 1) ++
          [Call.sendto (e.Options.GetAddress w).2.1 (IcmpEchoRequest k), Call.closesocket] := by
  obtain ⟨_, hcnt⟩ := PingOptions.count_le_of_isValid _ hreach.2.2.1
  rw [Esp32IcmpPing.ping_eq e w hreach]
  simp only
  generalize (e.Options.GetAddress w).2.1 = ip4
  have hfuel : e.Options.Count = (k - 1) + ((e.Options.Count - k) + 1) := by omega
  have hloop : e.pingLoop w ip4 e.Options.Count 1 (Esp32IcmpPing.loopStart (e.setupCalls w)) =
      (e.pingStep w ip4 k
        (e.stateAfter w ip4 (k - 1) 1 (Esp32IcmpPing.loopStart (e.setupCalls w)))).1 := by
    conv_lhs => rw [hfuel]
    rw [Esp32IcmpPing.pingLoop_arrives e w ip4 (by omega) (k - 1) _ 1 _
      (fun j h1 h2 => hprev j h1 (by omega)) (by omega)]
    have hk : 1 + (k - 1) = k := by omega
    rw [hk, Esp32IcmpPing.pingLoop]
    simp [hkn, Esp32IcmpPing.pingStep_send_fail e w ip4 k _ hfail]
  obtain ⟨s1, s2, s3, s4⟩ := Esp32IcmpPing.stateAfter_sent e w ip4 (k - 1) 1
    (Esp32IcmpPing.loopStart (e.setupCalls w)) (fun j h1 h2 => (hprev j h1 (by omega)).1)
    (by simp [Esp32IcmpPing.loopStart]; omega) (by simp [Esp32IcmpPing.loopStart]; omega)
  rw [hloop, Esp32IcmpPing.pingStep_send_fail e w ip4 k _ hfail]
  simp only [Esp32IcmpPing.loopStart] at s1 s2 s3 s4
  obtain ⟨_, f2, f3, _, _, f6⟩ := Esp32IcmpPing.finish_counts
    { e.stateAfter w ip4 (k - 1) 1 (Esp32IcmpPing.loopStart (e.setupCalls w)) with
      trace := (e.stateAfter w ip4 (k - 1) 1 (Esp32IcmpPing.loopStart (e.setupCalls w))).trace ++
        [Call.sendto ip4 (IcmpEchoRequest k)] }
    PingResults.new w.fpContract (by simp only [Esp32IcmpPing.loopStart]; omega)
    (by simp only [Esp32IcmpPing.loopStart]; omega)
  rw [f2, f3, f6]
  simp only [Esp32IcmpPing.loopStart]
  refine ⟨by omega, by omega, ?_⟩
  rw [s1]
  simp

/-- Witness for C10: four probes, the third send fails, two probes are counted
as transmitted. -/
theorem Esp32IcmpPing.ping_send_failure_witness :
    (sampleEngine 4).ReachesLoop (sampleWorld 2 (fun _ => recvTimeout)) ∧
      ((sampleEngine 4).ping (sampleWorld 2 (fun _ => recvTimeout))).2.1.Transmitted = 3 - 1 ∧
      ((sampleEngine 4).ping (sampleWorld 2 (fun _ => recvTimeout))).2.1.Received ≤
        ((sampleEngine 4).ping (sampleWorld 2 (fun _ => recvTimeout))).2.1.Transmitted ∧
      ((sampleEngine 4).ping (sampleWorld 2 (fun _ => recvTimeout))).2.2.2 =
        (sampleEngine 4).setupCalls (sampleWorld 2 (fun _ => recvTimeout)) ++
          Esp32IcmpPing.probeCalls
            ((sampleEngine 4).Options.GetAddress (sampleWorld 2 (fun _ => recvTimeout))).2.1 1
            (3 - 1) ++
          [Call.sendto
              ((sampleEngine 4).Options.GetAddress (sampleWorld 2 (fun _ => recvTimeout))).2.1
              (IcmpEchoRequest 3),
            Call.closesocket] :=
  ⟨by decide,
    Esp32IcmpPing.ping_send_failure (sampleEngine 4) (sampleWorld 2 (fun _ => recvTimeout)) 3
      (by decide) (by decide) (by decide)
      (fun j h1 h2 => by interval_cases j <;> decide) (by decide)⟩

/-- C7 fails as stated: in a session of two probes within its time budget, the
datagram received for probe 1 is the echo of sequence number 2 and so fails
validation; the engine makes no second send (the session ends with one probe
transmitted), whereas after a receive timeout for probe 1 it does send
probe 2. -/
theorem Esp32IcmpPing.invalid_reply_counterexample :
    (sampleEngine 2).ReachesLoop (sampleWorld 2 (fun _ => recvReply 2 1338)) ∧
      (sampleEngine 2).Options.Count = 2 ∧
      IcmpEchoResponse.IsValid (Esp32IcmpPing.echoResponse (recvReply 2 1338)) 1 = false ∧
      (sampleWorld 2 (fun _ => recvReply 2 1338)).elapsedMs 1 ≤
        (sampleEngine 2).Options.TotalTimeoutMs ∧
      ((sampleEngine 2).ping (sampleWorld 2 (fun _ => recvReply 2 1338))).2.2.2 =
        [Call.socket, Call.setsockopt 1 0, Call.sendto 0x04040808 (IcmpEchoRequest 1),
          Call.recvfrom, Call.closesocket] ∧
      ((sampleEngine 2).ping (sampleWorld 2 (fun _ => recvReply 2 1338))).2.1.Transmitted = 1 ∧
      ((sampleEngine 2).ping (sampleWorld 2 (fun _ => recvTimeout))).2.2.2 =
        [Call.socket, Call.setsockopt 1 0, Call.sendto 0x04040808 (IcmpEchoRequest 1),
          Call.recvfrom, Call.sendto 0x04040808 (IcmpEchoRequest 2), Call.recvfrom,
          Call.closesocket] := by
  decide

/-- C7 as amended: for every valid configuration and every k below count, if the
loop has not ended before probe k, probe k is sent and the datagram received
for it fails validation (shorter than 28 bytes, or rejected by `IsValid`), then
the reply is discarded and the loop ends there: the session has transmitted = k,
received is what it was when the loop arrived at probe k, and the calls of the
session are the set-up, one send and one receive for each probe up to k, and
the close, with no send of probe k+1. -/
theorem Esp32IcmpPing.ping_invalid_reply (e : Esp32IcmpPing) (w : World) (k : Nat)
    (hreach : e.ReachesLoop w) (hk1 : 1 ≤ k) (hkn : k < e.Options.Count)
    (hprev : ∀ j, 1 ≤ j → j < k → e.Continues w j) (hsend : w.sendto k > 0)
    (hlen : 0 < (w.recvfrom k).len)
    (hbad : (w.recvfrom k).len < 28 ∨
      IcmpEchoResponse.IsValid (Esp32IcmpPing.echoResponse (w.recvfrom k)) k = false) :
    (e.ping w).2.1.Transmitted = k ∧
      (e.ping w).2.1.Received =
        (e.stateAfter w (e.Options.GetAddress w).2.1 (k - 1) 1
          (Esp32IcmpPing.loopStart (e.setupCalls w))).received ∧
      (e.ping w).2.2.2 =
        e.setupCalls w ++ Esp32IcmpPing.probeCalls (e.Options.GetAddress w).2.1 1 k ++
          [Call.closesocket] := by
  obtain ⟨_, hcnt⟩ := PingOptions.count_le_of_isValid _ hreach.2.2.1
  rw [Esp32IcmpPing.ping_eq e w hreach]
  simp only
  generalize (e.Options.GetAddress w).2.1 = ip4
  have h0t : (Esp32IcmpPing.loopStart (e.setupCalls w)).transmitted = 0 := rfl
  have h0r : (Esp32IcmpPing.loopStart (e.setupCalls w)).received = 0 := rfl
  have h0c : (Esp32IcmpPing.loopStart (e.setupCalls w)).trace = e.setupCalls w := rfl
  generalize Esp32IcmpPing.loopStart (e.setupCalls w) = st0 at h0t h0r h0c ⊢
  have hrecv := Esp32IcmpPing.Receive_invalid (w.recvfrom k) k hlen hbad
  have hfuel : e.Options.Count = (k - 1) + ((e.Options.Count - k) + 1) := by omega
  obtain ⟨p1, p2, p3, p4⟩ := Esp32IcmpPing.pingStep_sent e w ip4 k
    (e.stateAfter w ip4 (k - 1) 1 st0) hsend
  rw [hrecv] at p3 p4
  simp only [Bool.false_eq_true, if_false, Bool.false_and] at p3 p4
  have hloop : e.pingLoop w ip4 e.Options.Count 1 st0 =
      (e.pingStep w ip4 k (e.stateAfter w ip4 (k - 1) 1 st0)).1 := by
    conv_lhs => rw [hfuel]
    rw [Esp32IcmpPing.pingLoop_arrives e w ip4 (by omega) (k - 1) _ 1 _
      (fun j h1 h2 => hprev j h1 (by omega)) (by omega)]
    have hk : 1 + (k - 1) = k := by omega
    rw [hk, Esp32IcmpPing.pingLoop]
    simp [le_of_lt hkn, p4]
  obtain ⟨s1, s2, s3, s4⟩ := Esp32IcmpPing.stateAfter_sent e w ip4 (k - 1) 1 st0
    (fun j h1 h2 => (hprev j h1 (by omega)).1) (by omega) (by omega)
  rw [s2, h0t, Nat.mod_eq_of_lt (by omega)] at p2
  obtain ⟨_, f2, f3, _, _, f6⟩ := Esp32IcmpPing.finish_counts
    (e.pingStep w ip4 k (e.stateAfter w ip4 (k - 1) 1 st0)).1
    PingResults.new w.fpContract (by omega) (by omega)
  rw [hloop, f2, f3, f6]
  refine ⟨by omega, p3, ?_⟩
  rw [p1, s1, h0c]
  have hk : Esp32IcmpPing.probeCalls ip4 1 k =
      Esp32IcmpPing.probeCalls ip4 1 (k - 1) ++
        [Call.sendto ip4 (IcmpEchoRequest k), Call.recvfrom] := by
    have hk1 : k = (k - 1) + 1 := by omega
    have hk2 : 1 + (k - 1) = k := by omega
    conv_lhs => rw [hk1]
    simp [Esp32IcmpPing.probeCalls, List.range'_concat, List.flatMap_append, hk2]
  rw [hk]
  simp

/-- Witness for C7 as amended: two probes, the datagram received for probe 1 is
the echo of sequence number 2. -/
theorem Esp32IcmpPing.ping_invalid_reply_witness :
    (sampleEngine 2).ReachesLoop (sampleWorld 2 (fun _ => recvReply 2 1338)) ∧
      ((sampleEngine 2).ping (sampleWorld 2 (fun _ => recvReply 2 1338))).2.1.Transmitted = 1 ∧
      ((sampleEngine 2).ping (sampleWorld 2 (fun _ => recvReply 2 1338))).2.1.Received =
        ((sampleEngine 2).stateAfter (sampleWorld 2 (fun _ => recvReply 2 1338))
          ((sampleEngine 2).Options.GetAddress (sampleWorld 2 (fun _ => recvReply 2 1338))).2.1
          (1 - 1) 1
          (Esp32IcmpPing.loopStart
            ((sampleEngine 2).setupCalls (sampleWorld 2 (fun _ => recvReply 2 1338))))).received ∧
      ((sampleEngine 2).ping (sampleWorld 2 (fun _ => recvReply 2 1338))).2.2.2 =
        (sampleEngine 2).setupCalls (sampleWorld 2 (fun _ => recvReply 2 1338)) ++
          Esp32IcmpPing.probeCalls
            ((sampleEngine 2).Options.GetAddress
              (sampleWorld 2 (fun _ => recvReply 2 1338))).2.1 1 1 ++
          [Call.closesocket] :=
  ⟨by decide,
    Esp32IcmpPing.ping_invalid_reply (sampleEngine 2) (sampleWorld 2 (fun _ => recvReply 2 1338)) 1
      (by decide) (by decide) (by decide) (fun j h1 h2 => by omega) (by decide) (by decide)
      (Or.inr (by decide))⟩

/-- C9 fails as stated: in a session of three probes, each answered within the
time budget by a valid reply measured at 1338 microseconds, the three recorded
times are the same `float`, 1338/1000 rounded, which is 11223958 * 2^-23
(0x3FAB4396), so that minTime = maxTime; the running sum rounds to
8417968 * 2^-21 (0x408072B0) and the mean to 11223957 * 2^-23 (0x3FAB4395), one
unit in the last place below minTime. -/
theorem Esp32IcmpPing.mean_counterexample :
    (sampleEngine 3).ReachesLoop (sampleWorld 3 (fun j => recvReply j 1338)) ∧
      (∀ j ∈ [1, 2, 3], (sampleEngine 3).Replies (sampleWorld 3 (fun j => recvReply j 1338)) j) ∧
      ((sampleEngine 3).ping (sampleWorld 3 (fun j => recvReply j 1338))).2.1.Received = 3 ∧
      ((sampleEngine 3).ping (sampleWorld 3 (fun j => recvReply j 1338))).2.1.MinTimeMs =
        ((11223958 * 2 ^ (149 - 23) : Nat) : Int) ∧
      ((sampleEngine 3).ping (sampleWorld 3 (fun j => recvReply j 1338))).2.1.MaxTimeMs =
        ((11223958 * 2 ^ (149 - 23) : Nat) : Int) ∧
      ((sampleEngine 3).ping (sampleWorld 3 (fun j => recvReply j 1338))).2.1.AveTimeMs =
        ((11223957 * 2 ^ (149 - 23) : Nat) : Int) ∧
      ((sampleEngine 3).ping (sampleWorld 3 (fun j => recvReply j 1338))).2.1.AveTimeMs <
        ((sampleEngine 3).ping (sampleWorld 3 (fun j => recvReply j 1338))).2.1.MinTimeMs := by
  decide

/-- C9 as amended: for every valid configuration with count n and every
transport that answers each request with a valid, positively-timed reply
within the overall budget, the session result has transmitted = n,
received = n, timeoutCount = 0 and minTime ≤ maxTime, and ping returns true. -/
theorem Esp32IcmpPing.ping_all_replies (e : Esp32IcmpPing) (w : World)
    (hreach : e.ReachesLoop w)
    (hall : ∀ j, 1 ≤ j → j ≤ e.Options.Count → e.Replies w j) :
    (e.ping w).1 = true ∧
      (e.ping w).2.1.Transmitted = e.Options.Count ∧
      (e.ping w).2.1.Received = e.Options.Count ∧
      (e.ping w).2.1.TimeoutCount = 0 ∧
      (e.ping w).2.1.MinTimeMs ≤ (e.ping w).2.1.MaxTimeMs := by
  obtain ⟨hpos, hcnt⟩ := PingOptions.count_le_of_isValid _ hreach.2.2.1
  rw [Esp32IcmpPing.ping_eq e w hreach]
  simp only
  generalize (e.Options.GetAddress w).2.1 = ip4
  have h0t : (Esp32IcmpPing.loopStart (e.setupCalls w)).transmitted = 0 := rfl
  have h0r : (Esp32IcmpPing.loopStart (e.setupCalls w)).received = 0 := rfl
  generalize Esp32IcmpPing.loopStart (e.setupCalls w) = st0 at h0t h0r ⊢
  have hloop : e.pingLoop w ip4 e.Options.Count 1 st0 =
      e.stateAfter w ip4 e.Options.Count 1 st0 := by
    have hfuel : e.Options.Count = e.Options.Count + 0 := rfl
    conv_lhs => rw [hfuel]
    rw [Esp32IcmpPing.pingLoop_arrives e w ip4 (by omega) e.Options.Count 0 1 st0
      (fun j h1 h2 => (hall j h1 (by omega)).continues) (by omega)]
    rfl
  obtain ⟨_, s2, _, _⟩ := Esp32IcmpPing.stateAfter_sent e w ip4 e.Options.Count 1 st0
    (fun j h1 h2 => (hall j h1 (by omega)).1) (by omega) (by omega)
  obtain ⟨r1, r2⟩ := Esp32IcmpPing.stateAfter_replies e w ip4 e.Options.Count 1 st0
    (fun j h1 h2 => hall j h1 (by omega)) (by omega)
  obtain ⟨f1, f2, f3, f4, f5, _⟩ := Esp32IcmpPing.finish_counts
    (e.stateAfter w ip4 e.Options.Count 1 st0) PingResults.new w.fpContract (by omega)
    (by omega)
  rw [hloop]
  refine ⟨?_, by omega, by omega, ?_, ?_⟩
  · rw [f1]
    exact decide_eq_true (by omega)
  · unfold PingResults.TimeoutCount
    rw [f2, f3, if_neg (by omega)]
  · rw [f4, f5]
    exact r2 (Or.inl hpos)

/-- Witness for C9 as amended: four probes, each answered by its echo. -/
theorem Esp32IcmpPing.ping_all_replies_witness :
    (sampleEngine 4).ReachesLoop (sampleWorld 4 (fun j => recvReply j 1338)) ∧
      ((sampleEngine 4).ping (sampleWorld 4 (fun j => recvReply j 1338))).1 = true ∧
      ((sampleEngine 4).ping (sampleWorld 4 (fun j => recvReply j 1338))).2.1.Transmitted =
        (sampleEngine 4).Options.Count ∧
      ((sampleEngine 4).ping (sampleWorld 4 (fun j => recvReply j 1338))).2.1.Received =
        (sampleEngine 4).Options.Count ∧
      ((sampleEngine 4).ping (sampleWorld 4 (fun j => recvReply j 1338))).2.1.TimeoutCount = 0 ∧
      ((sampleEngine 4).ping (sampleWorld 4 (fun j => recvReply j 1338))).2.1.MinTimeMs ≤
        ((sampleEngine 4).ping (sampleWorld 4 (fun j => recvReply j 1338))).2.1.MaxTimeMs :=
  ⟨by decide,
    Esp32IcmpPing.ping_all_replies (sampleEngine 4) (sampleWorld 4 (fun j => recvReply j 1338))
      (by decide)
      (fun j h1 h2 => by
        have h3 : j ≤ 4 := h2
        interval_cases j <;> decide)⟩

/-- C5, the code at the failing input: a session of four probes whose sends
succeed and whose receives all time out, within the time budget, returns false
with transmitted = 4, received = 0 and maxTime = meanTime = stdDevTime = 0, but
with minTime = 1.E+9f, the initial value of the running minimum, not 0. -/
theorem Esp32IcmpPing.ping_no_reply_min :
    (sampleEngine 4).ReachesLoop (sampleWorld 4 (fun _ => recvTimeout)) ∧
      (∀ j ∈ [1, 2, 3, 4],
        (sampleWorld 4 (fun _ => recvTimeout)).elapsedMs j ≤
          (sampleEngine 4).Options.TotalTimeoutMs) ∧
      ((sampleEngine 4).ping (sampleWorld 4 (fun _ => recvTimeout))).1 = false ∧
      ((sampleEngine 4).ping (sampleWorld 4 (fun _ => recvTimeout))).2.1 = noReplyResult ∧
      noReplyResult.MinTimeMs = F32.ofInt 1000000000 ∧ F32.ofInt 1000000000 ≠ 0 ∧
      noReplyResult.MaxTimeMs = 0 ∧ noReplyResult.AveTimeMs = 0 ∧
      noReplyResult.StdDevTimeMs = 0 := by
  decide

/-- C8, the code at the failing input: a datagram of 28 bytes whose first byte
declares an IP header of 8 words (8*4 + 8 > 28) is accepted for sequence
number 1: the size handed to the reply view wraps around to 65532, and the
header that is validated lies in bytes 32..39 of the buffer, beyond the 28
bytes received. -/
theorem Esp32IcmpPing.Receive_implausible_header :
    recvImplausibleHeader.len = 28 ∧
      IPH_HL recvImplausibleHeader.echo_packet * 4 + 8 > 28 ∧
      (Esp32IcmpPing.echoResponse recvImplausibleHeader).size = 65532 ∧
      (Esp32IcmpPing.Receive recvImplausibleHeader 1).1 = true ∧
      (Esp32IcmpPing.Receive recvImplausibleHeader 1).2.2 = true := by
  decide

/-! ### The session on every path -/

theorem take_set_self (l : List F32) (r : Nat) (t : F32) :
    (l.set r t).take r = l.take r := by
  rw [List.set_take]
  exact List.set_eq_of_length_le (by simp)

theorem take_succ_set (l : List F32) (r : Nat) (t : F32) (h : r < l.length) :
    (l.set r t).take (r + 1) = l.take r ++ [t] := by
  rw [List.take_succ, take_set_self]
  simp [h]

theorem F32.sum_concat (xs : List F32) (t : F32) :
    F32.sum (xs ++ [t]) = F32.add (F32.sum xs) t := by
  simp [F32.sum]

theorem Esp32IcmpPing.varTotal_eq (c : Bool) (l : List F32) (m : F32) (n : Nat)
    (h : n ≤ l.length) :
    Esp32IcmpPing.varTotal c l n m = F32.sqDevSum c (l.take n) m := by
  induction n with
  | zero => simp [Esp32IcmpPing.varTotal, F32.sqDevSum]
  | succ n ih =>
    have ih := ih (by omega)
    have hn : n < l.length := by omega
    simp only [Esp32IcmpPing.varTotal, F32.sqDevSum] at ih ⊢
    rw [List.range_succ, List.foldl_append, ih, List.take_succ, List.foldl_append]
    simp [hn, List.getD_eq_getElem?_getD]

/-- What every iteration keeps, whatever the transport does: `received` stays at
most `transmitted`, `transmitted` grows by at most one, the array keeps its
`MAX_COUNT` elements, and the running sum is the sum of the recorded times. -/
theorem Esp32IcmpPing.pingStep_inv (e : Esp32IcmpPing) (w : World) (ip4 k : Nat)
    (st : LoopState) (hr : st.received ≤ st.transmitted) (ht : st.transmitted < MAX_COUNT)
    (hlen : st.times_ms.length = MAX_COUNT)
    (hsum : st.mean_total_ms = F32.sum (st.times_ms.take st.received)) :
    (e.pingStep w ip4 k st).1.received ≤ (e.pingStep w ip4 k st).1.transmitted ∧
      st.transmitted ≤ (e.pingStep w ip4 k st).1.transmitted ∧
      (e.pingStep w ip4 k st).1.transmitted ≤ st.transmitted + 1 ∧
      st.received ≤ (e.pingStep w ip4 k st).1.received ∧
      (e.pingStep w ip4 k st).1.times_ms.length = MAX_COUNT ∧
      (e.pingStep w ip4 k st).1.mean_total_ms =
        F32.sum ((e.pingStep w ip4 k st).1.times_ms.take (e.pingStep w ip4 k st).1.received) := by
  simp only [MAX_COUNT] at ht hlen ⊢
  have h1 : (st.transmitted + 1) % 2 ^ 8 = st.transmitted + 1 := Nat.mod_eq_of_lt (by omega)
  have h2 : (st.received + 1) % 2 ^ 8 = st.received + 1 := Nat.mod_eq_of_lt (by omega)
  have h3 : st.received < st.times_ms.length := by omega
  simp only [Esp32IcmpPing.pingStep, h1, h2]
  split_ifs <;>
    simp [hlen, hsum, take_set_self] <;>
    first
    | omega
    | exact ⟨hr, by rw [take_succ_set _ _ _ h3, F32.sum_concat]⟩

/-- The loop from `seq_num` on keeps what the iterations keep, and leaves
`transmitted` at most `Count()`. -/
theorem Esp32IcmpPing.pingLoop_inv (e : Esp32IcmpPing) (w : World) (ip4 : Nat)
    (hcount : e.Options.Count ≤ MAX_COUNT) (fuel : Nat) :
    ∀ (seq : Nat) (st : LoopState), st.received ≤ st.transmitted → st.transmitted < seq →
      st.transmitted ≤ e.Options.Count → st.times_ms.length = MAX_COUNT →
      st.mean_total_ms = F32.sum (st.times_ms.take st.received) →
        (e.pingLoop w ip4 fuel seq st).received ≤ (e.pingLoop w ip4 fuel seq st).transmitted ∧
          (e.pingLoop w ip4 fuel seq st).transmitted ≤ e.Options.Count ∧
          (e.pingLoop w ip4 fuel seq st).times_ms.length = MAX_COUNT ∧
          (e.pingLoop w ip4 fuel seq st).mean_total_ms =
            F32.sum ((e.pingLoop w ip4 fuel seq st).times_ms.take
              (e.pingLoop w ip4 fuel seq st).received) := by
  induction fuel with
  | zero => intro seq st hr _ hc hlen hsum; exact ⟨hr, hc, hlen, hsum⟩
  | succ f ih =>
    intro seq st hr hs hc hlen hsum
    by_cases hseq : seq ≤ e.Options.Count
    · obtain ⟨s1, s2, s3, _, s5, s6⟩ :=
        Esp32IcmpPing.pingStep_inv e w ip4 seq st hr (by omega) hlen hsum
      have hmod : (seq + 1) % 2 ^ 16 = seq + 1 :=
        Nat.mod_eq_of_lt (by simp only [MAX_COUNT] at hcount; omega)
      simp only [Esp32IcmpPing.pingLoop, hseq, if_true, hmod]
      split_ifs
      · exact ih (seq + 1) _ s1 (by omega) (by omega) s5 s6
      · exact ⟨s1, by omega, s5, s6⟩
    · simp only [Esp32IcmpPing.pingLoop, hseq, if_false]
      exact ⟨hr, hc, hlen, hsum⟩

/-- The state in which the loop of a session with a valid configuration ends. -/
theorem Esp32IcmpPing.loopEnd_inv (e : Esp32IcmpPing) (w : World)
    (hvalid : e.Options.IsValid = true) :
    (e.loopEnd w).received ≤ (e.loopEnd w).transmitted ∧
      (e.loopEnd w).transmitted ≤ e.Options.Count ∧ e.Options.Count ≤ MAX_COUNT ∧
      (e.loopEnd w).times_ms.length = MAX_COUNT ∧
      (e.loopEnd w).mean_total_ms = F32.sum (e.recordedTimes w) := by
  have hc := (PingOptions.count_le_of_isValid _ hvalid).2
  obtain ⟨h1, h2, h3, h4⟩ := Esp32IcmpPing.pingLoop_inv e w (e.Options.GetAddress w).2.1 hc
    e.Options.Count 1 (Esp32IcmpPing.loopStart (e.setupCalls w)) (le_refl _) Nat.zero_lt_one
    (Nat.zero_le _) (by simp [Esp32IcmpPing.loopStart]) rfl
  exact ⟨h1, h2, hc, h3, h4⟩

/-- Every iteration appends its `sendto` to the calls made so far, and after
it at most probe calls. -/
theorem Esp32IcmpPing.pingStep_trace (e : Esp32IcmpPing) (w : World) (ip4 k : Nat)
    (st : LoopState) :
    ∃ l, (e.pingStep w ip4 k st).1.trace =
        st.trace ++ Call.sendto ip4 (IcmpEchoRequest k) :: l ∧
      ∀ c ∈ l, Call.isProbe c = true := by
  by_cases h : w.sendto k > 0
  · refine ⟨[Call.recvfrom], ?_, by simp [Call.isProbe]⟩
    rw [(Esp32IcmpPing.pingStep_sent e w ip4 k st h).1]
  · refine ⟨[], ?_, by simp⟩
    rw [Esp32IcmpPing.pingStep_send_fail e w ip4 k st h]

/-- The loop appends only probe calls to the calls made so far. -/
theorem Esp32IcmpPing.pingLoop_trace (e : Esp32IcmpPing) (w : World) (ip4 : Nat) (fuel : Nat) :
    ∀ (seq : Nat) (st : LoopState),
      ∃ l, (e.pingLoop w ip4 fuel seq st).trace = st.trace ++ l ∧
        ∀ c ∈ l, Call.isProbe c = true := by
  induction fuel with
  | zero => intro seq st; exact ⟨[], by simp [Esp32IcmpPing.pingLoop], by simp⟩
  | succ f ih =>
    intro seq st
    obtain ⟨l1, h1, p1⟩ := Esp32IcmpPing.pingStep_trace e w ip4 seq st
    simp only [Esp32IcmpPing.pingLoop]
    split_ifs
    · obtain ⟨l2, h2, p2⟩ := ih ((seq + 1) % 2 ^ 16) (e.pingStep w ip4 seq st).1
      refine ⟨Call.sendto ip4 (IcmpEchoRequest seq) :: l1 ++ l2, ?_, ?_⟩
      · rw [h2, h1]; simp
      · intro c hc
        simp only [List.cons_append, List.mem_cons, List.mem_append] at hc
        rcases hc with hc | hc | hc
        · subst hc; rfl
        · exact p1 c hc
        · exact p2 c hc
    · refine ⟨Call.sendto ip4 (IcmpEchoRequest seq) :: l1, h1, ?_⟩
      intro c hc
      simp only [List.mem_cons] at hc
      rcases hc with hc | hc
      · subst hc; rfl
      · exact p1 c hc
    · exact ⟨[], by simp, by simp⟩

/-- A session that reaches the probe loop finishes from the state in which the
loop ends. -/
theorem Esp32IcmpPing.ping_loopEnd (e : Esp32IcmpPing) (w : World) (h : e.ReachesLoop w) :
    e.ping w =
      ((Esp32IcmpPing.finish (e.loopEnd w) PingResults.new w.fpContract).1,
        (Esp32IcmpPing.finish (e.loopEnd w) PingResults.new w.fpContract).2.1,
        { e with inPing := false },
        (Esp32IcmpPing.finish (e.loopEnd w) PingResults.new w.fpContract).2.2) :=
  Esp32IcmpPing.ping_eq e w h

/-- A session of an idle engine that does not reach the probe loop returns false
and leaves the result as constructed; the calls it makes are those of
`GetAddress` and, when the address and the options are good, those of
`CreateAndSetUpSocket`. -/
theorem Esp32IcmpPing.ping_early (e : Esp32IcmpPing) (w : World) (hidle : e.inPing = false)
    (h : ¬ e.ReachesLoop w) :
    (e.ping w).1 = false ∧ (e.ping w).2.1 = PingResults.new ∧ (e.ping w).2.2.1 = e ∧
      (e.ping w).2.2.2 =
        (if (e.Options.GetAddress w).1 = true ∧ e.Options.IsValid = true then e.setupCalls w
          else (e.Options.GetAddress w).2.2) := by
  obtain ⟨o, b⟩ := e
  simp only at hidle
  subst hidle
  simp only [Esp32IcmpPing.ReachesLoop, true_and] at h
  simp only [Esp32IcmpPing.ping, Bool.false_eq_true, if_false,
    Esp32IcmpPing.CallPing_flag o true false]
  simp only [Esp32IcmpPing.CallPing, Esp32IcmpPing.setupCalls]
  by_cases h1 : ((Esp32IcmpPing.Options ⟨o, false⟩).GetAddress w).1 = true
  · by_cases h2 : (Esp32IcmpPing.Options ⟨o, false⟩).IsValid = true
    · have h3 : (Esp32IcmpPing.CreateAndSetUpSocket ⟨o, false⟩ w).1 = false := by
        simpa using fun h3 => h ⟨h1, h2, h3⟩
      simp [h1, h2, h3]
    · simp [h1, h2]
  · simp [h1]

/-- The calls of `GetAddress`: one resolver lookup when a host name is set, none
otherwise. -/
theorem PingOptions.GetAddress_calls (o : PingOptions) (w : World) :
    (o.GetAddress w).2.2 = if o.host.length > 0 then [Call.hostByName] else [] := by
  simp only [PingOptions.GetAddress]
  split_ifs
  · cases w.hostByName o.host <;> rfl
  · rfl
  · rfl

/-- C11: if `ping` is invoked on an engine whose flag `_inPing` is already set,
it returns false, makes no call to the resolver or the transport, leaves the
engine as it was, with the flag set, and leaves the result of the caller equal
to the default `PingResults`, all of whose values are zero. -/
theorem Esp32IcmpPing.ping_busy (e : Esp32IcmpPing) (w : World) (h : e.inPing = true) :
    (e.ping w).1 = false ∧ (e.ping w).2.2.2 = [] ∧ (e.ping w).2.2.1 = e ∧
      (e.ping w).2.2.1.inPing = true ∧ (e.ping w).2.1 = PingResults.new ∧
      (e.ping w).2.1.Transmitted = 0 ∧ (e.ping w).2.1.Received = 0 ∧
      (e.ping w).2.1.TotalTimeMs = 0 ∧ (e.ping w).2.1.MinTimeMs = 0 ∧
      (e.ping w).2.1.MaxTimeMs = 0 ∧ (e.ping w).2.1.AveTimeMs = 0 ∧
      (e.ping w).2.1.StdDevTimeMs = 0 := by
  have hp : e.ping w = (false, PingResults.new, e, []) := by
    simp [Esp32IcmpPing.ping, h]
  rw [hp]
  exact ⟨rfl, rfl, rfl, h, rfl, rfl, rfl, rfl, rfl, rfl, rfl, rfl⟩

theorem Esp32IcmpPing.ping_busy_witness :
    (Esp32IcmpPing.mk (PingOptions.ofIp4 0x04040808 4 1000) true).inPing = true ∧
      ((Esp32IcmpPing.mk (PingOptions.ofIp4 0x04040808 4 1000) true).ping
          (sampleWorld 4 (fun _ => recvTimeout))).1 = false ∧
      ((Esp32IcmpPing.mk (PingOptions.ofIp4 0x04040808 4 1000) true).ping
          (sampleWorld 4 (fun _ => recvTimeout))).2.2.2 = [] ∧
      ((Esp32IcmpPing.mk (PingOptions.ofIp4 0x04040808 4 1000) true).ping
          (sampleWorld 4 (fun _ => recvTimeout))).2.2.1.inPing = true ∧
      ((Esp32IcmpPing.mk (PingOptions.ofIp4 0x04040808 4 1000) true).ping
          (sampleWorld 4 (fun _ => recvTimeout))).2.1 = PingResults.new :=
  have h := Esp32IcmpPing.ping_busy (Esp32IcmpPing.mk (PingOptions.ofIp4 0x04040808 4 1000) true)
    (sampleWorld 4 (fun _ => recvTimeout)) rfl
  ⟨rfl, h.1, h.2.1, h.2.2.2.1, h.2.2.2.2.1⟩

/-- C12 fails for a configuration with a host name and a count of 0: the options
are not valid, yet the session looks the host name up before it fails. -/
theorem Esp32IcmpPing.invalid_count_lookup_counterexample :
    (PingOptions.ofHost "example.org" 0).IsValid = false ∧
      ((Esp32IcmpPing.new (PingOptions.ofHost "example.org" 0)).ping
        (resolvingWorld 4 (fun _ => recvTimeout))).1 = false ∧
      ((Esp32IcmpPing.new (PingOptions.ofHost "example.org" 0)).ping
        (resolvingWorld 4 (fun _ => recvTimeout))).2.2.2 = [Call.hostByName] := by
  decide

/-- C12, amended: for every idle engine whose options make `IsValid()` false
(among them a count of 0 and a non-zero overall timeout below
count * receiveTimeout) or whose target is unset or not resolved, `ping`
returns false, the result equals the default `PingResults`, and no transport
call is made (no socket, no send, no receive); the only call of the session is
the resolver lookup, which is made exactly when a host name is set, also when
the count or the timeouts are invalid. -/
theorem Esp32IcmpPing.ping_config_error (e : Esp32IcmpPing) (w : World)
    (hidle : e.inPing = false)
    (h : e.Options.IsValid = false ∨ (e.Options.GetAddress w).1 = false) :
    (e.ping w).1 = false ∧ (e.ping w).2.1 = PingResults.new ∧
      (e.ping w).2.2.2 = (if e.Options.host.length > 0 then [Call.hostByName] else []) ∧
      (∀ c ∈ (e.ping w).2.2.2, c = Call.hostByName) ∧
      (e.Options.Count = 0 → e.Options.IsValid = false) ∧
      (e.Options.totalTimeoutMs ≠ 0 →
        e.Options.totalTimeoutMs < e.Options.Count * e.Options.ReceiveTimeoutMs →
        e.Options.InRange → e.Options.IsValid = false) ∧
      (e.Options.host.length = 0 → e.Options.ip4 = 0 → (e.Options.GetAddress w).1 = false) ∧
      (w.hostByName e.Options.host = none → 0 < e.Options.host.length →
        (e.Options.GetAddress w).1 = false) := by
  have hnot : ¬ e.ReachesLoop w := by
    rintro ⟨_, h1, h2, _⟩
    rcases h with h | h
    · rw [h2] at h; cases h
    · rw [h1] at h; cases h
  obtain ⟨p1, p2, _, p4⟩ := Esp32IcmpPing.ping_early e w hidle hnot
  have hcalls : (e.ping w).2.2.2 =
      (if e.Options.host.length > 0 then [Call.hostByName] else []) := by
    rw [p4, ← PingOptions.GetAddress_calls]
    split_ifs with hc
    · rcases h with h | h
      · rw [hc.2] at h; cases h
      · rw [hc.1] at h; cases h
    · rfl
  refine ⟨p1, p2, hcalls, ?_, ?_, ?_, ?_, ?_⟩
  · rw [hcalls]
    split_ifs <;> simp
  · intro hc
    simp [PingOptions.IsValid, hc]
  · intro ht hlt hin
    obtain ⟨_, hcnt, hrecv, _⟩ := hin
    have hprod : e.Options.Count * e.Options.ReceiveTimeoutMs < 2 ^ 32 := by
      have : e.Options.Count * e.Options.ReceiveTimeoutMs ≤ 2 ^ 8 * 2 ^ 16 :=
        Nat.mul_le_mul (Nat.le_of_lt hcnt) (Nat.le_of_lt hrecv)
      omega
    have hlt2 : ¬ e.Options.totalTimeoutMs ≥ e.Options.CalcTotalTimeoutMs := by
      simp only [PingOptions.CalcTotalTimeoutMs, Nat.mod_eq_of_lt hprod]
      omega
    simp [PingOptions.IsValid, ht, hlt2]
  · intro hh hi
    simp [PingOptions.GetAddress, hh, hi]
  · intro hn hh
    simp [PingOptions.GetAddress, hh, hn]

theorem Esp32IcmpPing.ping_config_error_witness :
    (Esp32IcmpPing.new (PingOptions.ofHost "example.org" 0)).inPing = false ∧
      (Esp32IcmpPing.new (PingOptions.ofHost "example.org" 0)).Options.IsValid = false ∧
      ((Esp32IcmpPing.new (PingOptions.ofHost "example.org" 0)).ping
        (resolvingWorld 4 (fun _ => recvTimeout))).1 = false ∧
      ((Esp32IcmpPing.new (PingOptions.ofHost "example.org" 0)).ping
        (resolvingWorld 4 (fun _ => recvTimeout))).2.1 = PingResults.new ∧
      ∀ c ∈ ((Esp32IcmpPing.new (PingOptions.ofHost "example.org" 0)).ping
        (resolvingWorld 4 (fun _ => recvTimeout))).2.2.2, c = Call.hostByName :=
  have h := Esp32IcmpPing.ping_config_error
    (Esp32IcmpPing.new (PingOptions.ofHost "example.org" 0))
    (resolvingWorld 4 (fun _ => recvTimeout)) rfl (Or.inl (by decide))
  ⟨rfl, by decide, h.1, h.2.1, h.2.2.2.1⟩

/-- C13: for every engine and every behaviour of the resolver and the
transport, the flag returned by `ping(result)` is true exactly when
`result.Received() > 0` after the call. -/
theorem Esp32IcmpPing.ping_true_iff_received (e : Esp32IcmpPing) (w : World) :
    (e.ping w).1 = true ↔ 0 < (e.ping w).2.1.Received := by
  by_cases hbusy : e.inPing = true
  · have hp : e.ping w = (false, PingResults.new, e, []) := by
      simp [Esp32IcmpPing.ping, hbusy]
    rw [hp]
    simp [PingResults.new, PingResults.Received]
  · have hidle : e.inPing = false := by simpa using hbusy
    by_cases hreach : e.ReachesLoop w
    · obtain ⟨i1, i2, i3, _⟩ := Esp32IcmpPing.loopEnd_inv e w hreach.2.2.1
      simp only [MAX_COUNT] at i3
      obtain ⟨f1, _, f3, _⟩ := Esp32IcmpPing.finish_counts (e.loopEnd w) PingResults.new w.fpContract
        (by omega) (by omega)
      rw [Esp32IcmpPing.ping_loopEnd e w hreach]
      simp only [f1, f3, decide_eq_true_eq]
    · obtain ⟨p1, p2, _⟩ := Esp32IcmpPing.ping_early e w hidle hreach
      rw [p1, p2]
      simp [PingResults.new, PingResults.Received]

/-- The count and the receive timeout that the constructor stores. -/
theorem PingOptions.create_fields (ip4 : Nat) (host : String)
    (cnt recvTimeoutMs totalTimeoutMs : Nat) (hcnt : cnt < 2 ^ 8)
    (hrecv : recvTimeoutMs < 2 ^ 16) :
    (PingOptions.create ip4 host cnt recvTimeoutMs totalTimeoutMs).Count = min cnt 10 ∧
      (PingOptions.create ip4 host cnt recvTimeoutMs totalTimeoutMs).ReceiveTimeoutMs =
        (if recvTimeoutMs > 0 then recvTimeoutMs else 1000) := by
  constructor
  · simp only [PingOptions.create, PingOptions.Count, MAX_COUNT, Nat.mod_eq_of_lt hcnt]
    split_ifs <;> omega
  · simp only [PingOptions.create, PingOptions.ReceiveTimeoutMs, DEFAULT_RECV_TIMEOUT_MS,
      Nat.mod_eq_of_lt hrecv]

/-- C18: for every constructor input `(cnt, recvTimeoutMs)`, a `uint8_t` and a
`uint16_t`, the constructed options have `Count() = min(cnt, 10)` and
`ReceiveTimeoutMs() = recvTimeoutMs` when that is positive, 1000 otherwise; hence
`Count() ≤ 10` and `ReceiveTimeoutMs() > 0`. The two public constructors
delegate to the private one. -/
theorem PingOptions.create_clamps (ip4 : Nat) (host : String)
    (cnt recvTimeoutMs totalTimeoutMs : Nat) (hcnt : cnt < 2 ^ 8)
    (hrecv : recvTimeoutMs < 2 ^ 16) :
    (PingOptions.create ip4 host cnt recvTimeoutMs totalTimeoutMs).Count = min cnt 10 ∧
      (PingOptions.create ip4 host cnt recvTimeoutMs totalTimeoutMs).ReceiveTimeoutMs =
        (if recvTimeoutMs > 0 then recvTimeoutMs else 1000) ∧
      (PingOptions.create ip4 host cnt recvTimeoutMs totalTimeoutMs).Count ≤ 10 ∧
      0 < (PingOptions.create ip4 host cnt recvTimeoutMs totalTimeoutMs).ReceiveTimeoutMs ∧
      PingOptions.ofIp4 ip4 cnt recvTimeoutMs totalTimeoutMs =
        PingOptions.create ip4 "" cnt recvTimeoutMs totalTimeoutMs ∧
      PingOptions.ofHost host cnt recvTimeoutMs totalTimeoutMs =
        PingOptions.create 0 host cnt recvTimeoutMs totalTimeoutMs := by
  obtain ⟨hc, hr⟩ :=
    PingOptions.create_fields ip4 host cnt recvTimeoutMs totalTimeoutMs hcnt hrecv
  refine ⟨hc, hr, ?_, ?_, rfl, rfl⟩
  · rw [hc]; omega
  · rw [hr]; split_ifs <;> omega

theorem PingOptions.create_clamps_witness :
    (200 : Nat) < 2 ^ 8 ∧ (0 : Nat) < 2 ^ 16 ∧
      (PingOptions.create 0x04040808 "" 200 0 0).Count = 10 ∧
      (PingOptions.create 0x04040808 "" 200 0 0).ReceiveTimeoutMs = 1000 :=
  have h := PingOptions.create_clamps 0x04040808 "" 200 0 0 (by decide) (by decide)
  ⟨by decide, by decide, h.1, h.2.1⟩

/-- C19 fails for options constructed with a count of 0 and no overall timeout:
`TotalTimeoutMs()` is 0 * 1000 = 0, which is not > 0. -/
theorem PingOptions.totalTimeout_counterexample :
    (PingOptions.ofIp4 0x04040808 0 1000 0).TotalTimeoutMs = 0 := by
  decide

/-- C19, amended: for all constructed options, `TotalTimeoutMs()` equals the
stored overall timeout when that is non-zero and otherwise the exact product
`Count() * ReceiveTimeoutMs()`, which is at most 10 * 65535 = 655350 and is not
truncated to 16 bits; the value returned is > 0 exactly when the stored overall
timeout is non-zero or the count given is non-zero, and it is 0 for a count of
0 without an overall timeout. -/
theorem PingOptions.totalTimeout_exact (ip4 : Nat) (host : String)
    (cnt recvTimeoutMs totalTimeoutMs : Nat) (hcnt : cnt < 2 ^ 8)
    (hrecv : recvTimeoutMs < 2 ^ 16) (htotal : totalTimeoutMs < 2 ^ 16) :
    (totalTimeoutMs ≠ 0 →
        (PingOptions.create ip4 host cnt recvTimeoutMs totalTimeoutMs).TotalTimeoutMs =
          totalTimeoutMs) ∧
      (totalTimeoutMs = 0 →
        (PingOptions.create ip4 host cnt recvTimeoutMs totalTimeoutMs).TotalTimeoutMs =
          (PingOptions.create ip4 host cnt recvTimeoutMs totalTimeoutMs).Count *
            (PingOptions.create ip4 host cnt recvTimeoutMs totalTimeoutMs).ReceiveTimeoutMs) ∧
      (PingOptions.create ip4 host cnt recvTimeoutMs totalTimeoutMs).Count *
          (PingOptions.create ip4 host cnt recvTimeoutMs totalTimeoutMs).ReceiveTimeoutMs ≤
        655350 ∧
      (0 < (PingOptions.create ip4 host cnt recvTimeoutMs totalTimeoutMs).TotalTimeoutMs ↔
        (totalTimeoutMs ≠ 0 ∨ 0 < cnt)) := by
  obtain ⟨hc, hr⟩ :=
    PingOptions.create_fields ip4 host cnt recvTimeoutMs totalTimeoutMs hcnt hrecv
  have ht : (PingOptions.create ip4 host cnt recvTimeoutMs totalTimeoutMs).totalTimeoutMs =
      totalTimeoutMs := Nat.mod_eq_of_lt htotal
  have hprod : (PingOptions.create ip4 host cnt recvTimeoutMs totalTimeoutMs).Count *
      (PingOptions.create ip4 host cnt recvTimeoutMs totalTimeoutMs).ReceiveTimeoutMs ≤
        655350 := by
    have h1 : (PingOptions.create ip4 host cnt recvTimeoutMs totalTimeoutMs).Count ≤ 10 := by
      rw [hc]; omega
    have h2 : (PingOptions.create ip4 host cnt recvTimeoutMs totalTimeoutMs).ReceiveTimeoutMs ≤
        65535 := by
      rw [hr]; split_ifs <;> omega
    exact Nat.mul_le_mul h1 h2
  have hpos : 0 < (PingOptions.create ip4 host cnt recvTimeoutMs totalTimeoutMs).ReceiveTimeoutMs := by
    rw [hr]; split_ifs <;> omega
  simp only [PingOptions.TotalTimeoutMs, PingOptions.CalcTotalTimeoutMs, ht,
    Nat.mod_eq_of_lt (Nat.lt_of_le_of_lt hprod (by decide : 655350 < 2 ^ 32))]
  refine ⟨fun h => by simp [h], fun h => by simp [h], hprod, ?_⟩
  by_cases h0 : totalTimeoutMs = 0
  · subst h0
    simp only [if_true, ne_eq, not_true_eq_false, false_or]
    rw [Nat.mul_pos_iff_of_pos_right hpos, hc]
    omega
  · simp only [h0, if_false, ne_eq, not_false_eq_true, true_or, iff_true]
    omega

theorem PingOptions.totalTimeout_exact_witness :
    (10 : Nat) < 2 ^ 8 ∧ (65535 : Nat) < 2 ^ 16 ∧ (0 : Nat) < 2 ^ 16 ∧
      (PingOptions.create 0x04040808 "" 10 65535 0).TotalTimeoutMs = 655350 :=
  have h := PingOptions.totalTimeout_exact 0x04040808 "" 10 65535 0 (by decide) (by decide)
    (by decide)
  ⟨by decide, by decide, by decide, (h.2.1 rfl).trans (by decide)⟩

/-- The constructor stores a count of at most `MAX_COUNT`. -/
theorem PingOptions.create_count_le (ip4 : Nat) (host : String)
    (cnt recvTimeoutMs totalTimeoutMs : Nat) :
    (PingOptions.create ip4 host cnt recvTimeoutMs totalTimeoutMs).Count ≤ MAX_COUNT := by
  simp only [PingOptions.create, PingOptions.Count, MAX_COUNT]
  split_ifs <;> omega

/-- The state after `n + 1` iterations is the state that iteration `seq + n`
leaves when run in the state after `n` iterations. -/
theorem Esp32IcmpPing.stateAfter_succ (e : Esp32IcmpPing) (w : World) (ip4 : Nat) (n : Nat) :
    ∀ (seq : Nat) (st : LoopState),
      e.stateAfter w ip4 (n + 1) seq st =
        (e.pingStep w ip4 (seq + n) (e.stateAfter w ip4 n seq st)).1 := by
  induction n with
  | zero => intro seq st; rfl
  | succ n ih =>
    intro seq st
    rw [Esp32IcmpPing.stateAfter, ih (seq + 1), Esp32IcmpPing.stateAfter]
    have h : seq + 1 + n = seq + (n + 1) := by omega
    rw [h]

/-- What `n` iterations keep, whatever the transport does. -/
theorem Esp32IcmpPing.stateAfter_inv (e : Esp32IcmpPing) (w : World) (ip4 : Nat) (n : Nat) :
    ∀ (seq : Nat) (st : LoopState), st.received ≤ st.transmitted →
      st.transmitted + n ≤ MAX_COUNT → st.times_ms.length = MAX_COUNT →
      st.mean_total_ms = F32.sum (st.times_ms.take st.received) →
        (e.stateAfter w ip4 n seq st).received ≤ (e.stateAfter w ip4 n seq st).transmitted ∧
          (e.stateAfter w ip4 n seq st).transmitted ≤ st.transmitted + n := by
  induction n with
  | zero => intro seq st hr _ _ _; exact ⟨hr, le_refl _⟩
  | succ n ih =>
    intro seq st hr ht hlen hsum
    obtain ⟨s1, _, s3, _, s5, s6⟩ :=
      Esp32IcmpPing.pingStep_inv e w ip4 seq st hr (by omega) hlen hsum
    obtain ⟨i1, i2⟩ := ih (seq + 1) _ s1 (by omega) s5 s6
    rw [Esp32IcmpPing.stateAfter]
    exact ⟨i1, by omega⟩

/-- C16: for every constructed configuration, every state of the flag `_inPing`
and every behaviour of the resolver and the transport, the result of a session
satisfies received ≤ transmitted ≤ Count() ≤ 10; and the counters do not
overflow their 8 bits: in the state after any n < Count() iterations, which
covers every state in which the loop increments a counter, both counters are
at most n ≤ 9, so that the increment modulo 2^8 is the exact successor. -/
theorem Esp32IcmpPing.ping_counters_bounded (ip4 : Nat) (host : String)
    (cnt recvTimeoutMs totalTimeoutMs : Nat) (busy : Bool) (w : World) :
    ((Esp32IcmpPing.mk (PingOptions.create ip4 host cnt recvTimeoutMs totalTimeoutMs) busy).ping
          w).2.1.Received ≤
        ((Esp32IcmpPing.mk (PingOptions.create ip4 host cnt recvTimeoutMs totalTimeoutMs)
          busy).ping w).2.1.Transmitted ∧
      ((Esp32IcmpPing.mk (PingOptions.create ip4 host cnt recvTimeoutMs totalTimeoutMs)
          busy).ping w).2.1.Transmitted ≤
        (PingOptions.create ip4 host cnt recvTimeoutMs totalTimeoutMs).Count ∧
      (PingOptions.create ip4 host cnt recvTimeoutMs totalTimeoutMs).Count ≤ 10 ∧
      ∀ (target n : Nat),
        n < (PingOptions.create ip4 host cnt recvTimeoutMs totalTimeoutMs).Count →
          (Esp32IcmpPing.stateAfter
                (Esp32IcmpPing.mk (PingOptions.create ip4 host cnt recvTimeoutMs totalTimeoutMs)
                  busy) w target n 1
                (Esp32IcmpPing.loopStart
                  (Esp32IcmpPing.setupCalls
                    (Esp32IcmpPing.mk
                      (PingOptions.create ip4 host cnt recvTimeoutMs totalTimeoutMs) busy)
                    w))).received ≤
              (Esp32IcmpPing.stateAfter
                (Esp32IcmpPing.mk (PingOptions.create ip4 host cnt recvTimeoutMs totalTimeoutMs)
                  busy) w target n 1
                (Esp32IcmpPing.loopStart
                  (Esp32IcmpPing.setupCalls
                    (Esp32IcmpPing.mk
                      (PingOptions.create ip4 host cnt recvTimeoutMs totalTimeoutMs) busy)
                    w))).transmitted ∧
            (Esp32IcmpPing.stateAfter
                (Esp32IcmpPing.mk (PingOptions.create ip4 host cnt recvTimeoutMs totalTimeoutMs)
                  busy) w target n 1
                (Esp32IcmpPing.loopStart
                  (Esp32IcmpPing.setupCalls
                    (Esp32IcmpPing.mk
                      (PingOptions.create ip4 host cnt recvTimeoutMs totalTimeoutMs) busy)
                    w))).transmitted ≤ n ∧
            n ≤ 9 ∧ (n + 1) % 2 ^ 8 = n + 1 := by
  generalize he : Esp32IcmpPing.mk (PingOptions.create ip4 host cnt recvTimeoutMs totalTimeoutMs)
    busy = e
  have hopt : e.Options = PingOptions.create ip4 host cnt recvTimeoutMs totalTimeoutMs := by
    rw [← he]; rfl
  have hcount : e.Options.Count ≤ MAX_COUNT := by
    rw [hopt]; exact PingOptions.create_count_le _ _ _ _ _
  rw [← hopt]
  simp only [MAX_COUNT] at hcount
  have hres : (e.ping w).2.1.Received ≤ (e.ping w).2.1.Transmitted ∧
      (e.ping w).2.1.Transmitted ≤ e.Options.Count := by
    by_cases hbusy : e.inPing = true
    · have hp : e.ping w = (false, PingResults.new, e, []) := by
        simp [Esp32IcmpPing.ping, hbusy]
      rw [hp]
      simp [PingResults.new, PingResults.Received, PingResults.Transmitted]
    · have hidle : e.inPing = false := by simpa using hbusy
      by_cases hreach : e.ReachesLoop w
      · obtain ⟨i1, i2, _⟩ := Esp32IcmpPing.loopEnd_inv e w hreach.2.2.1
        obtain ⟨_, f2, f3, _⟩ := Esp32IcmpPing.finish_counts (e.loopEnd w) PingResults.new w.fpContract
          (by omega) (by omega)
        rw [Esp32IcmpPing.ping_loopEnd e w hreach]
        simp only [f2, f3]
        exact ⟨i1, i2⟩
      · obtain ⟨_, p2, _⟩ := Esp32IcmpPing.ping_early e w hidle hreach
        rw [p2]
        simp [PingResults.new, PingResults.Received, PingResults.Transmitted]
  refine ⟨hres.1, hres.2, hcount, ?_⟩
  intro target n hn
  obtain ⟨i1, i2⟩ := Esp32IcmpPing.stateAfter_inv e w target n 1
    (Esp32IcmpPing.loopStart (e.setupCalls w)) (le_refl _)
    (by simp only [Esp32IcmpPing.loopStart, MAX_COUNT]; omega)
    (by simp [Esp32IcmpPing.loopStart]) rfl
  have h0 : (Esp32IcmpPing.loopStart (e.setupCalls w)).transmitted = 0 := rfl
  rw [h0] at i2
  exact ⟨i1, by omega, by omega, Nat.mod_eq_of_lt (by omega)⟩

theorem Esp32IcmpPing.ping_counters_bounded_witness :
    ((Esp32IcmpPing.mk (PingOptions.create 0x04040808 "" 200 1000 0) false).ping
          (sampleWorld 200 (fun j => recvReply j 1338))).2.1.Received ≤
        ((Esp32IcmpPing.mk (PingOptions.create 0x04040808 "" 200 1000 0) false).ping
          (sampleWorld 200 (fun j => recvReply j 1338))).2.1.Transmitted ∧
      ((Esp32IcmpPing.mk (PingOptions.create 0x04040808 "" 200 1000 0) false).ping
          (sampleWorld 200 (fun j => recvReply j 1338))).2.1.Transmitted ≤ 10 :=
  have h := Esp32IcmpPing.ping_counters_bounded 0x04040808 "" 200 1000 0 false
    (sampleWorld 200 (fun j => recvReply j 1338))
  ⟨h.1, le_trans h.2.1 h.2.2.1⟩

/-- The calls of one `ping` invocation on every path: none; or the resolver
lookup, if any, followed by nothing, by a failed socket creation, by a socket
creation with a failed timeout set-up and the close, or by a socket creation,
the timeout set-up, probe calls and the close. -/
theorem Esp32IcmpPing.ping_trace_shape (e : Esp32IcmpPing) (w : World) :
    ∃ a, (∀ c ∈ a, c = Call.hostByName) ∧
      ((e.ping w).2.2.2 = a ∨
        (w.socket < 0 ∧ (e.ping w).2.2.2 = a ++ [Call.socket]) ∨
        (0 ≤ w.socket ∧ ∃ s us,
          (e.ping w).2.2.2 = a ++ [Call.socket, Call.setsockopt s us, Call.closesocket]) ∨
        (0 ≤ w.socket ∧ ∃ s us l, (∀ c ∈ l, Call.isProbe c = true) ∧
          (e.ping w).2.2.2 =
            a ++ [Call.socket, Call.setsockopt s us] ++ l ++ [Call.closesocket])) := by
  have ha : ∀ c ∈ (e.Options.GetAddress w).2.2, c = Call.hostByName := by
    rw [PingOptions.GetAddress_calls]
    split_ifs <;> simp
  by_cases hbusy : e.inPing = true
  · refine ⟨[], by simp, Or.inl ?_⟩
    simp [Esp32IcmpPing.ping, hbusy]
  · have hidle : e.inPing = false := by simpa using hbusy
    refine ⟨(e.Options.GetAddress w).2.2, ha, ?_⟩
    by_cases hreach : e.ReachesLoop w
    · obtain ⟨i1, i2, i3, _⟩ := Esp32IcmpPing.loopEnd_inv e w hreach.2.2.1
      simp only [MAX_COUNT] at i3
      obtain ⟨_, _, _, _, _, f6⟩ := Esp32IcmpPing.finish_counts (e.loopEnd w) PingResults.new w.fpContract
        (by omega) (by omega)
      obtain ⟨l, hl, hp⟩ := Esp32IcmpPing.pingLoop_trace e w (e.Options.GetAddress w).2.1
        e.Options.Count 1 (Esp32IcmpPing.loopStart (e.setupCalls w))
      have hsock := hreach.2.2.2
      simp only [Esp32IcmpPing.CreateAndSetUpSocket] at hsock
      have h1 : ¬ w.socket < 0 := by
        intro h; simp [h] at hsock
      have h2 : ¬ w.setsockopt < 0 := by
        intro h; simp [h1, h] at hsock
      refine Or.inr (Or.inr (Or.inr ⟨by omega, e.Options.ReceiveTimeoutSeconds,
        e.Options.ReceiveTimeoutMicros, l, hp, ?_⟩))
      rw [Esp32IcmpPing.ping_loopEnd e w hreach]
      show (Esp32IcmpPing.finish (e.loopEnd w) PingResults.new w.fpContract).2.2 = _
      rw [f6]
      show (e.pingLoop w (e.Options.GetAddress w).2.1 e.Options.Count 1
        (Esp32IcmpPing.loopStart (e.setupCalls w))).trace ++ [Call.closesocket] = _
      rw [hl]
      simp [Esp32IcmpPing.loopStart, Esp32IcmpPing.setupCalls,
        Esp32IcmpPing.CreateAndSetUpSocket, h1, h2]
    · obtain ⟨_, _, _, p4⟩ := Esp32IcmpPing.ping_early e w hidle hreach
      rw [p4]
      split_ifs with hc
      · have hsock : (e.CreateAndSetUpSocket w).1 = false := by
          simpa using fun h3 => hreach ⟨hidle, hc.1, hc.2, h3⟩
        simp only [Esp32IcmpPing.setupCalls]
        simp only [Esp32IcmpPing.CreateAndSetUpSocket] at hsock ⊢
        by_cases h1 : w.socket < 0
        · exact Or.inr (Or.inl ⟨h1, by simp [h1]⟩)
        · by_cases h2 : w.setsockopt < 0
          · exact Or.inr (Or.inr (Or.inl ⟨by omega, e.Options.ReceiveTimeoutSeconds,
              e.Options.ReceiveTimeoutMicros, by simp [h1, h2]⟩))
          · simp [h1, h2] at hsock
      · exact Or.inl rfl

/-- C17: in the calls of one `ping` invocation, whatever the configuration and
the transport do, the socket is created at most once, and when it has been
created successfully the calls are `pre ++ [closesocket]` where `pre` holds the
socket creation and no close: exactly one close follows the creation, it is the
last call before `ping` returns (after a failed timeout set-up, after an early
break, after the overall timeout and after normal completion alike), and no
send or receive comes after it. When no socket has been created successfully,
nothing is closed. -/
theorem Esp32IcmpPing.ping_socket_closed_once (e : Esp32IcmpPing) (w : World) :
    (e.ping w).2.2.2.count Call.socket ≤ 1 ∧
      (Call.socket ∈ (e.ping w).2.2.2 → 0 ≤ w.socket →
        ∃ pre, (e.ping w).2.2.2 = pre ++ [Call.closesocket] ∧ Call.socket ∈ pre ∧
          Call.closesocket ∉ pre ∧ (e.ping w).2.2.2.count Call.closesocket = 1) ∧
      (¬ (Call.socket ∈ (e.ping w).2.2.2 ∧ 0 ≤ w.socket) →
        Call.closesocket ∉ (e.ping w).2.2.2) := by
  obtain ⟨a, ha, h⟩ := Esp32IcmpPing.ping_trace_shape e w
  have ha1 : Call.socket ∉ a := fun hm => by cases ha _ hm
  have ha2 : Call.closesocket ∉ a := fun hm => by cases ha _ hm
  have hl1 : ∀ l : List Call, (∀ c ∈ l, Call.isProbe c = true) → Call.socket ∉ l :=
    fun l hp hm => by have := hp _ hm; simp [Call.isProbe] at this
  have hl2 : ∀ l : List Call, (∀ c ∈ l, Call.isProbe c = true) → Call.closesocket ∉ l :=
    fun l hp hm => by have := hp _ hm; simp [Call.isProbe] at this
  rcases h with h | ⟨hs, h⟩ | ⟨hs, s, us, h⟩ | ⟨hs, s, us, l, hp, h⟩
  · rw [h]
    refine ⟨?_, fun hm => absurd hm ha1, fun _ => ha2⟩
    rw [List.count_eq_zero_of_not_mem ha1]; omega
  · rw [h]
    refine ⟨?_, fun _ h0 => by omega, fun _ => by simp [ha2]⟩
    simp [List.count_append, List.count_eq_zero_of_not_mem ha1]
  · rw [h]
    refine ⟨?_, fun _ _ => ⟨a ++ [Call.socket, Call.setsockopt s us], by simp, by simp,
      by simp [ha2], ?_⟩, fun hn => absurd ⟨by simp, hs⟩ hn⟩
    · simp [List.count_append, List.count_eq_zero_of_not_mem ha1, List.count_cons]
    · simp [List.count_append, List.count_eq_zero_of_not_mem ha2, List.count_cons]
  · rw [h]
    refine ⟨?_, fun _ _ => ⟨a ++ [Call.socket, Call.setsockopt s us] ++ l, rfl, by simp,
      by simp [ha2, hl2 l hp], ?_⟩, fun hn => absurd ⟨by simp, hs⟩ hn⟩
    · simp [List.count_append, List.count_eq_zero_of_not_mem ha1,
        List.count_eq_zero_of_not_mem (hl1 l hp), List.count_cons]
    · simp [List.count_append, List.count_eq_zero_of_not_mem ha2,
        List.count_eq_zero_of_not_mem (hl2 l hp), List.count_cons]

theorem Esp32IcmpPing.ping_socket_closed_once_witness :
    (0 : Int) ≤ (sampleWorld 2 (fun _ => recvTimeout)).socket ∧
      ((sampleEngine 4).ping (sampleWorld 2 (fun _ => recvTimeout))).2.2.2.count
        Call.closesocket = 1 ∧
      ((sampleEngine 4).ping (sampleWorld 2 (fun _ => recvTimeout))).2.2.2.getLast? =
        some Call.closesocket := by
  obtain ⟨pre, h1, _, _, h4⟩ :=
    (Esp32IcmpPing.ping_socket_closed_once (sampleEngine 4)
      (sampleWorld 2 (fun _ => recvTimeout))).2.1 (by decide) (by decide)
  refine ⟨by decide, h4, ?_⟩
  rw [h1]
  simp

/-- A datagram of at least 28 bytes that passes `IsValid` leaves `canContinue`
set, whatever its measured time. -/
theorem Esp32IcmpPing.Receive_valid (r : RecvResult) (seq : Nat) (hlen : 28 ≤ r.len)
    (hvalid : IcmpEchoResponse.IsValid (Esp32IcmpPing.echoResponse r) seq = true) :
    (Esp32IcmpPing.Receive r seq).2.2 = true := by
  have h1 : ¬ r.len < 0 := by omega
  have h2 : ¬ r.len = 0 := by omega
  have h3 : ¬ r.len < ((20 + 8 : Nat) : Int) := by
    have : ((20 + 8 : Nat) : Int) = 28 := by norm_num
    omega
  unfold Esp32IcmpPing.Receive
  simp only [h1, h2, h3, hvalid, if_false, sizeof_ip_hdr, sizeof_icmp_echo_hdr]
  split_ifs <;> simp_all

/-- An iteration that sends and is left with `canContinue` set reads the clock. -/
theorem Esp32IcmpPing.pingStep_elapsed (e : Esp32IcmpPing) (w : World) (ip4 k : Nat)
    (st : LoopState) (h : w.sendto k > 0)
    (hc : (Esp32IcmpPing.Receive (w.recvfrom k) k).2.2 = true) :
    (e.pingStep w ip4 k st).1.time_elapsed_ms = w.elapsedMs k := by
  simp only [Esp32IcmpPing.pingStep, Esp32IcmpPing.Send, h, decide_True, hc]
  split_ifs <;> simp_all

/-- The total time that `SetResults` stores, a `uint16_t`. -/
theorem Esp32IcmpPing.finish_total (st : LoopState) (result : PingResults) (c : Bool) :
    (Esp32IcmpPing.finish st result c).2.1.TotalTimeMs = st.time_elapsed_ms % 2 ^ 16 := by
  simp [Esp32IcmpPing.finish, PingResults.SetResults, PingResults.TotalTimeMs]

/-- When the iterations before `k` all go on and the loop ends after iteration
`k`, by a break or because `k` is the count, the loop leaves the state after
`k` iterations. -/
theorem Esp32IcmpPing.pingLoop_ends (e : Esp32IcmpPing) (w : World) (ip4 : Nat)
    (hcount : e.Options.Count < 65535) (k : Nat) (st0 : LoopState) (hk1 : 1 ≤ k)
    (hkn : k ≤ e.Options.Count) (hprev : ∀ j, 1 ≤ j → j < k → e.Continues w j)
    (hend : (e.pingStep w ip4 k (e.stateAfter w ip4 (k - 1) 1 st0)).2 = false ∨
      k = e.Options.Count) :
    e.pingLoop w ip4 e.Options.Count 1 st0 = e.stateAfter w ip4 k 1 st0 := by
  have hfuel : e.Options.Count = (k - 1) + ((e.Options.Count - k) + 1) := by omega
  have hk : 1 + (k - 1) = k := by omega
  have hkk : k = (k - 1) + 1 := by omega
  have hst : e.stateAfter w ip4 k 1 st0 =
      (e.pingStep w ip4 k (e.stateAfter w ip4 (k - 1) 1 st0)).1 := by
    conv_lhs => rw [hkk]
    rw [Esp32IcmpPing.stateAfter_succ, hk]
  rw [hst]
  conv_lhs => rw [hfuel]
  rw [Esp32IcmpPing.pingLoop_arrives e w ip4 hcount (k - 1) _ 1 _
    (fun j h1 h2 => hprev j h1 (by omega)) (by omega)]
  rw [hk, Esp32IcmpPing.pingLoop]
  simp only [hkn, if_true]
  rcases hend with h | h
  · simp [h]
  · have h0 : e.Options.Count - k = 0 := by omega
    rw [h0]
    split_ifs
    · rfl
    · rfl

/-- A loop that still has fuel and a sequence number within the count sends the
request for it next. -/
theorem Esp32IcmpPing.pingLoop_trace_first (e : Esp32IcmpPing) (w : World) (ip4 : Nat)
    (fuel seq : Nat) (st : LoopState) (hseq : seq ≤ e.Options.Count) :
    ∃ l, (e.pingLoop w ip4 (fuel + 1) seq st).trace =
      st.trace ++ Call.sendto ip4 (IcmpEchoRequest seq) :: l := by
  obtain ⟨l1, h1, _⟩ := Esp32IcmpPing.pingStep_trace e w ip4 seq st
  simp only [Esp32IcmpPing.pingLoop, hseq, if_true]
  split_ifs
  · obtain ⟨l2, h2, _⟩ := Esp32IcmpPing.pingLoop_trace e w ip4 fuel ((seq + 1) % 2 ^ 16)
      (e.pingStep w ip4 seq st).1
    exact ⟨l1 ++ l2, by rw [h2, h1]; simp⟩
  · exact ⟨l1, h1⟩

/-- C20: for every session that reaches the loop and every k < count such that
the loop has not ended before probe k, probe k is sent, and attempt k ends in a
receive timeout or a valid reply: if the clock delta since the start of the
session, measured after attempt k, is strictly greater than `TotalTimeoutMs()`,
the loop ends with transmitted = k and no probe k+1 is sent, the close of the
socket being the only call after the receive of attempt k; if the delta is at
most `TotalTimeoutMs()`, the loop proceeds to probe k+1, whose send is the next
call. -/
theorem Esp32IcmpPing.ping_overall_timeout (e : Esp32IcmpPing) (w : World) (k : Nat)
    (hreach : e.ReachesLoop w) (hk1 : 1 ≤ k) (hkn : k < e.Options.Count)
    (hprev : ∀ j, 1 ≤ j → j < k → e.Continues w j) (hsend : w.sendto k > 0)
    (hatt : ((w.recvfrom k).len < 0 ∧
        ((w.recvfrom k).errno = EAGAIN ∨ (w.recvfrom k).errno = EWOULDBLOCK)) ∨
      (28 ≤ (w.recvfrom k).len ∧
        IcmpEchoResponse.IsValid (Esp32IcmpPing.echoResponse (w.recvfrom k)) k = true)) :
    (w.elapsedMs k > e.Options.TotalTimeoutMs →
        (e.ping w).2.1.Transmitted = k ∧
          (e.ping w).2.2.2 =
            e.setupCalls w ++ Esp32IcmpPing.probeCalls (e.Options.GetAddress w).2.1 1 k ++
              [Call.closesocket]) ∧
      (w.elapsedMs k ≤ e.Options.TotalTimeoutMs →
        ∃ rest, (e.ping w).2.2.2 =
          e.setupCalls w ++ Esp32IcmpPing.probeCalls (e.Options.GetAddress w).2.1 1 k ++
            Call.sendto (e.Options.GetAddress w).2.1 (IcmpEchoRequest (k + 1)) :: rest) := by
  obtain ⟨_, hcnt⟩ := PingOptions.count_le_of_isValid _ hreach.2.2.1
  obtain ⟨i1, i2, _⟩ := Esp32IcmpPing.loopEnd_inv e w hreach.2.2.1
  obtain ⟨_, f2, _, _, _, f6⟩ := Esp32IcmpPing.finish_counts (e.loopEnd w) PingResults.new w.fpContract
    (by omega) (by omega)
  have hcan : (Esp32IcmpPing.Receive (w.recvfrom k) k).2.2 = true := by
    rcases hatt with ⟨h1, h2⟩ | ⟨h1, h2⟩
    · rw [Esp32IcmpPing.Receive_timeout _ _ h1 h2]
    · exact Esp32IcmpPing.Receive_valid _ _ h1 h2
  rw [Esp32IcmpPing.ping_loopEnd e w hreach]
  simp only [f2, f6]
  have h0t : (Esp32IcmpPing.loopStart (e.setupCalls w)).transmitted = 0 := rfl
  have h0r : (Esp32IcmpPing.loopStart (e.setupCalls w)).received = 0 := rfl
  have h0c : (Esp32IcmpPing.loopStart (e.setupCalls w)).trace = e.setupCalls w := rfl
  obtain ⟨s1, s2, _, _⟩ := Esp32IcmpPing.stateAfter_sent e w (e.Options.GetAddress w).2.1 k 1
    (Esp32IcmpPing.loopStart (e.setupCalls w))
    (fun j h1 h2 => by
      by_cases hj : j < k
      · exact (hprev j h1 hj).1
      · have : j = k := by omega
        rw [this]; exact hsend)
    (by omega) (by omega)
  rw [h0t] at s2
  rw [h0c] at s1
  constructor
  · intro hgt
    have hstep := (Esp32IcmpPing.pingStep_sent e w (e.Options.GetAddress w).2.1 k
      (e.stateAfter w (e.Options.GetAddress w).2.1 (k - 1) 1
        (Esp32IcmpPing.loopStart (e.setupCalls w))) hsend).2.2.2
    have hend : e.loopEnd w = e.stateAfter w (e.Options.GetAddress w).2.1 k 1
        (Esp32IcmpPing.loopStart (e.setupCalls w)) :=
      Esp32IcmpPing.pingLoop_ends e w _ (by omega) k _ hk1 (le_of_lt hkn) hprev
        (Or.inl (by rw [hstep, hcan]; simp; omega))
    rw [hend, s1, s2]
    exact ⟨by omega, rfl⟩
  · intro hle
    have hall : ∀ j, 1 ≤ j → j < 1 + k → e.Continues w j := by
      intro j h1 h2
      by_cases hj : j < k
      · exact hprev j h1 hj
      · have : j = k := by omega
        rw [this]; exact ⟨hsend, hcan, hle⟩
    have hfuel : e.Options.Count = k + ((e.Options.Count - k - 1) + 1) := by omega
    have harr : e.loopEnd w =
        e.pingLoop w (e.Options.GetAddress w).2.1 ((e.Options.Count - k - 1) + 1) (1 + k)
          (e.stateAfter w (e.Options.GetAddress w).2.1 k 1
            (Esp32IcmpPing.loopStart (e.setupCalls w))) := by
      unfold Esp32IcmpPing.loopEnd
      conv_lhs => rw [hfuel]
      exact Esp32IcmpPing.pingLoop_arrives e w _ (by omega) k _ 1 _ hall (by omega)
    obtain ⟨l, hl⟩ := Esp32IcmpPing.pingLoop_trace_first e w (e.Options.GetAddress w).2.1
      (e.Options.Count - k - 1) (1 + k)
      (e.stateAfter w (e.Options.GetAddress w).2.1 k 1
        (Esp32IcmpPing.loopStart (e.setupCalls w))) (by omega)
    refine ⟨l ++ [Call.closesocket], ?_⟩
    rw [harr, hl, s1, Nat.add_comm 1 k]
    simp

theorem Esp32IcmpPing.ping_overall_timeout_witness :
    (sampleEngine 4).ReachesLoop tightWorld ∧ tightWorld.elapsedMs 1 = 2500 ∧
      tightWorld.elapsedMs 2 = 5000 ∧ (sampleEngine 4).Options.TotalTimeoutMs = 4000 ∧
      ((sampleEngine 4).ping tightWorld).2.1.Transmitted = 2 ∧
      (∃ rest, ((sampleEngine 4).ping tightWorld).2.2.2 =
        (sampleEngine 4).setupCalls tightWorld ++
          Esp32IcmpPing.probeCalls ((sampleEngine 4).Options.GetAddress tightWorld).2.1 1 1 ++
          Call.sendto ((sampleEngine 4).Options.GetAddress tightWorld).2.1
            (IcmpEchoRequest (1 + 1)) :: rest) :=
  ⟨by decide, by decide, by decide, by decide,
    ((Esp32IcmpPing.ping_overall_timeout (sampleEngine 4) tightWorld 2 (by decide) (by decide)
      (by decide)
      (fun j h1 h2 => by
        have hj : j = 1 := by omega
        subst hj
        decide)
      (by decide) (Or.inl (by decide))).1 (by decide)).1,
    (Esp32IcmpPing.ping_overall_timeout (sampleEngine 4) tightWorld 1 (by decide) (by decide)
      (by decide) (fun j h1 h2 => by omega) (by decide) (Or.inl (by decide))).2 (by decide)⟩

/-- C14 fails on two paths. On normal completion of ten probes that each time
out after 10000 ms, the clock shows 100000 ms elapsed at the end of the loop
and the result reports 34464, the value modulo 2^16. When the first receive
fails hard, the loop breaks before it reads the clock: the clock shows 1 ms
elapsed at the end of the iteration and the result reports 0. -/
theorem Esp32IcmpPing.total_time_counterexample :
    (slowEngine.ReachesLoop slowWorld ∧ slowWorld.elapsedMs 10 = 100000 ∧
        (slowEngine.ping slowWorld).2.1.Transmitted = 10 ∧
        (slowEngine.ping slowWorld).2.1.TotalTimeMs = 34464) ∧
      ((sampleEngine 4).ReachesLoop (sampleWorld 4 (fun _ => recvHardError)) ∧
        (sampleWorld 4 (fun _ => recvHardError)).elapsedMs 1 = 1 ∧
        ((sampleEngine 4).ping (sampleWorld 4 (fun _ => recvHardError))).2.1.Transmitted = 1 ∧
        ((sampleEngine 4).ping (sampleWorld 4 (fun _ => recvHardError))).2.1.TotalTimeMs = 0) := by
  decide

/-- C14, amended: for every session that reaches the probe loop and whose loop
ends after an iteration k that ran to its end (probe k was sent and `Receive`
left `canContinue` set, and then the overall timeout was exceeded or k was the
count), the result's `TotalTimeMs` equals the milliseconds elapsed on the clock
between the start of the session and the end of iteration k, reduced modulo
2^16 as the `uint16_t` it is stored in; it is that number of milliseconds
itself when this is below 65536. The time of attempts that timed out is
included. Nothing is said of the exits by a break. -/
theorem Esp32IcmpPing.ping_total_time (e : Esp32IcmpPing) (w : World) (k : Nat)
    (hreach : e.ReachesLoop w) (hk1 : 1 ≤ k) (hkn : k ≤ e.Options.Count)
    (hprev : ∀ j, 1 ≤ j → j < k → e.Continues w j) (hsend : w.sendto k > 0)
    (hcan : (Esp32IcmpPing.Receive (w.recvfrom k) k).2.2 = true)
    (hend : w.elapsedMs k > e.Options.TotalTimeoutMs ∨ k = e.Options.Count) :
    (e.ping w).2.1.TotalTimeMs = w.elapsedMs k % 2 ^ 16 ∧
      (w.elapsedMs k < 2 ^ 16 → (e.ping w).2.1.TotalTimeMs = w.elapsedMs k) ∧
      (e.ping w).2.1.Transmitted = k := by
  obtain ⟨_, hcnt⟩ := PingOptions.count_le_of_isValid _ hreach.2.2.1
  obtain ⟨i1, i2, _⟩ := Esp32IcmpPing.loopEnd_inv e w hreach.2.2.1
  obtain ⟨_, f2, _⟩ := Esp32IcmpPing.finish_counts (e.loopEnd w) PingResults.new w.fpContract
    (by omega) (by omega)
  have hstep := (Esp32IcmpPing.pingStep_sent e w (e.Options.GetAddress w).2.1 k
    (e.stateAfter w (e.Options.GetAddress w).2.1 (k - 1) 1
      (Esp32IcmpPing.loopStart (e.setupCalls w))) hsend).2.2.2
  have hloop : e.loopEnd w = e.stateAfter w (e.Options.GetAddress w).2.1 k 1
      (Esp32IcmpPing.loopStart (e.setupCalls w)) := by
    refine Esp32IcmpPing.pingLoop_ends e w _ (by omega) k _ hk1 hkn hprev ?_
    rcases hend with h | h
    · exact Or.inl (by rw [hstep, hcan]; simp; omega)
    · exact Or.inr h
  have hk : 1 + (k - 1) = k := by omega
  have hkk : k = (k - 1) + 1 := by omega
  have hst : e.stateAfter w (e.Options.GetAddress w).2.1 k 1
      (Esp32IcmpPing.loopStart (e.setupCalls w)) =
      (e.pingStep w (e.Options.GetAddress w).2.1 k
        (e.stateAfter w (e.Options.GetAddress w).2.1 (k - 1) 1
          (Esp32IcmpPing.loopStart (e.setupCalls w)))).1 := by
    conv_lhs => rw [hkk]
    rw [Esp32IcmpPing.stateAfter_succ, hk]
  have htime : (e.loopEnd w).time_elapsed_ms = w.elapsedMs k := by
    rw [hloop, hst]
    exact Esp32IcmpPing.pingStep_elapsed e w _ k _ hsend hcan
  obtain ⟨_, s2, _, _⟩ := Esp32IcmpPing.stateAfter_sent e w (e.Options.GetAddress w).2.1 k 1
    (Esp32IcmpPing.loopStart (e.setupCalls w))
    (fun j h1 h2 => by
      by_cases hj : j < k
      · exact (hprev j h1 hj).1
      · have : j = k := by omega
        rw [this]; exact hsend)
    (by simp only [Esp32IcmpPing.loopStart]; omega)
    (by simp only [Esp32IcmpPing.loopStart]; omega)
  have h0t : (Esp32IcmpPing.loopStart (e.setupCalls w)).transmitted = 0 := rfl
  rw [h0t] at s2
  have htotal : (e.ping w).2.1.TotalTimeMs = w.elapsedMs k % 2 ^ 16 := by
    rw [Esp32IcmpPing.ping_loopEnd e w hreach]
    show (Esp32IcmpPing.finish (e.loopEnd w) PingResults.new w.fpContract).2.1.TotalTimeMs = _
    rw [Esp32IcmpPing.finish_total, htime]
  refine ⟨htotal, fun hlt => by rw [htotal, Nat.mod_eq_of_lt hlt], ?_⟩
  rw [Esp32IcmpPing.ping_loopEnd e w hreach]
  show (Esp32IcmpPing.finish (e.loopEnd w) PingResults.new w.fpContract).2.1.Transmitted = _
  rw [f2, hloop, s2]
  omega

theorem Esp32IcmpPing.ping_total_time_witness :
    (sampleEngine 4).ReachesLoop tightWorld ∧ tightWorld.elapsedMs 2 = 5000 ∧
      ((sampleEngine 4).ping tightWorld).2.1.TotalTimeMs = 5000 :=
  ⟨by decide, by decide,
    (Esp32IcmpPing.ping_total_time (sampleEngine 4) tightWorld 2 (by decide) (by decide)
      (by decide)
      (fun j h1 h2 => by
        have hj : j = 1 := by omega
        subst hj
        decide)
      (by decide) (by decide) (Or.inl (by decide))).2.1 (by decide)⟩

/-! ### Mean and standard deviation -/

theorem F32.sub_self_eq (x : F32) : F32.sub x x = 0 := by
  have h : F32.round 0 1 = 0 := by decide
  simp [F32.sub, h]

theorem F32.zero_ops : F32.mul 0 0 = 0 ∧ F32.add 0 0 = 0 ∧ F32.fma 0 0 0 = 0 := by
  decide

/-- The squared differences of equal times from their common value sum to 0. -/
theorem F32.sqDevSum_replicate (c : Bool) (n : Nat) (x : F32) :
    F32.sqDevSum c (List.replicate n x) x = 0 := by
  have hstep : F32.mulAdd c 0 0 0 = 0 := by
    cases c
    · simp [F32.mulAdd, F32.zero_ops.1, F32.zero_ops.2.1]
    · simp [F32.mulAdd, F32.zero_ops.2.2]
  induction n with
  | zero => rfl
  | succ n ih =>
    simp only [F32.sqDevSum, List.replicate_succ, List.foldl_cons, F32.sub_self_eq,
      hstep] at ih ⊢
    exact ih

set_option maxRecDepth 4000 in
/-- The mean and the standard deviation of the times 10, 20 and 30, whether the
multiply-add is contracted or not (the squares 100, 0, 100 and their sums are
exact): the mean is 20; the standard deviation is 0x4102A3B3, and its square is
200/3 to within 10^-5. -/
theorem F32.stats_10_20_30 (c : Bool) :
    F32.mean [F32.ofInt 10, F32.ofInt 20, F32.ofInt 30] = F32.ofInt 20 ∧
      F32.stdDev c [F32.ofInt 10, F32.ofInt 20, F32.ofInt 30] =
        ((8561587 * 2 ^ 129 : Nat) : Int) ∧
      (200 * 100000 - 3) * (((2 ^ 149 : Nat) : Int) * ((2 ^ 149 : Nat) : Int)) <
        3 * 100000 * (((8561587 * 2 ^ 129 : Nat) : Int) * ((8561587 * 2 ^ 129 : Nat) : Int)) ∧
      3 * 100000 * (((8561587 * 2 ^ 129 : Nat) : Int) * ((8561587 * 2 ^ 129 : Nat) : Int)) <
        (200 * 100000 + 3) * (((2 ^ 149 : Nat) : Int) * ((2 ^ 149 : Nat) : Int)) := by
  cases c <;> decide

/-- The mean and the standard deviation that `SetResults` stores. -/
theorem Esp32IcmpPing.finish_stats (st : LoopState) (result : PingResults) (c : Bool)
    (hr : st.received ≤ st.times_ms.length)
    (hsum : st.mean_total_ms = F32.sum (st.times_ms.take st.received)) :
    (Esp32IcmpPing.finish st result c).2.1.AveTimeMs =
        F32.mean (st.times_ms.take st.received) ∧
      (Esp32IcmpPing.finish st result c).2.1.StdDevTimeMs =
        F32.stdDev c (st.times_ms.take st.received) := by
  have hlen : (st.times_ms.take st.received).length = st.received := by
    simp [List.length_take, hr]
  simp only [Esp32IcmpPing.finish, PingResults.SetResults, PingResults.AveTimeMs,
    PingResults.StdDevTimeMs, F32.mean, F32.stdDev, hlen, hsum,
    Esp32IcmpPing.varTotal_eq c _ _ _ hr]
  exact ⟨trivial, trivial⟩

set_option maxRecDepth 4000 in
/-- The standard deviation depends on the build: for replies after 300 us and
1029 us it is 0x3EBA9FBF when the multiply-add of the variance pass is
contracted and 0x3EBA9FC0 when it is not. -/
theorem Esp32IcmpPing.stddev_by_build :
    ((sampleEngine 2).ping (unevenWorld true)).2.1.StdDevTimeMs =
        ((12230591 * 2 ^ 124 : Nat) : Int) ∧
      ((sampleEngine 2).ping (unevenWorld false)).2.1.StdDevTimeMs =
        ((12230592 * 2 ^ 124 : Nat) : Int) := by
  decide

set_option maxRecDepth 4000 in
/-- C15 fails for three replies that each took 1338 us, whether the build
contracts the multiply-add of the variance pass or not: the recorded times are
all 0x3FAB4396, the mean is 0x3FAB4395, one unit in the last place below the
common time and not their exact mean, and the standard deviation is 2^-23 ms,
not 0. -/
theorem Esp32IcmpPing.stddev_counterexample :
    (sampleEngine 3).ReachesLoop (sampleWorld 3 (fun j => recvReply j 1338)) ∧
      (sampleEngine 3).recordedTimes (sampleWorld 3 (fun j => recvReply j 1338)) =
        List.replicate 3 (((11223958 * 2 ^ 126 : Nat) : Int)) ∧
      ((sampleEngine 3).ping (sampleWorld 3 (fun j => recvReply j 1338))).2.1.Received = 3 ∧
      ((sampleEngine 3).ping (sampleWorld 3 (fun j => recvReply j 1338))).2.1.AveTimeMs =
        ((11223957 * 2 ^ 126 : Nat) : Int) ∧
      (sampleWorld 3 (fun j => recvReply j 1338)).fpContract = true ∧
      ((sampleEngine 3).ping (sampleWorld 3 (fun j => recvReply j 1338))).2.1.StdDevTimeMs =
        ((2 ^ 126 : Nat) : Int) ∧
      ((sampleEngine 3).ping (sampleWorld 3 (fun j => recvReply j 1338))).2.1.StdDevTimeMs ≠
        0 ∧
      ((sampleEngine 3).ping
          { sampleWorld 3 (fun j => recvReply j 1338) with
            fpContract := false }).2.1.StdDevTimeMs =
        ((2 ^ 126 : Nat) : Int) := by
  decide

/-- C15, amended: for every session that reaches the loop, with n = received and
the recorded reply times x_1..x_n, the result holds the mean and the standard
deviation as computed in `float` arithmetic: the mean is the `float` quotient of
the `float` sum by n, and the standard deviation is the `float` square root of
the `float` quotient by n (population variance, the divisor is n, not n-1) of
the `float` sum of the squared differences, each square being added by a fused
multiply-add or after its own rounding as the build has contracted
`var_total_ms += diff * diff` or not, or 0 when that sum is not positive; with
received = 0 both are 0; for all-identical times the standard deviation is
exactly 0 whenever the computed mean equals the common time; and for the times
10, 20, 30 the mean is 20 and the standard deviation is the `float` 0x4102A3B3,
whose square is 200/3 to within 10^-5, in either build. -/
theorem Esp32IcmpPing.ping_mean_stddev (e : Esp32IcmpPing) (w : World)
    (hreach : e.ReachesLoop w) :
    (e.ping w).2.1.Received = (e.recordedTimes w).length ∧
      (e.ping w).2.1.AveTimeMs = F32.mean (e.recordedTimes w) ∧
      (e.ping w).2.1.StdDevTimeMs = F32.stdDev w.fpContract (e.recordedTimes w) ∧
      ((e.ping w).2.1.Received = 0 →
        (e.ping w).2.1.AveTimeMs = 0 ∧ (e.ping w).2.1.StdDevTimeMs = 0) ∧
      (∀ x, e.recordedTimes w = List.replicate (e.ping w).2.1.Received x →
        (e.ping w).2.1.AveTimeMs = x → (e.ping w).2.1.StdDevTimeMs = 0) ∧
      (e.recordedTimes w = [F32.ofInt 10, F32.ofInt 20, F32.ofInt 30] →
        (e.ping w).2.1.AveTimeMs = F32.ofInt 20 ∧
          (e.ping w).2.1.StdDevTimeMs = ((8561587 * 2 ^ 129 : Nat) : Int) ∧
          (200 * 100000 - 3) * (((2 ^ 149 : Nat) : Int) * ((2 ^ 149 : Nat) : Int)) <
            3 * 100000 * ((e.ping w).2.1.StdDevTimeMs * (e.ping w).2.1.StdDevTimeMs) ∧
          3 * 100000 * ((e.ping w).2.1.StdDevTimeMs * (e.ping w).2.1.StdDevTimeMs) <
            (200 * 100000 + 3) * (((2 ^ 149 : Nat) : Int) * ((2 ^ 149 : Nat) : Int))) := by
  obtain ⟨i1, i2, i3, i4, i5⟩ := Esp32IcmpPing.loopEnd_inv e w hreach.2.2.1
  simp only [MAX_COUNT] at i3 i4
  obtain ⟨_, _, f3, _⟩ := Esp32IcmpPing.finish_counts (e.loopEnd w) PingResults.new w.fpContract
    (by omega) (by omega)
  obtain ⟨g1, g2⟩ := Esp32IcmpPing.finish_stats (e.loopEnd w) PingResults.new w.fpContract
    (by omega) i5
  have hlen : (e.recordedTimes w).length = (e.loopEnd w).received := by
    simp only [Esp32IcmpPing.recordedTimes, List.length_take]
    omega
  have hrec : (e.ping w).2.1.Received = (e.recordedTimes w).length := by
    rw [Esp32IcmpPing.ping_loopEnd e w hreach, hlen]
    exact f3
  have hmean : (e.ping w).2.1.AveTimeMs = F32.mean (e.recordedTimes w) := by
    rw [Esp32IcmpPing.ping_loopEnd e w hreach]
    exact g1
  have hsd : (e.ping w).2.1.StdDevTimeMs = F32.stdDev w.fpContract (e.recordedTimes w) := by
    rw [Esp32IcmpPing.ping_loopEnd e w hreach]
    exact g2
  refine ⟨hrec, hmean, hsd, ?_, ?_, ?_⟩
  · intro h0
    rw [hrec] at h0
    have hnil : e.recordedTimes w = [] := List.length_eq_zero.mp h0
    rw [hmean, hsd, hnil]
    exact ⟨rfl, rfl⟩
  · intro x hx hm
    rw [hmean] at hm
    rw [hsd]
    simp only [F32.stdDev, hm]
    rw [hx, F32.sqDevSum_replicate]
    simp
  · intro h
    obtain ⟨a, b, c, d⟩ := F32.stats_10_20_30 w.fpContract
    rw [hmean, hsd, h, a, b]
    exact ⟨rfl, rfl, c, d⟩

set_option maxRecDepth 4000 in
theorem Esp32IcmpPing.ping_mean_stddev_witness :
    (sampleEngine 3).ReachesLoop (sampleWorld 3 (fun j => recvReply j (10000 * j))) ∧
      (sampleEngine 3).recordedTimes (sampleWorld 3 (fun j => recvReply j (10000 * j))) =
        [F32.ofInt 10, F32.ofInt 20, F32.ofInt 30] ∧
      ((sampleEngine 3).ping (sampleWorld 3 (fun j => recvReply j (10000 * j)))).2.1.AveTimeMs =
        F32.ofInt 20 ∧
      ((sampleEngine 3).ping
          (sampleWorld 3 (fun j => recvReply j (10000 * j)))).2.1.StdDevTimeMs =
        ((8561587 * 2 ^ 129 : Nat) : Int) ∧
      ((sampleEngine 2).ping (unevenWorld false)).2.1.StdDevTimeMs =
        F32.stdDev false ((sampleEngine 2).recordedTimes (unevenWorld false)) :=
  have h := ((Esp32IcmpPing.ping_mean_stddev (sampleEngine 3)
    (sampleWorld 3 (fun j => recvReply j (10000 * j))) (by decide)).2.2.2.2.2 (by decide))
  ⟨by decide, by decide, h.1, h.2.1,
    (Esp32IcmpPing.ping_mean_stddev (sampleEngine 2) (unevenWorld false) (by decide)).2.2.1⟩

/-! ### Receive errors and the bounds of the array of times -/

/-- A receive that fails with an `errno` other than `EAGAIN`/`EWOULDBLOCK`, or
that reads nothing, returns false and leaves `canContinue` false. -/
theorem Esp32IcmpPing.Receive_hard (r : RecvResult) (seq : Nat)
    (h : (r.len < 0 ∧ ¬ (r.errno = EAGAIN ∨ r.errno = EWOULDBLOCK)) ∨ r.len = 0) :
    Esp32IcmpPing.Receive r seq = (false, 0, false) := by
  rcases h with ⟨h1, h2⟩ | h
  · simp [Esp32IcmpPing.Receive, h1, h2]
  · simp [Esp32IcmpPing.Receive, h]

/-- The session whose loop ends after iteration `k`, the iterations before it
having gone on and probe `k` having been sent: `k` probes are transmitted, the
count of replies is the one iteration `k` leaves, and the close of the socket
is the only call after the receive of attempt `k`. -/
theorem Esp32IcmpPing.ping_ends_after (e : Esp32IcmpPing) (w : World) (k : Nat)
    (hreach : e.ReachesLoop w) (hk1 : 1 ≤ k) (hkn : k ≤ e.Options.Count)
    (hprev : ∀ j, 1 ≤ j → j < k → e.Continues w j) (hsend : w.sendto k > 0)
    (hend : (e.pingStep w (e.Options.GetAddress w).2.1 k
        (e.stateAfter w (e.Options.GetAddress w).2.1 (k - 1) 1
          (Esp32IcmpPing.loopStart (e.setupCalls w)))).2 = false ∨ k = e.Options.Count) :
    (e.ping w).2.1.Transmitted = k ∧
      (e.ping w).2.1.Received =
        (e.pingStep w (e.Options.GetAddress w).2.1 k
          (e.stateAfter w (e.Options.GetAddress w).2.1 (k - 1) 1
            (Esp32IcmpPing.loopStart (e.setupCalls w)))).1.received ∧
      (e.ping w).2.2.2 =
        e.setupCalls w ++ Esp32IcmpPing.probeCalls (e.Options.GetAddress w).2.1 1 k ++
          [Call.closesocket] := by
  obtain ⟨_, hcnt⟩ := PingOptions.count_le_of_isValid _ hreach.2.2.1
  obtain ⟨i1, i2, _⟩ := Esp32IcmpPing.loopEnd_inv e w hreach.2.2.1
  obtain ⟨_, f2, f3, _, _, f6⟩ := Esp32IcmpPing.finish_counts (e.loopEnd w) PingResults.new w.fpContract
    (by omega) (by omega)
  have hloop : e.loopEnd w = e.stateAfter w (e.Options.GetAddress w).2.1 k 1
      (Esp32IcmpPing.loopStart (e.setupCalls w)) :=
    Esp32IcmpPing.pingLoop_ends e w _ (by omega) k _ hk1 hkn hprev hend
  have hk : 1 + (k - 1) = k := by omega
  have hkk : k = (k - 1) + 1 := by omega
  have hst : e.stateAfter w (e.Options.GetAddress w).2.1 k 1
      (Esp32IcmpPing.loopStart (e.setupCalls w)) =
      (e.pingStep w (e.Options.GetAddress w).2.1 k
        (e.stateAfter w (e.Options.GetAddress w).2.1 (k - 1) 1
          (Esp32IcmpPing.loopStart (e.setupCalls w)))).1 := by
    conv_lhs => rw [hkk]
    rw [Esp32IcmpPing.stateAfter_succ, hk]
  obtain ⟨s1, s2, _, _⟩ := Esp32IcmpPing.stateAfter_sent e w (e.Options.GetAddress w).2.1 k 1
    (Esp32IcmpPing.loopStart (e.setupCalls w))
    (fun j h1 h2 => by
      by_cases hj : j < k
      · exact (hprev j h1 hj).1
      · have : j = k := by omega
        rw [this]; exact hsend)
    (by simp only [Esp32IcmpPing.loopStart]; omega)
    (by simp only [Esp32IcmpPing.loopStart]; omega)
  have h0t : (Esp32IcmpPing.loopStart (e.setupCalls w)).transmitted = 0 := rfl
  have h0c : (Esp32IcmpPing.loopStart (e.setupCalls w)).trace = e.setupCalls w := rfl
  rw [h0t] at s2
  rw [h0c] at s1
  rw [Esp32IcmpPing.ping_loopEnd e w hreach]
  simp only [f2, f3, f6]
  refine ⟨by rw [hloop, s2]; omega, by rw [hloop, hst], by rw [hloop, s1]⟩

/-- The session whose iterations up to `k` all go on, `k` being below the count:
the send of probe `k + 1` is the call after the receive of attempt `k`. -/
theorem Esp32IcmpPing.ping_goes_on (e : Esp32IcmpPing) (w : World) (k : Nat)
    (hreach : e.ReachesLoop w) (hkn : k < e.Options.Count)
    (hall : ∀ j, 1 ≤ j → j < 1 + k → e.Continues w j) :
    ∃ rest, (e.ping w).2.2.2 =
      e.setupCalls w ++ Esp32IcmpPing.probeCalls (e.Options.GetAddress w).2.1 1 k ++
        Call.sendto (e.Options.GetAddress w).2.1 (IcmpEchoRequest (k + 1)) :: rest := by
  obtain ⟨_, hcnt⟩ := PingOptions.count_le_of_isValid _ hreach.2.2.1
  obtain ⟨i1, i2, _⟩ := Esp32IcmpPing.loopEnd_inv e w hreach.2.2.1
  obtain ⟨_, _, _, _, _, f6⟩ := Esp32IcmpPing.finish_counts (e.loopEnd w) PingResults.new w.fpContract
    (by omega) (by omega)
  obtain ⟨s1, _⟩ := Esp32IcmpPing.stateAfter_sent e w (e.Options.GetAddress w).2.1 k 1
    (Esp32IcmpPing.loopStart (e.setupCalls w)) (fun j h1 h2 => (hall j h1 h2).1)
    (by simp only [Esp32IcmpPing.loopStart]; omega)
    (by simp only [Esp32IcmpPing.loopStart]; omega)
  have h0c : (Esp32IcmpPing.loopStart (e.setupCalls w)).trace = e.setupCalls w := rfl
  rw [h0c] at s1
  have hfuel : e.Options.Count = k + ((e.Options.Count - k - 1) + 1) := by omega
  have harr : e.loopEnd w =
      e.pingLoop w (e.Options.GetAddress w).2.1 ((e.Options.Count - k - 1) + 1) (1 + k)
        (e.stateAfter w (e.Options.GetAddress w).2.1 k 1
          (Esp32IcmpPing.loopStart (e.setupCalls w))) := by
    unfold Esp32IcmpPing.loopEnd
    conv_lhs => rw [hfuel]
    exact Esp32IcmpPing.pingLoop_arrives e w _ (by omega) k _ 1 _ hall (by omega)
  obtain ⟨l, hl⟩ := Esp32IcmpPing.pingLoop_trace_first e w (e.Options.GetAddress w).2.1
    (e.Options.Count - k - 1) (1 + k)
    (e.stateAfter w (e.Options.GetAddress w).2.1 k 1
      (Esp32IcmpPing.loopStart (e.setupCalls w))) (by omega)
  refine ⟨l ++ [Call.closesocket], ?_⟩
  rw [Esp32IcmpPing.ping_loopEnd e w hreach]
  simp only [f6]
  rw [harr, hl, s1, Nat.add_comm 1 k]
  simp

/-- C21: for every session that reaches the loop and every k ≤ count such that
the loop has not ended before probe k and probe k is sent: if the receive for
probe k returns a hard error (an `errno` other than `EAGAIN`/`EWOULDBLOCK`) or
a zero-length read, `Receive` returns false with `canContinue` false, and the
loop ends with transmitted = k and received unchanged, the close of the socket
being the only call after that receive; if instead the receive times out
(`EAGAIN`/`EWOULDBLOCK`), `Receive` returns false with `canContinue` true,
received is unchanged, the iteration goes on exactly when the overall timeout
is not exceeded, and then, k being below the count, the send of probe k+1 is
the next call. -/
theorem Esp32IcmpPing.ping_receive_error (e : Esp32IcmpPing) (w : World) (k : Nat)
    (hreach : e.ReachesLoop w) (hk1 : 1 ≤ k) (hkn : k ≤ e.Options.Count)
    (hprev : ∀ j, 1 ≤ j → j < k → e.Continues w j) (hsend : w.sendto k > 0) :
    ((((w.recvfrom k).len < 0 ∧
          ¬ ((w.recvfrom k).errno = EAGAIN ∨ (w.recvfrom k).errno = EWOULDBLOCK)) ∨
        (w.recvfrom k).len = 0) →
        Esp32IcmpPing.Receive (w.recvfrom k) k = (false, 0, false) ∧
          (e.ping w).2.1.Transmitted = k ∧
          (e.ping w).2.1.Received =
            (e.stateAfter w (e.Options.GetAddress w).2.1 (k - 1) 1
              (Esp32IcmpPing.loopStart (e.setupCalls w))).received ∧
          (e.ping w).2.2.2 =
            e.setupCalls w ++ Esp32IcmpPing.probeCalls (e.Options.GetAddress w).2.1 1 k ++
              [Call.closesocket]) ∧
      (((w.recvfrom k).len < 0 ∧
          ((w.recvfrom k).errno = EAGAIN ∨ (w.recvfrom k).errno = EWOULDBLOCK)) →
        Esp32IcmpPing.Receive (w.recvfrom k) k = (false, 0, true) ∧
          (e.pingStep w (e.Options.GetAddress w).2.1 k
              (e.stateAfter w (e.Options.GetAddress w).2.1 (k - 1) 1
                (Esp32IcmpPing.loopStart (e.setupCalls w)))).1.received =
            (e.stateAfter w (e.Options.GetAddress w).2.1 (k - 1) 1
              (Esp32IcmpPing.loopStart (e.setupCalls w))).received ∧
          (e.pingStep w (e.Options.GetAddress w).2.1 k
              (e.stateAfter w (e.Options.GetAddress w).2.1 (k - 1) 1
                (Esp32IcmpPing.loopStart (e.setupCalls w)))).2 =
            decide (w.elapsedMs k ≤ e.Options.TotalTimeoutMs) ∧
          (k < e.Options.Count → w.elapsedMs k ≤ e.Options.TotalTimeoutMs →
            ∃ rest, (e.ping w).2.2.2 =
              e.setupCalls w ++ Esp32IcmpPing.probeCalls (e.Options.GetAddress w).2.1 1 k ++
                Call.sendto (e.Options.GetAddress w).2.1 (IcmpEchoRequest (k + 1)) :: rest)) := by
  obtain ⟨_, _, p3, p4⟩ := Esp32IcmpPing.pingStep_sent e w (e.Options.GetAddress w).2.1 k
    (e.stateAfter w (e.Options.GetAddress w).2.1 (k - 1) 1
      (Esp32IcmpPing.loopStart (e.setupCalls w))) hsend
  constructor
  · intro hhard
    have hrecv := Esp32IcmpPing.Receive_hard (w.recvfrom k) k hhard
    rw [hrecv] at p3 p4
    simp only [Bool.false_eq_true, if_false, Bool.false_and] at p3 p4
    obtain ⟨a1, a2, a3⟩ := Esp32IcmpPing.ping_ends_after e w k hreach hk1 hkn hprev hsend
      (Or.inl p4)
    exact ⟨hrecv, a1, by rw [a2, p3], a3⟩
  · rintro ⟨hlen, herr⟩
    have hrecv := Esp32IcmpPing.Receive_timeout (w.recvfrom k) k hlen herr
    rw [hrecv] at p3 p4
    simp only [Bool.false_eq_true, if_false, Bool.true_and] at p3 p4
    refine ⟨hrecv, p3, p4, fun hlt hle => ?_⟩
    refine Esp32IcmpPing.ping_goes_on e w k hreach hlt (fun j h1 h2 => ?_)
    by_cases hj : j < k
    · exact hprev j h1 hj
    · have hjk : j = k := by omega
      rw [hjk]
      exact ⟨hsend, by rw [hrecv], hle⟩

theorem Esp32IcmpPing.ping_receive_error_witness :
    (sampleEngine 4).ReachesLoop brokenWorld ∧
      ((sampleEngine 4).ping brokenWorld).2.1.Transmitted = 2 ∧
      (∃ rest, ((sampleEngine 4).ping brokenWorld).2.2.2 =
        (sampleEngine 4).setupCalls brokenWorld ++
          Esp32IcmpPing.probeCalls ((sampleEngine 4).Options.GetAddress brokenWorld).2.1 1 1 ++
          Call.sendto ((sampleEngine 4).Options.GetAddress brokenWorld).2.1
            (IcmpEchoRequest (1 + 1)) :: rest) :=
  ⟨by decide,
    ((Esp32IcmpPing.ping_receive_error (sampleEngine 4) brokenWorld 2 (by decide) (by decide)
      (by decide)
      (fun j h1 h2 => by
        have hj : j = 1 := by omega
        subst hj
        decide)
      (by decide)).1 (Or.inl (by decide))).2.1,
    ((Esp32IcmpPing.ping_receive_error (sampleEngine 4) brokenWorld 1 (by decide) (by decide)
      (by decide) (fun j h1 h2 => by omega) (by decide)).2
        ⟨by decide, Or.inl (by decide)⟩).2.2.2 (by decide) (by decide)⟩

/-- An iteration leaves the array of times with the elements it had. -/
theorem Esp32IcmpPing.pingStep_length (e : Esp32IcmpPing) (w : World) (ip4 k : Nat)
    (st : LoopState) : (e.pingStep w ip4 k st).1.times_ms.length = st.times_ms.length := by
  simp only [Esp32IcmpPing.pingStep]
  split_ifs <;> simp

theorem Esp32IcmpPing.stateAfter_length (e : Esp32IcmpPing) (w : World) (ip4 : Nat) (n : Nat) :
    ∀ (seq : Nat) (st : LoopState),
      (e.stateAfter w ip4 n seq st).times_ms.length = st.times_ms.length := by
  induction n with
  | zero => intro seq st; rfl
  | succ n ih =>
    intro seq st
    rw [Esp32IcmpPing.stateAfter, ih, Esp32IcmpPing.pingStep_length]

/-- C22: for every engine with constructed options and every behaviour of the
resolver and the transport, the accesses to the array `times_ms` of
`MAX_COUNT` = 10 elements are within it. In the state after any n < Count()
iterations, which covers every state in which the loop calls `Receive`,
received ≤ transmitted ≤ n ≤ Count() - 1 ≤ 9 (so that at the call, after
`transmitted++`, received ≤ transmitted - 1), the index `received` is below the
10 elements the array has, and a value stored at `times_ms[received]` is found
there. In the state in which the loop ends, received is at most 10, so every
index i < received of the variance pass is below the 10 elements the array
has. -/
theorem Esp32IcmpPing.times_index_in_range (e : Esp32IcmpPing) (w : World) (ip4 : Nat)
    (host : String) (cnt recvTimeoutMs totalTimeoutMs : Nat)
    (hcfg : e.Options = PingOptions.create ip4 host cnt recvTimeoutMs totalTimeoutMs)
    (target : Nat) :
    (∀ (n : Nat) (v : F32), n < e.Options.Count →
        (e.loopState w target n).received ≤ (e.loopState w target n).transmitted ∧
          (e.loopState w target n).transmitted ≤ n ∧
          n ≤ e.Options.Count - 1 ∧ e.Options.Count - 1 ≤ 9 ∧
          (e.loopState w target n).received < MAX_COUNT ∧
          (e.loopState w target n).times_ms.length = MAX_COUNT ∧
          ((e.loopState w target n).times_ms.set (e.loopState w target n).received v).get?
            (e.loopState w target n).received = some v) ∧
      (e.loopEnd w).times_ms.length = MAX_COUNT ∧
      (e.loopEnd w).received ≤ MAX_COUNT ∧
      ∀ i, i < (e.loopEnd w).received → i < (e.loopEnd w).times_ms.length := by
  have hcount : e.Options.Count ≤ MAX_COUNT := by
    rw [hcfg]; exact PingOptions.create_count_le _ _ _ _ _
  have hlen0 : (Esp32IcmpPing.loopStart (e.setupCalls w)).times_ms.length = MAX_COUNT := by
    simp [Esp32IcmpPing.loopStart]
  have h0 : (Esp32IcmpPing.loopStart (e.setupCalls w)).transmitted = 0 := rfl
  obtain ⟨j1, j2, j3, _⟩ := Esp32IcmpPing.pingLoop_inv e w (e.Options.GetAddress w).2.1 hcount
    e.Options.Count 1 (Esp32IcmpPing.loopStart (e.setupCalls w)) (le_refl _) Nat.zero_lt_one
    (Nat.zero_le _) hlen0 rfl
  have hend : (e.loopEnd w).received ≤ MAX_COUNT := le_trans j1 (le_trans j2 hcount)
  refine ⟨?_, j3, hend, fun i hi => ?_⟩
  · intro n v hn
    obtain ⟨i1, i2⟩ := Esp32IcmpPing.stateAfter_inv e w target n 1
      (Esp32IcmpPing.loopStart (e.setupCalls w)) (le_refl _)
      (by rw [h0]; omega) hlen0 rfl
    have hlen := Esp32IcmpPing.stateAfter_length e w target n 1
      (Esp32IcmpPing.loopStart (e.setupCalls w))
    rw [hlen0] at hlen
    rw [h0] at i2
    simp only [Esp32IcmpPing.loopState, MAX_COUNT] at hcount hlen ⊢
    have hlt : (e.stateAfter w target n 1
        (Esp32IcmpPing.loopStart (e.setupCalls w))).received <
        (e.stateAfter w target n 1
          (Esp32IcmpPing.loopStart (e.setupCalls w))).times_ms.length := by omega
    refine ⟨i1, by omega, by omega, by omega, by omega, hlen, ?_⟩
    rw [List.get?_eq_getElem?, List.getElem?_set_eq_of_lt _ hlt]
  · have : (e.loopEnd w).times_ms.length = MAX_COUNT := j3
    omega

theorem Esp32IcmpPing.times_index_in_range_witness :
    (Esp32IcmpPing.mk (PingOptions.create 0x04040808 "" 200 1000 0) false).Options =
        PingOptions.create 0x04040808 "" 200 1000 0 ∧
      (9 : Nat) < (PingOptions.create 0x04040808 "" 200 1000 0).Count ∧
      ((Esp32IcmpPing.mk (PingOptions.create 0x04040808 "" 200 1000 0) false).loopState
          (sampleWorld 200 (fun j => recvReply j 1338)) 0x04040808 9).received < MAX_COUNT ∧
      ((Esp32IcmpPing.mk (PingOptions.create 0x04040808 "" 200 1000 0) false).loopEnd
          (sampleWorld 200 (fun j => recvReply j 1338))).received ≤ MAX_COUNT :=
  have h := Esp32IcmpPing.times_index_in_range
    (Esp32IcmpPing.mk (PingOptions.create 0x04040808 "" 200 1000 0) false)
    (sampleWorld 200 (fun j => recvReply j 1338)) 0x04040808 "" 200 1000 0 rfl 0x04040808
  ⟨rfl, by decide, (h.1 9 0 (by decide)).2.2.2.2.1, h.2.2.1⟩

/-! ### Requests and replies -/

/-- The header fields of a built request whose type byte has been replaced by
`t`: the packet has 40 bytes, code 0, the identifier 0xABAB, and the sequence
number in network byte order. -/
theorem IcmpEchoRequest_retyped (N t : Nat) (hN : N < 65536) :
    (IcmpPacket.ofBytes (store8 (IcmpEchoRequest N) 0 t)).size = 40 ∧
      (IcmpPacket.ofBytes (store8 (IcmpEchoRequest N) 0 t)).type = t % 256 ∧
      (IcmpPacket.ofBytes (store8 (IcmpEchoRequest N) 0 t)).code = 0 ∧
      (IcmpPacket.ofBytes (store8 (IcmpEchoRequest N) 0 t)).id = 0xABAB ∧
      (IcmpPacket.ofBytes (store8 (IcmpEchoRequest N) 0 t)).seqno = htons N := by
  have h1 : N / 256 % 256 = N / 256 := by omega
  have hsw : htons N = N % 256 * 256 + N / 256 := by
    unfold htons; rw [h1]
  rw [IcmpEchoRequest_bytes N hN, hsw]
  generalize internetChecksum ([8, 0, 0, 0, 171, 171, N / 256, N % 256] ++ List.range 32) = ck
  simp only [store8, List.cons_append, List.set, List.append_eq, IcmpPacket.ofBytes,
    IcmpPacket.type,
    IcmpPacket.code, IcmpPacket.id, IcmpPacket.seqno, IcmpPacket.load16, IcmpPacket.load8,
    List.getD_cons_zero, List.getD_cons_succ, List.length_cons, List.length_append,
    List.length_range, List.nil_append, List.length_nil, h1, Nat.mod_mod]
  refine ⟨by norm_num, trivial, by norm_num, by norm_num, by omega⟩

/-- C23: for every 16-bit sequence number N, the buffer obtained from
`IcmpEchoRequest(N)` by replacing only the type byte with 0 (an echoed reply)
is accepted by `IcmpEchoResponse::IsValid(N)` and rejected by `IsValid(M)` for
every other 16-bit M, while the unmodified request itself, whose type byte
is 8, is rejected by `IsValid(N)`. -/
theorem IcmpEchoRequest_reply_codec (N : Nat) (hN : N < 65536) :
    IcmpEchoResponse.IsValid (IcmpPacket.ofBytes (store8 (IcmpEchoRequest N) 0 ICMP_ER)) N =
        true ∧
      (∀ M, M < 65536 → M ≠ N →
        IcmpEchoResponse.IsValid (IcmpPacket.ofBytes (store8 (IcmpEchoRequest N) 0 ICMP_ER)) M =
          false) ∧
      (∀ i, i ≠ 0 → (store8 (IcmpEchoRequest N) 0 ICMP_ER).getD i 0 =
        (IcmpEchoRequest N).getD i 0) ∧
      (IcmpPacket.ofBytes (IcmpEchoRequest N)).type = 8 ∧
      IcmpEchoResponse.IsValid (IcmpPacket.ofBytes (IcmpEchoRequest N)) N = false := by
  obtain ⟨r1, r2, r3, r4, r5⟩ := IcmpEchoRequest_retyped N ICMP_ER hN
  obtain ⟨q1, q2, q3, q4, q5⟩ := IcmpEchoRequest_retyped N ICMP_ECHO hN
  have hsame : store8 (IcmpEchoRequest N) 0 ICMP_ECHO = IcmpEchoRequest N := by
    rw [IcmpEchoRequest_bytes N hN]
    rfl
  rw [hsame] at q1 q2 q3 q4 q5
  have hmod : ∀ M, M < 65536 → M % 2 ^ 16 = M := fun M hM => Nat.mod_eq_of_lt hM
  refine ⟨?_, ?_, ?_, q2, ?_⟩
  · rw [IcmpEchoResponse.fields_of_isValid, hmod N hN, r1, r2, r3, r4, r5]
    exact ⟨by norm_num, rfl, rfl, rfl, rfl⟩
  · intro M hM hne
    rw [Bool.eq_false_iff, ne_eq, IcmpEchoResponse.fields_of_isValid, hmod M hM, r5]
    rintro ⟨_, _, _, _, hs⟩
    have := congrArg htons hs
    rw [htons_htons N hN, htons_htons M hM] at this
    exact hne this.symm
  · intro i hi
    obtain ⟨j, rfl⟩ : ∃ j, i = j + 1 := ⟨i - 1, by omega⟩
    rw [IcmpEchoRequest_bytes N hN]
    rfl
  · rw [Bool.eq_false_iff, ne_eq, IcmpEchoResponse.fields_of_isValid, q2]
    rintro ⟨_, ht, _⟩
    exact absurd ht (by decide)

theorem IcmpEchoRequest_reply_codec_witness :
    (1 : Nat) < 65536 ∧
      IcmpEchoResponse.IsValid (IcmpPacket.ofBytes (store8 (IcmpEchoRequest 1) 0 ICMP_ER)) 1 =
        true ∧
      IcmpEchoResponse.IsValid (IcmpPacket.ofBytes (store8 (IcmpEchoRequest 1) 0 ICMP_ER)) 2 =
        false ∧
      IcmpEchoResponse.IsValid (IcmpPacket.ofBytes (IcmpEchoRequest 1)) 1 = false :=
  have h := IcmpEchoRequest_reply_codec 1 (by decide)
  ⟨by decide, h.1, h.2.1 2 (by decide) (by decide), h.2.2.2.2⟩

end Esp32
